import Mathlib

/-!
Verification of the OpenVAF-Reloaded DAE builder (`sim_back/src/dae/builder.rs`),
the input-derivative impls (`middle/src/inputs.rs`) and the body validator's
`$simparam` whitelist (`hir_ty/src/validation/body.rs`) against their
natural-language specification.

The MIR function is shallowly embedded: a value is a natural-number id into a
growing list of defining instructions; the four distinguished constants
`F_ZERO`, `F_ONE`, `TRUE`, `FALSE` occupy ids 0..3 as in the source crate.
-/

namespace OpenVAF

/-- The constant real `0.0`; value id 0 as in `mir`. -/
def F_ZERO : Nat := 0
/-- The constant real `1.0`; value id 1 as in `mir`. -/
def F_ONE : Nat := 1
/-- The boolean constant `true`; value id 2 as in `mir`. -/
def TRUE : Nat := 2
/-- The boolean constant `false`; value id 3 as in `mir`. -/
def FALSE : Nat := 3

/-- `hir_lower::CurrentKind`: which current a `ParamKind::Current` probes. -/
inductive CurrentKind where
  | branch (b : Nat)
  | unnamed (hi : Nat) (lo : Option Nat)
  | port (n : Nat)
deriving DecidableEq, Repr

/-- `hir::ParamSysFun` (only the members the builder uses are distinguished). -/
inductive ParamSysFun where
  | mfactor
  | temperature
  | other (n : Nat)
deriving DecidableEq, Repr

/-- `hir_lower::ParamKind`: the kinds of placeholder parameters interned by the
HIR interner. -/
inductive ParamKind where
  | param (p : Nat)
  | paramGiven (p : Nat)
  | paramSysFun (f : ParamSysFun)
  | voltage (hi : Nat) (lo : Option Nat)
  | current (k : CurrentKind)
  | portConnected (p : Nat)
  | hiddenState (v : Nat)
  | implicitUnknown (eq : Nat)
  | newState (s : Nat)
deriving DecidableEq, Repr

/-- `sim_back::SimUnknownKind`: the unknowns the simulator solves for. -/
inductive SimUnknownKind where
  | kirchoffLaw (n : Nat)
  | current (k : CurrentKind)
  | implicit (eq : Nat)
deriving DecidableEq, Repr

/-- A value-producing instruction (or constant / function-parameter marker):
the defining entry of a value in the function's dense value table. Ids 0..3
are the distinguished constants. The opcodes listed are exactly those the DAE
builder emits. -/
inductive IDef where
  /-- constant slot: 0 ↦ `0.0`, 1 ↦ `1.0`, 2 ↦ `true`, 3 ↦ `false` -/
  | const (k : Nat)
  /-- a function parameter interned for a `ParamKind` -/
  | param (k : ParamKind)
  | fadd (a b : Nat)
  | fsub (a b : Nat)
  | fmul (a b : Nat)
  | fdiv (a b : Nat)
  | fneg (a : Nat)
  | sqrt (a : Nat)
  /-- `optbarrier v`: semantic identity anchoring `v` -/
  | optbarrier (a : Nat)
  /-- two-input `phi` as built by `switch_branch`: `(block, value)` pairs -/
  | phi2 (c : Nat × Nat) (v : Nat × Nat)
deriving DecidableEq, Repr

/-- A block terminator. -/
inductive Term where
  | br (cond : Nat) (t e : Nat)
  | jump (d : Nat)
deriving DecidableEq, Repr

/-- The embedded MIR function together with the cursor state the builder
threads through it: a dense value table (`defs`, value `v` is defined by
`defs.get? v`), the block each defining instruction was inserted in
(`defblock`, parallel to `defs`), the emitted terminators in emission order,
the number of allocated blocks, and the cursor's current block. -/
structure Func where
  defs : List IDef
  defblock : List Nat
  terms : List (Nat × Term)
  nblocks : Nat
  cur : Nat
deriving DecidableEq, Repr

namespace Func

/-- The function a fresh `mir::Function` presents to the builder: the four
distinguished constants are pre-allocated at ids 0..3. Further values (params,
instructions) follow. -/
def initDefs : List IDef := [.const 0, .const 1, .const 2, .const 3]

/-- Append an instruction at the cursor (`cursor.ins().<op>`), returning the
new function and the result value id. -/
def append (f : Func) (d : IDef) : Func × Nat :=
  ({ f with defs := f.defs ++ [d], defblock := f.defblock ++ [f.cur] }, f.defs.length)

/-- Number of values allocated so far (`dfg.num_values()`). -/
def numValues (f : Func) : Nat := f.defs.length

/-- Replace the defining instruction of an existing value (used by
`update_optbarrier` to rewrite an optbarrier's operand in place). -/
def setDef (f : Func) (v : Nat) (d : IDef) : Func :=
  { f with defs := f.defs.set v d }

/-- Emit a `br cond, then_bb, else_bb` terminator in the cursor's block. -/
def insBr (f : Func) (cond : Nat) (t e : Nat) : Func :=
  { f with terms := f.terms ++ [(f.cur, .br cond t e)] }

/-- Emit a `jump dest` terminator in the cursor's block. -/
def insJump (f : Func) (d : Nat) : Func :=
  { f with terms := f.terms ++ [(f.cur, .jump d)] }

/-- `layout_mut().append_new_block()`: allocate a fresh block at the end of
the layout. -/
def appendNewBlock (f : Func) : Func × Nat :=
  ({ f with nblocks := f.nblocks + 1 }, f.nblocks)

/-- `cursor.goto_bottom(bb)`: position the cursor at the end of `bb`. -/
def gotoBottom (f : Func) (bb : Nat) : Func :=
  { f with cur := bb }

/-- Fuelled optbarrier peeling; the fuel bounds the chain length. -/
def stripGo (defs : List IDef) : Nat → Nat → Nat
  | 0, v => v
  | fuel + 1, v =>
    match defs.get? v with
    | some (.optbarrier a) => stripGo defs fuel a
    | _ => v

end Func

/-- `mir::strip_optbarrier`: follow `optbarrier` definitions back until the
underlying (non-barrier) value is reached. -/
def strip_optbarrier (f : Func) (v : Nat) : Nat :=
  Func.stripGo f.defs f.defs.length v

/-- The operand values an instruction reads. -/
def IDef.ops : IDef → List Nat
  | .const _ => []
  | .param _ => []
  | .fadd a b | .fsub a b | .fmul a b | .fdiv a b => [a, b]
  | .fneg a | .sqrt a | .optbarrier a => [a]
  | .phi2 c v => [c.2, v.2]

/-- Strict SSA order: every defining instruction only reads values with
strictly smaller ids (values are allocated in definition order, so any
function produced purely by appending satisfies this). -/
def StrictWF (f : Func) : Prop :=
  ∀ v d, f.defs.get? v = some d → ∀ a ∈ d.ops, a < v

/-- The four distinguished constants occupy their reserved slots. -/
def HasConsts (f : Func) : Prop :=
  f.defs.get? 0 = some (.const 0) ∧ f.defs.get? 1 = some (.const 1) ∧
    f.defs.get? 2 = some (.const 2) ∧ f.defs.get? 3 = some (.const 3)

/-- `sim_back::dae::Residual`: one residual slot, six IR values. Modelled from
the spec: the struct lives in `dae/mod.rs` (not under the covered sources);
§3 lists exactly these six fields, each an IR value, defaulting to `F_ZERO`. -/
structure Residual where
  resist : Nat := F_ZERO
  react : Nat := F_ZERO
  resist_small_signal : Nat := F_ZERO
  react_small_signal : Nat := F_ZERO
  resist_lim_rhs : Nat := F_ZERO
  react_lim_rhs : Nat := F_ZERO
deriving DecidableEq, Repr

/-- The default residual appended by `ensure_unknown`: all fields `F_ZERO`. -/
def Residual.zero : Residual := {}

/-- `sim_back::dae::MatrixEntry`: one sparse Jacobian entry. -/
structure MatrixEntry where
  row : Nat
  col : Nat
  resist : Nat
  react : Nat
deriving DecidableEq, Repr

/-- A noise record attached to a contribution by the topology pass
(`sim_back::topology`, not under the covered sources): name, kind and the
scaling-factor IR value. Name and kind are opaque tags here. -/
structure NoiseSrc where
  name : Nat
  kind : Nat
  factor : Nat
deriving DecidableEq, Repr

/-- `sim_back::noise::NoiseSource`: a noise source of the finished DAE system,
pinned between the `hi` unknown and the optional `lo` unknown (indices into
the unknown set). -/
structure NoiseSource where
  name : Nat
  kind : Nat
  hi : Nat
  lo : Option Nat
  factor : Nat
deriving DecidableEq, Repr

/-- `sim_back::topology::Contribution`. Modelled from the spec (§4.6):
an optional designator value `unknown`, the four branch-contribution IR
values, and a noise list. -/
structure Contribution where
  unknown : Option Nat
  resist : Nat
  react : Nat
  resist_small_signal : Nat
  react_small_signal : Nat
  noise : List NoiseSrc
deriving DecidableEq, Repr

/-- Modelled from the spec (§4.6): a contribution is trivial when all four
values equal `F_ZERO` and the noise list is empty. -/
def Contribution.is_trivial (c : Contribution) : Bool :=
  c.resist == F_ZERO && c.react == F_ZERO && c.resist_small_signal == F_ZERO &&
    c.react_small_signal == F_ZERO && c.noise.isEmpty

/-- `sim_back::topology::BranchInfo`: the per-branch record the topology pass
hands to `build_branch`. -/
structure BranchInfo where
  voltage_src : Contribution
  current_src : Contribution
  is_voltage_src : Nat
deriving DecidableEq, Repr

/-- `hir::BranchWrite` together with the data the builder extracts from it:
`branch.into()` yields the `CurrentKind` and `dst.nodes(db)` yields the
`(hi, lo)` node pair. -/
structure BranchWrite where
  kind : CurrentKind
  hi : Nat
  lo : Option Nat
deriving DecidableEq, Repr

/-- The DAE builder state: the `DaeSystem` under construction plus the parts
of the `Context` the builder mutates or consults (`mir::Function` with cursor,
the HIR interner's param table and limit-state table, output-value set) and
oracles for the facts the builder reads from crates not under the covered
sources (parameter liveness from `HirInterner`, value deadness from the
data-flow graph, operating-point dependence from `op_dependent_insts`). -/
structure State where
  func : Func
  /-- interner param table (insertion-ordered `ParamKind ↦ Nat` map) -/
  params : List (ParamKind × Nat)
  /-- oracle: kinds whose interned value is live in the IR
      (`HirInterner::live_params` / `is_param_live`, crate not under src) -/
  liveParams : List ParamKind
  /-- oracle: values with zero live uses (`dfg.value_dead`) -/
  dead : List Nat
  /-- oracle: values computed from operating-point dependent instructions
      (`util::is_op_dependent`, not under src) -/
  opDependent : List Nat
  /-- interner limit-state table: baseline value ↦ (value, negate) list,
      insertion-ordered; the position is the `Nat` index -/
  limState : List (Nat × List (Nat × Bool))
  /-- DaeSystem: ordered unknown set -/
  unknowns : List SimUnknownKind
  /-- DaeSystem: residual slots, parallel to `unknowns` -/
  residual : List Residual
  jacobian : List MatrixEntry
  noise_sources : List NoiseSource
  model_inputs : List (Nat × Nat)
  small_signal_parameters : List Nat
  /-- the function's `output_values` set (membership is what matters) -/
  output_values : List Nat
  num_resistive : Nat := 0
  num_reactive : Nat := 0
deriving Repr

/-- `HirInterner::is_param_live` (oracle, see `State.liveParams`). -/
def State.is_param_live (s : State) (k : ParamKind) : Bool :=
  decide (k ∈ s.liveParams)

/-- `dfg.value_dead` (oracle, see `State.dead`). -/
def State.value_dead (s : State) (v : Nat) : Bool :=
  decide (v ∈ s.dead)

/-- `util::is_op_dependent` (oracle, see `State.opDependent`). -/
def State.is_op_dependent (s : State) (v : Nat) : Bool :=
  decide (v ∈ s.opDependent)

/-- Ordered-map lookup in the interner's param table. -/
def plookup (ps : List (ParamKind × Nat)) (k : ParamKind) : Option Nat :=
  (ps.find? (fun p => decide (p.1 = k))).map (·.2)

/-- Index of a sim-unknown in the ordered unknown set
(`system.unknowns.index(&u)`). -/
def uindex : List SimUnknownKind → SimUnknownKind → Option Nat
  | [], _ => none
  | x :: xs, u => if x = u then some 0 else (uindex xs u).map (· + 1)

/-- Index of a value in the `KnownDerivatives` unknown set
(`derivative_info.unknowns.index(&val)`). -/
def dindex : List Nat → Nat → Option Nat
  | [], _ => none
  | x :: xs, v => if x = v then some 0 else (dindex xs v).map (· + 1)

/-- Lookup in the AD result map (`derivatives.get(&(value, unknown))`). -/
def dlookup (derivs : List ((Nat × Nat) × Nat)) (v : Nat) (u : Nat) :
    Option Nat :=
  (derivs.find? (fun p => decide (p.1 = (v, u)))).map (·.2)

/-- Lookup in the interner's limit-state table by baseline value
(`intern.lim_state.raw.get(&val)`). -/
def limLookup (ls : List (Nat × List (Nat × Bool))) (v : Nat) :
    Option (List (Nat × Bool)) :=
  (ls.find? (fun p => decide (p.1 = v))).map (·.2)

namespace Util

/-- `sim_back::util::add` (file not under the covered sources; modelled from
the spec and the call-site comments in `builder.rs`: "Add or subtract val
to/from the residual value, replace the residual value by the result"): a
no-op for `val = F_ZERO`; the bare value (or its negation) when the
accumulator is still `F_ZERO`; otherwise a fresh `fadd`/`fsub`. -/
def add (f : Func) (dst val : Nat) (negate : Bool) : Func × Nat :=
  if val = F_ZERO then (f, dst)
  else if dst = F_ZERO then
    if negate then f.append (.fneg val) else (f, val)
  else if negate then f.append (.fsub dst val)
  else f.append (.fadd dst val)

/-- `mir::update_optbarrier` (crate not under the covered sources; modelled
from the spec §4.7: the value inside the optbarrier wrapper is replaced by
the callback's result — here always `fmul(mfactor, inner)`). -/
def update_optbarrier (f : Func) (val : Nat) (mfactor : Nat) : Func :=
  match f.defs.get? val with
  | some (.optbarrier inner) =>
    let (f, m) := f.append (.fmul mfactor inner)
    f.setDef val (.optbarrier m)
  | _ => f

/-- `mir` cursor `ins().ensure_optbarrier(val)` (crate not under the covered
sources; modelled from the spec (P3): after it, the value either equals
`F_ZERO` or has an `optbarrier` as its defining instruction — so `F_ZERO` and
values already defined by an `optbarrier` pass through, every other value is
wrapped in a fresh `optbarrier`). -/
def ensure_optbarrier (f : Func) (val : Nat) : Func × Nat :=
  if val = F_ZERO then (f, val)
  else
    match f.defs.get? val with
    | some (.optbarrier _) => (f, val)
    | _ => f.append (.optbarrier val)

end Util

/-- `Residual::add` (builder.rs:26): strip optbarriers off `val`, then add or
subtract it onto the resistive residual value. -/
def Residual.add (r : Residual) (f : Func) (negate : Bool) (val : Nat) :
    Func × Residual :=
  let val := strip_optbarrier f val
  let fa := Util.add f r.resist val negate
  (fa.1, { r with resist := fa.2 })

/-- `Residual::add_contribution` (builder.rs:34): add (or subtract) each of
the four optbarrier-stripped contribution values onto the matching residual
field. -/
def Residual.add_contribution (r : Residual) (c : Contribution) (f : Func)
    (negate : Bool) : Func × Residual :=
  let a1 := Util.add f r.resist (strip_optbarrier f c.resist) negate
  let a2 := Util.add a1.1 r.react (strip_optbarrier a1.1 c.react) negate
  let a3 := Util.add a2.1 r.resist_small_signal
    (strip_optbarrier a2.1 c.resist_small_signal) negate
  let a4 := Util.add a3.1 r.react_small_signal
    (strip_optbarrier a3.1 c.react_small_signal) negate
  (a4.1,
   { r with
     resist := a1.2
     react := a2.2
     resist_small_signal := a3.2
     react_small_signal := a4.2 })

namespace Builder

/-- `HirInterner::ensure_param` (crate not under the covered sources;
modelled from the spec §4.2: on first request for a kind a fresh function
parameter value is allocated, subsequent requests return the same value). -/
def ensure_param (s : State) (k : ParamKind) : State × Nat :=
  match plookup s.params k with
  | some v => (s, v)
  | none =>
    let fv := s.func.append (.param k)
    ({ s with func := fv.1, params := s.params ++ [(k, fv.2)] }, fv.2)

/-- `Builder::ensure_unknown` (builder.rs:664): insert the kind into the
ordered unknown set if absent, appending a default residual slot, and return
its index. -/
def ensure_unknown (s : State) (u : SimUnknownKind) : State × Nat :=
  match uindex s.unknowns u with
  | some i => (s, i)
  | none =>
    ({ s with unknowns := s.unknowns ++ [u],
              residual := s.residual ++ [Residual.zero] }, s.unknowns.length)

/-- The `get_residual!` pattern: ensure the unknown, then update its residual
slot in place with a function-threading mutation. -/
def modifyResidual (s : State) (u : SimUnknownKind)
    (g : Func → Residual → Func × Residual) : State :=
  let si := ensure_unknown s u
  match si.1.residual.get? si.2 with
  | some r =>
    let fr := g si.1.func r
    { si.1 with func := fr.1, residual := si.1.residual.set si.2 fr.2 }
  | none => si.1

/-- `Builder::add_noise` (builder.rs:672): ensure both unknowns and extend
the noise-source list with the contribution's noise records. -/
def add_noise (s : State) (c : Contribution) (hi : SimUnknownKind)
    (lo : Option SimUnknownKind) : State :=
  let sh := ensure_unknown s hi
  let sl : State × Option Nat :=
    match lo with
    | some l => ((ensure_unknown sh.1 l).1, some (ensure_unknown sh.1 l).2)
    | none => (sh.1, none)
  { sl.1 with noise_sources := sl.1.noise_sources ++
      c.noise.map (fun src => ⟨src.name, src.kind, sh.2, sl.2, src.factor⟩) }

/-- `Builder::add_kirchoff_law` (builder.rs:686): add the contribution at the
`hi` node's residual, subtract it at `lo` (when present), then register the
noise. -/
def add_kirchoff_law (s : State) (c : Contribution) (dst : BranchWrite) :
    State :=
  let hi := SimUnknownKind.kirchoffLaw dst.hi
  let lo := dst.lo.map SimUnknownKind.kirchoffLaw
  let s := modifyResidual s hi (fun f r => r.add_contribution c f false)
  let s :=
    match lo with
    | some l => modifyResidual s l (fun f r => r.add_contribution c f true)
    | none => s
  add_noise s c hi lo

/-- `Builder::add_source_equation` (builder.rs:698): the branch-current row
receives the contribution and then, negated, the contribution's designator
value (`unknown`); the noise is registered on the current row; finally the
equation value `eq_val` is added at `hi` and subtracted at `lo`. -/
def add_source_equation (s : State) (c : Contribution) (eq_val : Nat)
    (dst : BranchWrite) : State :=
  let cu := SimUnknownKind.current dst.kind
  let s := modifyResidual s cu (fun f r =>
    let fr := r.add_contribution c f false
    fr.2.add fr.1 true (c.unknown.getD F_ZERO))
  let s := add_noise s c cu none
  let hi := SimUnknownKind.kirchoffLaw dst.hi
  let lo := dst.lo.map SimUnknownKind.kirchoffLaw
  let s := modifyResidual s hi (fun f r => r.add f false eq_val)
  match lo with
  | some l => modifyResidual s l (fun f r => r.add f true eq_val)
  | none => s

/-- `Builder::mfactor_multiply` (builder.rs:513): scale a noise factor by
`sqrt(mfactor)`, with the `mfactor = 1` identity fast path (the comparison is
on IR value ids, as in the source). -/
def mfactor_multiply (f : Func) (mfactor srcfactor : Nat) : Func × Nat :=
  if mfactor = F_ONE then (f, srcfactor)
  else
    let fs := f.append (.sqrt mfactor)
    if srcfactor = F_ONE then fs
    else fs.1.append (.fmul srcfactor fs.2)

/-- `Builder::mfactor_divide` (builder.rs:534): divide a noise factor by
`sqrt(mfactor)`, with the `mfactor = 1` identity fast path. -/
def mfactor_divide (f : Func) (mfactor srcfactor : Nat) : Func × Nat :=
  if mfactor = F_ONE then (f, srcfactor)
  else
    let fs := f.append (.sqrt mfactor)
    fs.1.append (.fdiv srcfactor fs.2)

/-- Thread the function through a list transformation in iteration order. -/
def mapState (g : Func → α → Func × α) : Func → List α → Func × List α
  | f, [] => (f, [])
  | f, x :: xs =>
    let fy := g f x
    let frest := mapState g fy.1 xs
    (frest.1, fy.2 :: frest.2)

/-- `Builder::current_branch` (builder.rs:549): the current-source
contribution with every noise factor multiplied by `sqrt(mfactor)`. -/
def current_branch (s : State) (info : BranchInfo) : State × Contribution :=
  let (s, mfactor) := Builder.ensure_param s (.paramSysFun .mfactor)
  let (f, noise) := mapState
    (fun f src =>
      let (f, fac) := mfactor_multiply f mfactor src.factor
      (f, { src with factor := fac }))
    s.func info.current_src.noise
  ({ s with func := f },
   { unknown := info.current_src.unknown,
     resist := info.current_src.resist,
     react := info.current_src.react,
     resist_small_signal := info.current_src.resist_small_signal,
     react_small_signal := info.current_src.react_small_signal,
     noise := noise })

/-- `Builder::voltage_branch` (builder.rs:571): the voltage-source
contribution with every noise factor divided by `sqrt(mfactor)`. -/
def voltage_branch (s : State) (info : BranchInfo) : State × Contribution :=
  let (s, mfactor) := Builder.ensure_param s (.paramSysFun .mfactor)
  let (f, noise) := mapState
    (fun f src =>
      let (f, fac) := mfactor_divide f mfactor src.factor
      (f, { src with factor := fac }))
    s.func info.voltage_src.noise
  ({ s with func := f },
   { unknown := info.voltage_src.unknown,
     resist := info.voltage_src.resist,
     react := info.voltage_src.react,
     resist_small_signal := info.voltage_src.resist_small_signal,
     react_small_signal := info.voltage_src.react_small_signal,
     noise := noise })

/-- The `select` closure of `Builder::switch_branch` (builder.rs:599): strip
optbarriers off both sides; if they agree, use the shared value, otherwise
emit a `phi` taking the current-source value along `current_bb` and the
voltage-source value along `voltage_bb`. -/
def switch_select (f : Func) (voltage_bb current_bb : Nat)
    (voltage_src_val current_src_val : Nat) : Func × Nat :=
  let voltage_src_val := strip_optbarrier f voltage_src_val
  let current_src_val := strip_optbarrier f current_src_val
  if voltage_src_val = current_src_val then (f, voltage_src_val)
  else f.append (.phi2 (current_bb, current_src_val) (voltage_bb, voltage_src_val))

/-- `Builder::switch_branch` (builder.rs:593): join the voltage- and
current-source contributions with `phi`s (via `select`), then scale the noise
factors by `mfactor` — voltage-side noise divided, current-side noise
multiplied by `sqrt(mfactor)`. -/
def switch_branch (s : State) (info : BranchInfo)
    (voltage_bb current_bb : Nat) : State × Contribution :=
  let f := s.func
  let (f, unknown) := switch_select f voltage_bb current_bb
    (info.voltage_src.unknown.getD F_ZERO) (info.current_src.unknown.getD F_ZERO)
  let (f, vnoise) := mapState
    (fun f src =>
      let (f, fac) := switch_select f voltage_bb current_bb src.factor F_ZERO
      (f, { src with factor := fac }))
    f info.voltage_src.noise
  let (f, cnoise) := mapState
    (fun f src =>
      let (f, fac) := switch_select f voltage_bb current_bb F_ZERO src.factor
      (f, { src with factor := fac }))
    f info.current_src.noise
  let (f, phi_resist) := switch_select f voltage_bb current_bb
    info.voltage_src.resist info.current_src.resist
  let (f, phi_react) := switch_select f voltage_bb current_bb
    info.voltage_src.react info.current_src.react
  let (f, phi_resist_ss) := switch_select f voltage_bb current_bb
    info.voltage_src.resist_small_signal info.current_src.resist_small_signal
  let (f, phi_react_ss) := switch_select f voltage_bb current_bb
    info.voltage_src.react_small_signal info.current_src.react_small_signal
  let s := { s with func := f }
  let (s, mfactor) := Builder.ensure_param s (.paramSysFun .mfactor)
  let (f, vnoise) := mapState
    (fun f src =>
      let (f, fac) := mfactor_divide f mfactor src.factor
      (f, { src with factor := fac }))
    s.func vnoise
  let (f, cnoise) := mapState
    (fun f src =>
      let (f, fac) := mfactor_multiply f mfactor src.factor
      (f, { src with factor := fac }))
    f cnoise
  ({ s with func := f },
   { unknown := some unknown,
     resist := phi_resist,
     react := phi_react,
     resist_small_signal := phi_resist_ss,
     react_small_signal := phi_react_ss,
     noise := vnoise ++ cnoise })

/-- `Builder::build_branch` (builder.rs:403): classify the branch by its
`is_voltage_src` value (constant `FALSE` → current branch, constant `TRUE` →
voltage branch, anything else → switch branch) and emit the corresponding
residual contributions, source equation and, for a genuine switch branch, the
`start → (voltage_src_bb | next) → next` control-flow split. -/
def build_branch (s : State) (branch : BranchWrite) (info : BranchInfo) :
    State :=
  let current := branch.kind
  if info.is_voltage_src = FALSE then
    -- current branch: an extra unknown is required if the current is probed
    let requires_unknown := s.is_param_live (.current current)
    let (s, contrib) := current_branch s info
    if requires_unknown then
      Builder.add_source_equation s contrib (info.current_src.unknown.getD F_ZERO)
        branch
    else
      Builder.add_kirchoff_law s contrib branch
  else if info.is_voltage_src = TRUE then
    -- voltage branch: branches only used for node collapsing look like pure
    -- voltage sources and are skipped
    let requires_unknown := s.is_param_live (.current current)
    if requires_unknown || !info.voltage_src.is_trivial then
      let (s, contrib) := voltage_branch s info
      Builder.add_source_equation s contrib (info.current_src.unknown.getD F_ZERO)
        branch
    else s
  else
    let requires_current_unknown :=
      !(s.value_dead (info.current_src.unknown.getD F_ZERO))
    let op_dependent := s.is_op_dependent info.is_voltage_src
    if op_dependent || requires_current_unknown || !info.voltage_src.is_trivial
    then
      -- an actual switch branch: split the block
      let start_bb := s.func.cur
      let (f, voltage_src_bb) := s.func.appendNewBlock
      let (f, next_block) := f.appendNewBlock
      let is_voltage_src := strip_optbarrier f info.is_voltage_src
      let f := f.insBr is_voltage_src voltage_src_bb next_block
      let f := f.gotoBottom voltage_src_bb
      let f := f.insJump next_block
      let f := f.gotoBottom next_block
      let s := { s with func := f }
      let (s, contrib) := switch_branch s info voltage_src_bb start_bb
      Builder.add_source_equation s contrib (info.current_src.unknown.getD F_ZERO)
        branch
    else
      -- not a real switch branch
      let (s, contrib) := current_branch s info
      Builder.add_kirchoff_law s contrib branch

/-- The control-flow split `build_branch` performs for a genuine switch
branch (builder.rs:458-489): allocate `voltage_src_bb` and `next_block`,
terminate the current block with `br` on the optbarrier-stripped condition,
terminate `voltage_src_bb` with a `jump`, and move the cursor to
`next_block`; returns the new state with the two fresh block ids. -/
def switch_split (s : State) (cond : Nat) : State × Nat × Nat :=
  let fv := s.func.appendNewBlock
  let fn := fv.1.appendNewBlock
  let is_v := strip_optbarrier fn.1 cond
  let f := ((fn.1.insBr is_v fv.2 fn.2).gotoBottom fv.2).insJump fn.2
  let f := f.gotoBottom fn.2
  ({ s with func := f }, fv.2, fn.2)

/-- `Builder::build_implicit_equation` (builder.rs:505). -/
def build_implicit_equation (s : State) (eq : Nat)
    (c : Contribution) : State :=
  Builder.modifyResidual s (.implicit eq) (fun f r => r.add_contribution c f false)

/-- `Builder::build_node` (builder.rs:119). -/
def build_node (s : State) (n : Nat) : State :=
  (Builder.ensure_unknown s (.kirchoffLaw n)).1

/-- Whether a sim-unknown is a Kirchhoff law
(`matches!(unknowns[u], SimUnknownKind::KirchoffLaw(_))`). -/
def isKirchoff (us : List SimUnknownKind) (i : Nat) : Bool :=
  match us.get? i with
  | some (.kirchoffLaw _) => true
  | _ => false

/-- The `ensure_optbarrier` closure of `Builder::ensure_optbarriers`
(builder.rs:720): wrap the value in an optbarrier, on a Kirchhoff row
additionally multiply the wrapped value by `mfactor` inside the wrapper, and
record the result in the function's `output_values` set. -/
def eob (s : State) (mfactor : Nat) (is_kirchoff_law : Bool) (val : Nat) :
    State × Nat :=
  let (f, val) := Util.ensure_optbarrier s.func val
  let f :=
    if is_kirchoff_law ∧ val ≠ F_ZERO then Util.update_optbarrier f val mfactor
    else f
  ({ s with func := f, output_values := s.output_values ++ [val] }, val)

/-- One iteration of the residual loop of `ensure_optbarriers`
(builder.rs:731): the two (sic) assignments `react_small_signal = F_ZERO`
replicate the source verbatim, then every field is passed through the
`ensure_optbarrier` closure (`Residual::map_vals` over all six fields,
modelled from the spec: "every residual … IR value is wrapped"). -/
def eob_residual (mfactor : Nat) (s : State) (i : Nat) : State :=
  match s.residual.get? i with
  | some r =>
    let r := { r with react_small_signal := F_ZERO }
    let r := { r with react_small_signal := F_ZERO }
    let is_kirchoff := isKirchoff s.unknowns i
    let (s, resist) := eob s mfactor is_kirchoff r.resist
    let (s, react) := eob s mfactor is_kirchoff r.react
    let (s, rss) := eob s mfactor is_kirchoff r.resist_small_signal
    let (s, xss) := eob s mfactor is_kirchoff r.react_small_signal
    let (s, rlr) := eob s mfactor is_kirchoff r.resist_lim_rhs
    let (s, xlr) := eob s mfactor is_kirchoff r.react_lim_rhs
    { s with residual := s.residual.set i ⟨resist, react, rss, xss, rlr, xlr⟩ }
  | none => s

/-- One iteration of the noise loop of `ensure_optbarriers` (builder.rs:741):
`NoiseSource::map_vals` touches the factor value. -/
def eob_noise (mfactor : Nat) (s : State) (i : Nat) : State :=
  match s.noise_sources.get? i with
  | some n =>
    let (s, fac) := eob s mfactor false n.factor
    { s with noise_sources := s.noise_sources.set i { n with factor := fac } }
  | none => s

/-- One iteration of the Jacobian loop of `ensure_optbarriers`
(builder.rs:745). -/
def eob_entry (mfactor : Nat) (s : State) (i : Nat) : State :=
  match s.jacobian.get? i with
  | some e =>
    let is_kirchoff := isKirchoff s.unknowns e.row
    let (s, resist) := eob s mfactor is_kirchoff e.resist
    let (s, react) := eob s mfactor is_kirchoff e.react
    { s with jacobian := s.jacobian.set i { e with resist := resist, react := react } }
  | none => s

/-- `Builder::ensure_optbarriers` (builder.rs:716): wrap every residual,
noise and matrix value in an optbarrier (multiplying Kirchhoff-row values by
`mfactor` inside the wrapper) and record them as output values; `mfactor`
itself is anchored as well. -/
def ensure_optbarriers (s : State) : State :=
  let (s, mfactor) := Builder.ensure_param s (.paramSysFun .mfactor)
  let s := (List.range s.residual.length).foldl (eob_residual mfactor) s
  let s := (eob s mfactor false mfactor).1
  let s := (List.range s.noise_sources.length).foldl (eob_noise mfactor) s
  (List.range s.jacobian.length).foldl (eob_entry mfactor) s

/-- `HirInterner::live_params` restricted to the interner's param table: the
params whose value is still used, in insertion order (liveness itself is the
oracle `State.liveParams`). -/
def live_params (s : State) : List (ParamKind × Nat) :=
  s.params.filter (fun kv => decide (kv.1 ∈ s.liveParams))

/-- `Builder::sim_unknown_reads` (builder.rs:139): the live params of kinds
`Voltage`, `Current`, `ImplicitUnknown`. -/
def sim_unknown_reads (s : State) : List (ParamKind × Nat) :=
  (live_params s).filter (fun kv =>
    match kv.1 with
    | .voltage _ _ => true
    | .current _ => true
    | .implicitUnknown _ => true
    | _ => false)

/-- `u32::MAX`, the single-ended sentinel in `model_inputs`. -/
def u32MAX : Nat := 4294967295

/-- The per-param body of `Builder::build_input_unknown_pairs`
(builder.rs:158): a two-ended voltage probe yields its `(hi, lo)` unknown
index pair when both unknowns are present; a non-port current probe and an
implicit unknown yield a single-ended pair; everything else yields nothing. -/
def input_pair (us : List SimUnknownKind) (k : ParamKind) :
    Option (Nat × Nat) :=
  match k with
  | .voltage hi lo =>
    let ih := (uindex us (.kirchoffLaw hi)).getD u32MAX
    let il :=
      match lo with
      | some lo => (uindex us (.kirchoffLaw lo)).getD u32MAX
      | none => u32MAX
    if ih ≠ u32MAX ∧ il ≠ u32MAX then some (ih, il) else none
  | .current ck =>
    match ck with
    | .port _ => none
    | _ =>
      match uindex us (.current ck) with
      | some u => some (u, u32MAX)
      | none => none
  | .implicitUnknown eq =>
    match uindex us (.implicit eq) with
    | some u => some (u, u32MAX)
    | none => none
  | _ => none

/-- `Builder::build_input_unknown_pairs` (builder.rs:158): clear and refill
`model_inputs` from the live params. -/
def build_input_unknown_pairs (s : State) : State :=
  { s with model_inputs :=
      (live_params s).filterMap (fun kv => input_pair s.unknowns kv.1) }

/-- `Builder::count_jacobian_entries` (builder.rs:203). -/
def count_jacobian_entries (s : State) : Nat × Nat :=
  (s.jacobian.countP (fun e => decide (e.resist ≠ F_ZERO)),
   s.jacobian.countP (fun e => decide (e.react ≠ F_ZERO)))

/-- The inputs `Builder::finish` obtains from the automatic-differentiation
pass (`mir_autodiff::auto_diff` and `HirInterner::unknowns`, crates not under
the covered sources; treated as oracles): the ordered set of derivative
unknowns and the derivative map `(value, unknown) ↦ ∂value/∂unknown`. -/
structure DerivInfo where
  /-- `derivative_info.unknowns`: ordered set of IR values that are unknowns -/
  dunknowns : List Nat
  /-- `derivatives`: the AD result map -/
  derivs : List ((Nat × Nat) × Nat)

/-- The `add` closure of `Builder::build_jacobian` (builder.rs:282): when the
AD map has an entry for `(residual, unknown)`, accumulate it (possibly
negated) onto the dense matrix entry. -/
def jac_add (di : DerivInfo) (f : Func) (entry : Nat) (residualV : Nat)
    (unknown : Nat) (negate : Bool) : Func × Nat :=
  match dlookup di.derivs residualV unknown with
  | some ddx => Util.add f entry ddx negate
  | none => (f, entry)

/-- The four derivative accumulations the `add_residual` closure performs for
one unknown index (builder.rs:304-320): resist and resist-small-signal onto
the resistive entry, react and react-small-signal onto the reactive entry.
The accumulator is `(func, resist_entry, react_entry)`. -/
def jac_add4 (di : DerivInfo) (res : Residual) (lu : Nat) (neg : Bool)
    (acc : Func × Nat × Nat) : Func × Nat × Nat :=
  let a1 := jac_add di acc.1 acc.2.1 res.resist lu neg
  let a2 := jac_add di a1.1 a1.2 res.resist_small_signal lu neg
  let a3 := jac_add di a2.1 acc.2.2 res.react lu neg
  let a4 := jac_add di a3.1 a3.2 res.react_small_signal lu neg
  (a4.1, a2.2, a4.2)

/-- The `add_residual` closure of `Builder::build_jacobian` (builder.rs:290):
accumulate the four derivative values of the residual with respect to
`unknownVal` (and, through the limit-state table, with respect to each
limit-function observation of `unknownVal`, with sign `negate != negate_lim`)
onto the dense-row slot of the sim-unknown `su`. -/
def jac_add_residual (di : DerivInfo)
    (limState : List (Nat × List (Nat × Bool))) (us : List SimUnknownKind)
    (res : Residual) (su : SimUnknownKind) (unknownVal : Nat) (negate : Bool)
    (fd : Func × List (Nat × Nat)) : Func × List (Nat × Nat) :=
  match uindex us su with
  | none => fd
  | some i =>
    let rr := (fd.2.get? i).getD (F_ZERO, F_ZERO)
    let acc0 := (fd.1, rr.1, rr.2)
    let acc1 :=
      match limLookup limState unknownVal with
      | some lim_vals =>
        lim_vals.foldl
          (fun acc vn =>
            match dindex di.dunknowns vn.1 with
            | none => acc
            | some lu => jac_add4 di res lu (negate != vn.2) acc)
          acc0
      | none => acc0
    let acc2 :=
      match dindex di.dunknowns unknownVal with
      | none => acc1
      | some du => jac_add4 di res du negate acc1
    (acc2.1, fd.2.set i (acc2.2.1, acc2.2.2))

/-- One row of `Builder::build_jacobian` (builder.rs:288): build the dense
row over all sim-unknowns from the sim-unknown reads, with sign `hi: +`,
`lo: −` for voltage probes. -/
def jac_row (di : DerivInfo) (limState : List (Nat × List (Nat × Bool)))
    (us : List SimUnknownKind) (reads : List (ParamKind × Nat))
    (res : Residual) (f : Func) : Func × List (Nat × Nat) :=
  reads.foldl
    (fun fd kv =>
      match kv.1 with
      | .voltage hi lo =>
        let fd :=
          match lo with
          | some lo =>
            jac_add_residual di limState us res (.kirchoffLaw lo) kv.2 true fd
          | none => fd
        jac_add_residual di limState us res (.kirchoffLaw hi) kv.2 false fd
      | .implicitUnknown eq =>
        jac_add_residual di limState us res (.implicit eq) kv.2 false fd
      | .current k =>
        jac_add_residual di limState us res (.current k) kv.2 false fd
      | _ => fd)
    (f, List.replicate us.length (F_ZERO, F_ZERO))

/-- The sparsification step of `Builder::build_jacobian` (builder.rs:339):
emit a `MatrixEntry` for every dense slot where at least one of
`{resist, react}` differs from `F_ZERO`. -/
def sparsify_row (row : Nat) (dense : List (Nat × Nat)) :
    List MatrixEntry :=
  (dense.enum.filter
    (fun p => !(p.2.1 == F_ZERO && p.2.2 == F_ZERO))).map
    (fun p => ⟨row, p.1, p.2.1, p.2.2⟩)

/-- `Builder::build_jacobian` (builder.rs:271): for each residual row build a
dense row over all sim-unknowns and sparsify it. (The source reuses one
dense-row buffer, resetting each slot to `F_ZERO` while sparsifying; starting
each row from a fresh all-`F_ZERO` row is the same thing.) -/
def build_jacobian (s : State) (reads : List (ParamKind × Nat))
    (di : DerivInfo) : State :=
  let acc := s.residual.enum.foldl
    (fun (acc : Func × List MatrixEntry) p =>
      let fd := jac_row di s.limState s.unknowns reads p.2 acc.1
      (fd.1, acc.2 ++ sparsify_row p.1 fd.2))
    (s.func, [])
  { s with func := acc.1, jacobian := acc.2 }

/-- The `add_lim_rhs` closure of `Builder::build_lim_rhs` (builder.rs:243):
combine the derivative of the residual and of its small-signal companion with
respect to the limit unknown; when the combined derivative and `delta` are
both non-`F_ZERO`, accumulate `combined * delta` onto the destination
lim-rhs value. -/
def add_lim_rhs (di : DerivInfo) (f : Func) (delta : Nat) (unknown : Nat)
    (dst residualV residual_ss : Nat) : Func × Nat :=
  let ddx0 := (dlookup di.derivs residualV unknown).getD F_ZERO
  let ddx_ss := (dlookup di.derivs residual_ss unknown).getD F_ZERO
  let fa := Util.add f ddx0 ddx_ss false
  if fa.2 ≠ F_ZERO ∧ delta ≠ F_ZERO then
    let fr := fa.1.append (.fmul fa.2 delta)
    Util.add fr.1 dst fr.2 false
  else (fa.1, dst)

/-- The innermost loop body of `Builder::build_lim_rhs` (builder.rs:226): for
one residual row `i`, one limit state (`state`, baseline `unchanged`) and one
observation `(val, neg)`, ensure the `NewState` param, form
`delta = fsub(changed, unchanged)` — or `fadd(changed, unchanged)` when `neg`
is set, as in the source — and accumulate into both lim-rhs fields. -/
def lim_step (di : DerivInfo) (state : Nat) (unchanged : Nat)
    (vn : Nat × Bool) (s : State) (i : Nat) : State :=
  match dindex di.dunknowns vn.1 with
  | none => s
  | some unknown =>
    let sc := ensure_param s (.newState state)
    let fd :=
      if vn.2 then sc.1.func.append (.fadd sc.2 unchanged)
      else sc.1.func.append (.fsub sc.2 unchanged)
    match sc.1.residual.get? i with
    | some r =>
      let l1 := add_lim_rhs di fd.1 fd.2 unknown r.resist_lim_rhs
        r.resist r.resist_small_signal
      let l2 := add_lim_rhs di l1.1 fd.2 unknown r.react_lim_rhs
        r.react r.react_small_signal
      { sc.1 with
          func := l2.1
          residual := sc.1.residual.set i
            { r with resist_lim_rhs := l1.2, react_lim_rhs := l2.2 } }
    | none => { sc.1 with func := fd.1 }

/-- `Builder::build_lim_rhs` (builder.rs:219): for every residual row, every
limit state and every observation, run `lim_step`. -/
def build_lim_rhs (s : State) (di : DerivInfo) : State :=
  (List.range s.residual.length).foldl
    (fun s i =>
      s.limState.enum.foldl
        (fun s p =>
          p.2.2.foldl (fun s vn => lim_step di p.1 p.2.1 vn s i) s)
        s)
    s

/-- `Builder::finish` (builder.rs:93) from the point where the AD results are
in hand: `auto_diff` itself lives in the `mir_autodiff` crate (not under the
covered sources), so the state `s` is the post-AD state and `di` carries the
AD oracle. The remaining steps are exactly the source's: build the Jacobian
from the sim-unknown reads, build the limit-exit RHS, anchor optbarriers,
build the model-input pairs, and count the Jacobian entries. -/
def finishFrom (s : State) (di : DerivInfo) : State :=
  let reads := sim_unknown_reads s
  let s := build_jacobian s reads di
  let s := build_lim_rhs s di
  let s := ensure_optbarriers s
  let s := build_input_unknown_pairs s
  let counts := count_jacobian_entries s
  { s with num_resistive := counts.1, num_reactive := counts.2 }

end Builder

/-! ### Semantics of IR values

A value is evaluated in an environment assigning a rational to every interned
parameter. `sqrt` is uninterpreted (a function of the environment); `phi`
values are control-dependent and evaluate to a junk value — no claim below
evaluates a `phi`. The fuel argument makes the recursion structural; under
`StrictWF` every chain of operands strictly descends, so any fuel above the
value id gives the same result. -/

/-- Evaluation environment: parameter values and an uninterpreted square
root. -/
structure Env where
  par : ParamKind → ℚ
  sq : ℚ → ℚ

/-- Fuelled evaluation of an IR value. -/
def evalF (defs : List IDef) (env : Env) : Nat → Nat → ℚ
  | 0, _ => 0
  | fuel + 1, v =>
    match defs.get? v with
    | some (.const 1) => 1
    | some (.const _) => 0
    | some (.param k) => env.par k
    | some (.fadd a b) => evalF defs env fuel a + evalF defs env fuel b
    | some (.fsub a b) => evalF defs env fuel a - evalF defs env fuel b
    | some (.fmul a b) => evalF defs env fuel a * evalF defs env fuel b
    | some (.fdiv a b) => evalF defs env fuel a / evalF defs env fuel b
    | some (.fneg a) => -evalF defs env fuel a
    | some (.sqrt a) => env.sq (evalF defs env fuel a)
    | some (.optbarrier a) => evalF defs env fuel a
    | some (.phi2 _ _) => 0
    | none => 0

/-- Evaluation of a value: fuel `v + 1` suffices under `StrictWF`. -/
def eval (f : Func) (env : Env) (v : Nat) : ℚ :=
  evalF f.defs env (v + 1) v

/-- `f'` extends `f`: its value table is `f`'s plus appended entries. -/
def Extends (f f' : Func) : Prop :=
  ∃ l, f'.defs = f.defs ++ l


/-! ### Input derivatives (`compiler_lib/middle/src/inputs.rs`) -/

/-- `openvaf_ir::Unknown`: the unknowns the input derivative impls match on. -/
inductive Unknown where
  | parameter (p : Nat)
  | nodePotential (n : Nat)
  | branchPotential (hi lo : Nat)
  | flow (b : Nat)
  | temperature
deriving DecidableEq, Repr

/-- `InputDerivative` (inputs.rs:34): `One`, `Zero`, or an arbitrary constant. -/
inductive InputDerivative where
  | one
  | zero
  | const (c : ℚ)
deriving DecidableEq, Repr

/-- `Voltage` (inputs.rs:206): a voltage probe input between nodes `hi` and
`lo`. -/
structure Voltage where
  hi : Nat
  lo : Nat
deriving DecidableEq, Repr

/-- `impl CfgInputs for Voltage::derivative` (inputs.rs:211): the guarded
match arms in source order. -/
def Voltage.derivative (v : Voltage) (unknown : Unknown) : InputDerivative :=
  match unknown with
  | .nodePotential node =>
    if v.hi = node then .one
    else if v.lo = node then .const (-1)
    else .zero
  | .branchPotential hi_demanded lo_demanded =>
    if v.hi = hi_demanded ∧ v.lo = lo_demanded then .one
    else if v.lo = hi_demanded ∧ v.hi = lo_demanded then .const (-1)
    else .zero
  | _ => .zero

/-- `CurrentProbe` (inputs.rs:244): a current probe input on a branch. -/
structure CurrentProbe where
  branch : Nat
deriving DecidableEq, Repr

/-- `impl CfgInputs for CurrentProbe::derivative` (inputs.rs:246). -/
def CurrentProbe.derivative (c : CurrentProbe) (unknown : Unknown) :
    InputDerivative :=
  match unknown with
  | .flow branch => if branch = c.branch then .one else .zero
  | _ => .zero

/-- `impl CfgInputs for Temperature::derivative` (inputs.rs:156). -/
def Temperature.derivative (unknown : Unknown) : InputDerivative :=
  if unknown = .temperature then .one else .zero

/-- `impl CfgInputs for SimParam::derivative` (inputs.rs:136): always zero. -/
def SimParam.derivative (_ : Unknown) : InputDerivative := .zero

/-- `impl CfgInputs for PartialTimeDerivative::derivative` (inputs.rs:176):
always zero. -/
def PartialTimeDerivative.derivative (_ : Unknown) : InputDerivative := .zero

/-- `ParameterInput` (inputs.rs:262): a parameter value or its given-flag. -/
inductive ParameterInput where
  | value (p : Nat)
  | given (p : Nat)
deriving DecidableEq, Repr

/-- `impl CfgInputs for ParameterInput::derivative` (inputs.rs:269). -/
def ParameterInput.derivative (pi : ParameterInput) (unknown : Unknown) :
    InputDerivative :=
  match unknown, pi with
  | .parameter x, .value y => if x = y then .one else .zero
  | _, _ => .zero

/-! ### `$simparam` validation in constant context
(`crates/hir_ty/src/validation/body.rs`) -/

/-- The two builtins handled by the `ConstSimparam` arm (body.rs:469). -/
inductive SimparamFun where
  | simparam
  | simparam_str
deriving DecidableEq, Repr

/-- The shape of the call's first argument that the validator inspects:
a string literal or anything else. -/
inductive VExpr where
  | strLiteral (s : String)
  | otherExpr
deriving DecidableEq, Repr

/-- The `ConstSimparam` diagnostic record (body.rs:71): the `known` flag tells
whether the name is whitelisted. -/
structure ConstSimparamDiag where
  known : Bool
deriving DecidableEq, Repr

/-- The `$simparam` whitelist for real-valued queries (body.rs:478). -/
def simparam_real_whitelist : List String :=
  ["minr", "imelt", "scale", "simulatorSubversion", "simulatorVersion", "tnom"]

/-- The `$simparam_str` whitelist (body.rs:484). -/
def simparam_str_whitelist : List String :=
  ["cwd", "module", "instance", "path"]

/-- The body-validation contexts (body.rs:108). -/
inductive BodyCtx where
  | analogBlock
  | conditional
  | eventControl
  | function
  | constOrAnalysis
  | const
deriving DecidableEq, Repr

/-- The `BuiltIn::simparam | simparam_str` arm of
`ExprValidator::validate_builtin` (body.rs:469): in a `Const` body context,
compute the `known` flag (first argument is a string literal in the
whitelisted set for the builtin) and push a `ConstSimparam` diagnostic;
outside `Const` context nothing is pushed. -/
def validate_simparam (ctx : BodyCtx) (func : SimparamFun) (arg0 : VExpr) :
    List ConstSimparamDiag :=
  if ctx = .const then
    let known :=
      match arg0 with
      | .strLiteral name =>
        match func with
        | .simparam => decide (name ∈ simparam_real_whitelist)
        | .simparam_str => decide (name ∈ simparam_str_whitelist)
      | .otherExpr => false
    [{ known := known }]
  else []

/-! ### Concrete instances used by counterexamples and witnesses -/

/-- A one-node module whose single residual slot carries a non-zero
small-signal value (id 4, a voltage param) in both small-signal fields:
the failing input for the small-signal zeroing in `ensure_optbarriers`. -/
def c1Func : Func :=
  { defs := Func.initDefs ++ [.param (.voltage 0 none)]
    defblock := [0, 0, 0, 0, 0]
    terms := []
    nblocks := 1
    cur := 0 }

/-- Builder state for the C1 failing input: one Kirchhoff unknown whose
residual has `resist_small_signal = react_small_signal = 4 ≠ F_ZERO`. -/
def c1State : State :=
  { func := c1Func
    params := [(.voltage 0 none, 4)]
    liveParams := []
    dead := []
    opDependent := []
    limState := []
    unknowns := [.kirchoffLaw 0]
    residual := [{ resist := F_ZERO, react := F_ZERO, resist_small_signal := 4,
                   react_small_signal := 4, resist_lim_rhs := F_ZERO,
                   react_lim_rhs := F_ZERO }]
    jacobian := []
    noise_sources := []
    model_inputs := []
    small_signal_parameters := []
    output_values := [] }

/-- The empty AD oracle. -/
def noDerivs : Builder.DerivInfo := { dunknowns := [], derivs := [] }

/-- A two-node module with one live two-ended voltage probe: the C10 witness
state. -/
def c10State : State :=
  { func := { defs := Func.initDefs ++ [.param (.voltage 0 (some 1))]
              defblock := [0, 0, 0, 0, 0]
              terms := []
              nblocks := 1
              cur := 0 }
    params := [(.voltage 0 (some 1), 4)]
    liveParams := [.voltage 0 (some 1)]
    dead := []
    opDependent := []
    limState := []
    unknowns := [.kirchoffLaw 0, .kirchoffLaw 1]
    residual := [Residual.zero, Residual.zero]
    jacobian := []
    noise_sources := []
    model_inputs := []
    small_signal_parameters := []
    output_values := [] }

/-- Params-table well-formedness: every interned param value is in range and
defined by the matching `param` marker. -/
def ParamsWF (s : State) : Prop :=
  ∀ k v, plookup s.params k = some v →
    v < s.func.defs.length ∧ s.func.defs.get? v = some (.param k)

/-- Modelled from the spec's words (§4.7, limit-exit RHS): "let
`delta = new_state − baseline` (or negated)". -/
def spec_lim_delta (new baseline : ℚ) (neg : Bool) : ℚ :=
  if neg then -(new - baseline) else new - baseline

/-- Decidable scan certifying `StrictWF` on a concrete value table. -/
def strictCheck (l : List IDef) : Bool :=
  (List.range l.length).all (fun v =>
    match l.get? v with
    | some d => d.ops.all (fun a => decide (a < v))
    | none => true)

/-- Decidable scan certifying `ParamsWF` on a concrete state. -/
def paramsCheck (s : State) : Bool :=
  s.params.all (fun kv =>
    decide (kv.2 < s.func.defs.length) &&
      decide (s.func.defs.get? kv.2 = some (.param kv.1)))

/-- Counterexample state for the limit-exit delta: baseline value 4,
negated observation of derivative unknown 5, residual resist value 6 (with
`∂6/∂unknown₀ = F_ONE` in the AD oracle). -/
def c7State : State :=
  { func := { defs := Func.initDefs ++
                [.param (.voltage 0 none), .param (.voltage 1 none),
                 .param (.voltage 2 none)]
              defblock := [0, 0, 0, 0, 0, 0, 0]
              terms := []
              nblocks := 1
              cur := 0 }
    params := [(.voltage 0 none, 4), (.voltage 1 none, 5), (.voltage 2 none, 6)]
    liveParams := []
    dead := []
    opDependent := []
    limState := [(4, [(5, true)])]
    unknowns := [.kirchoffLaw 0]
    residual := [{ resist := 6, react := F_ZERO, resist_small_signal := F_ZERO,
                   react_small_signal := F_ZERO, resist_lim_rhs := F_ZERO,
                   react_lim_rhs := F_ZERO }]
    jacobian := []
    noise_sources := []
    model_inputs := []
    small_signal_parameters := []
    output_values := [] }

/-- AD oracle for the C7 counterexample: unknown 0 is value 5, and
`∂6/∂unknown₀ = F_ONE`. -/
def c7Derivs : Builder.DerivInfo := { dunknowns := [5], derivs := [((6, 0), F_ONE)] }

/-- Environment for the C7 counterexample: baseline `V(0) = 3`, new limit
state value `2`. -/
def c7Env : Env :=
  { par := fun k =>
      match k with
      | .newState 0 => 2
      | .voltage 0 none => 3
      | _ => 0
    sq := fun q => q }

/-- Concrete state for the C4 witness: two node unknowns with empty residual
rows, one interned voltage param (value 4), no live params (so the branch
current is not probed). -/
def c4State : State :=
  { func := { defs := Func.initDefs ++ [.param (.voltage 0 none)]
              defblock := [0, 0, 0, 0, 0]
              terms := []
              nblocks := 1
              cur := 0 }
    params := [(.voltage 0 none, 4)]
    liveParams := []
    dead := []
    opDependent := []
    limState := []
    unknowns := [.kirchoffLaw 0, .kirchoffLaw 1]
    residual := [Residual.zero, Residual.zero]
    jacobian := []
    noise_sources := []
    model_inputs := []
    small_signal_parameters := []
    output_values := [] }

/-- The two-ended branch of the C4 witness. -/
def c4Branch : BranchWrite := { kind := .unnamed 0 (some 1), hi := 0, lo := some 1 }

/-- Branch info of the C4 witness: a pure current source of value 4 with
`is_voltage_src = FALSE`. -/
def c4Info : BranchInfo :=
  { voltage_src :=
      { unknown := none
        resist := F_ZERO
        react := F_ZERO
        resist_small_signal := F_ZERO
        react_small_signal := F_ZERO
        noise := [] }
    current_src :=
      { unknown := none
        resist := 4
        react := F_ZERO
        resist_small_signal := F_ZERO
        react_small_signal := F_ZERO
        noise := [] }
    is_voltage_src := FALSE }

/-- Branch info for the C2 counterexample: a trivial voltage source with
`is_voltage_src = TRUE` (the node-collapse pattern). -/
def c2Info : BranchInfo :=
  { voltage_src :=
      { unknown := none
        resist := F_ZERO
        react := F_ZERO
        resist_small_signal := F_ZERO
        react_small_signal := F_ZERO
        noise := [] }
    current_src :=
      { unknown := none
        resist := 4
        react := F_ZERO
        resist_small_signal := F_ZERO
        react_small_signal := F_ZERO
        noise := [] }
    is_voltage_src := TRUE }

/-- Branch info for the C2 witness: a genuine voltage source (`resist = 4`,
designator value 4) with `is_voltage_src = TRUE`. -/
def c2Info2 : BranchInfo :=
  { voltage_src :=
      { unknown := some 4
        resist := 4
        react := F_ZERO
        resist_small_signal := F_ZERO
        react_small_signal := F_ZERO
        noise := [] }
    current_src :=
      { unknown := some 4
        resist := F_ZERO
        react := F_ZERO
        resist_small_signal := F_ZERO
        react_small_signal := F_ZERO
        noise := [] }
    is_voltage_src := TRUE }

/-- Concrete state for C3: three interned voltage params (values 4, 5, 6),
two node unknowns; value 6 serves as the non-constant switch condition. -/
def c3State : State :=
  { func := { defs := Func.initDefs ++
                [.param (.voltage 0 none), .param (.voltage 1 none),
                 .param (.voltage 2 none)]
              defblock := [0, 0, 0, 0, 0, 0, 0]
              terms := []
              nblocks := 1
              cur := 0 }
    params := [(.voltage 0 none, 4), (.voltage 1 none, 5), (.voltage 2 none, 6)]
    liveParams := []
    dead := []
    opDependent := []
    limState := []
    unknowns := [.kirchoffLaw 0, .kirchoffLaw 1]
    residual := [Residual.zero, Residual.zero]
    jacobian := []
    noise_sources := []
    model_inputs := []
    small_signal_parameters := []
    output_values := [] }

/-- Branch info for C3: a genuine switch branch — the condition (value 6) is
neither `TRUE` nor `FALSE`, the voltage side contributes value 4 and the
current side value 5, while both `react` sides are `F_ZERO`; each side
carries one noise record (factors 4 and 5). -/
def c3Info : BranchInfo :=
  { voltage_src :=
      { unknown := some 4
        resist := 4
        react := F_ZERO
        resist_small_signal := F_ZERO
        react_small_signal := F_ZERO
        noise := [{ name := 0, kind := 0, factor := 4 }] }
    current_src :=
      { unknown := some 5
        resist := 5
        react := F_ZERO
        resist_small_signal := F_ZERO
        react_small_signal := F_ZERO
        noise := [{ name := 1, kind := 0, factor := 5 }] }
    is_voltage_src := 6 }

/-- The result of the `select` closure of `switch_branch` on an
optbarrier-stripped pair: the shared value when the two sides agree, a
`phi((current_bb, current), (voltage_bb, voltage))` otherwise. -/
def SelectedAt (f : Func) (vbb cbb vv cv sel : Nat) : Prop :=
  (vv = cv ∧ sel = vv) ∨
  (vv ≠ cv ∧ f.defs.get? sel = some (.phi2 (cbb, cv) (vbb, vv)))

/-- The output shape of `mfactor_divide`: the factor is unchanged on the
`mfactor = F_ONE` fast path, otherwise it is `fdiv sel sqrt(mfactor)`. -/
def ScaledDiv (f : Func) (m sel fac : Nat) : Prop :=
  (m = F_ONE ∧ fac = sel) ∨
  (m ≠ F_ONE ∧ ∃ sq, f.defs.get? sq = some (.sqrt m) ∧
    f.defs.get? fac = some (.fdiv sel sq))

/-- The output shape of `mfactor_multiply`: unchanged on the fast path, the
bare `sqrt(mfactor)` when the old factor is the constant one, otherwise
`fmul sel sqrt(mfactor)`. -/
def ScaledMul (f : Func) (m sel fac : Nat) : Prop :=
  (m = F_ONE ∧ fac = sel) ∨
  (m ≠ F_ONE ∧ sel = F_ONE ∧ f.defs.get? fac = some (.sqrt m)) ∨
  (m ≠ F_ONE ∧ sel ≠ F_ONE ∧ ∃ sq, f.defs.get? sq = some (.sqrt m) ∧
    f.defs.get? fac = some (.fmul sel sq))

/-- How `switch_branch` rebuilds one voltage-side noise record: name and kind
survive, the factor goes through `select(factor, F_ZERO)` and the result is
then divided by `sqrt(mfactor)`. -/
def SwitchVoltageNoise (f : Func) (m vbb cbb : Nat) (x y : NoiseSrc) :
    Prop :=
  y.name = x.name ∧ y.kind = x.kind ∧
  ∃ sel, SelectedAt f vbb cbb x.factor F_ZERO sel ∧
    ScaledDiv f m sel y.factor

/-- How `switch_branch` rebuilds one current-side noise record: name and kind
survive, the factor goes through `select(F_ZERO, factor)` and the result is
then multiplied by `sqrt(mfactor)`. -/
def SwitchCurrentNoise (f : Func) (m vbb cbb : Nat) (x y : NoiseSrc) :
    Prop :=
  y.name = x.name ∧ y.kind = x.kind ∧
  ∃ sel, SelectedAt f vbb cbb F_ZERO x.factor sel ∧
    ScaledMul f m sel y.factor

/-- Whether a value-table entry is an `optbarrier` instruction (the test the
`ensure_optbarrier` / `update_optbarrier` cursor helpers match on). -/
def isBarrier : Option IDef → Bool
  | some (.optbarrier _) => true
  | _ => false

/-- The value is defined by an `optbarrier` instruction. -/
def BarrierAt (f : Func) (v : Nat) : Prop :=
  ∃ w, f.defs.get? v = some (.optbarrier w)

/-- A value anchored by `ensure_optbarriers`: it equals `F_ZERO`, or its
defining instruction is an `optbarrier` and it is recorded in
`output_values`. -/
def Anchored (t : State) (v : Nat) : Prop :=
  v = F_ZERO ∨ (BarrierAt t.func v ∧ v ∈ t.output_values)

/-- The facts every anchoring step preserves: existing optbarrier
definitions stay optbarrier definitions and output values are never
removed. -/
def StateMono (t u : State) : Prop :=
  (∀ v, BarrierAt t.func v → BarrierAt u.func v) ∧
  (∀ v, v ∈ t.output_values → v ∈ u.output_values)

/-- All six residual slots of a row are anchored. -/
def RowAnchored (t : State) (r : Residual) : Prop :=
  Anchored t r.resist ∧ Anchored t r.react ∧
  Anchored t r.resist_small_signal ∧ Anchored t r.react_small_signal ∧
  Anchored t r.resist_lim_rhs ∧ Anchored t r.react_lim_rhs

/-- How the anchoring loops treat the value table when every value they are
fed lies below `L`: the table only grows, slots at or above `L` that already
exist are never rewritten, and a slot holding a non-`optbarrier` instruction
is never rewritten at all (`update_optbarrier` only ever rewrites a slot it
has just matched as an `optbarrier`). -/
def EobSafe (L : Nat) (t u : State) : Prop :=
  t.func.defs.length ≤ u.func.defs.length ∧
  (∀ x, L ≤ x → x < t.func.defs.length →
    u.func.defs.get? x = t.func.defs.get? x) ∧
  (∀ x d, t.func.defs.get? x = some d → isBarrier (some d) = false →
    u.func.defs.get? x = some d)

/-- The state `Builder::finish` passes to `ensure_optbarriers`: the post-AD
state after `build_jacobian` and `build_lim_rhs` (the first two steps of
`finishFrom`). -/
def preAnchorState (s : State) (di : Builder.DerivInfo) : State :=
  Builder.build_lim_rhs
    (Builder.build_jacobian s (Builder.sim_unknown_reads s) di) di

/-- Decidable well-formedness of a builder state's residual table: every
field of every row (except the `react_small_signal` field, which
`ensure_optbarriers` zeroes before anchoring) names an already-allocated
value. -/
def resBoundsCheck (t : State) : Bool :=
  t.residual.all (fun r =>
    decide (r.resist < t.func.defs.length) &&
    decide (r.react < t.func.defs.length) &&
    decide (r.resist_small_signal < t.func.defs.length) &&
    decide (r.resist_lim_rhs < t.func.defs.length) &&
    decide (r.react_lim_rhs < t.func.defs.length))

/-- Decidable well-formedness of the noise table: every factor names an
already-allocated value. -/
def noiseBoundsCheck (t : State) : Bool :=
  t.noise_sources.all (fun n => decide (n.factor < t.func.defs.length))

/-- Decidable well-formedness of the Jacobian: every entry's values are
already allocated. -/
def jacBoundsCheck (t : State) : Bool :=
  t.jacobian.all (fun e =>
    decide (e.resist < t.func.defs.length) &&
    decide (e.react < t.func.defs.length))

/-- A one-node module with one Kirchhoff unknown whose residual row holds two
voltage-parameter values and one noise record: the C5 witness state. -/
def c5State : State :=
  { func := { defs := Func.initDefs ++
                [.param (.voltage 0 none), .param (.voltage 1 none)]
              defblock := [0, 0, 0, 0, 0, 0]
              terms := []
              nblocks := 1
              cur := 0 }
    params := [(.voltage 0 none, 4), (.voltage 1 none, 5)]
    liveParams := []
    dead := []
    opDependent := []
    limState := []
    unknowns := [.kirchoffLaw 0]
    residual := [{ resist := 4, react := 5, resist_small_signal := F_ZERO,
                   react_small_signal := F_ZERO, resist_lim_rhs := F_ZERO,
                   react_lim_rhs := F_ZERO }]
    jacobian := []
    noise_sources := [{ name := 0, kind := 0, hi := 0, lo := none,
                        factor := 4 }]
    model_inputs := []
    small_signal_parameters := []
    output_values := [] }

/-- The empty AD oracle used with the C5 witness state. -/
def c5Di : Builder.DerivInfo := { dunknowns := [], derivs := [] }

/-- The C5 witness state as it enters `ensure_optbarriers`. -/
def c5M : State := preAnchorState c5State c5Di

/-- The C5 witness state after the `mfactor` parameter is ensured. -/
def c5Mp : State := (Builder.ensure_param c5M (.paramSysFun .mfactor)).1

/-- The interned `mfactor` value of the C5 witness state. -/
def c5mf : Nat := (Builder.ensure_param c5M (.paramSysFun .mfactor)).2

/-! ### Helper lemmas -/

theorem Extends.rfl {f : Func} : Extends f f := ⟨[], (List.append_nil _).symm⟩

theorem Extends.trans {f g h : Func} (h1 : Extends f g) (h2 : Extends g h) :
    Extends f h := by
  obtain ⟨l1, e1⟩ := h1
  obtain ⟨l2, e2⟩ := h2
  exact ⟨l1 ++ l2, by rw [e2, e1, List.append_assoc]⟩

theorem Func.append_extends (f : Func) (d : IDef) :
    Extends f (f.append d).1 := ⟨[d], rfl⟩

theorem Extends.length_le {f f' : Func} (h : Extends f f') :
    f.defs.length ≤ f'.defs.length := by
  obtain ⟨l, e⟩ := h
  simp [e]

theorem Extends.get?_eq {f f' : Func} (h : Extends f f') {v : Nat}
    (hv : v < f.defs.length) : f'.defs.get? v = f.defs.get? v := by
  obtain ⟨l, e⟩ := h
  rw [e, List.get?_append hv]

theorem Extends.hasConsts {f f' : Func} (h : Extends f f')
    (hc : HasConsts f) : HasConsts f' := by
  obtain ⟨h0, h1, h2, h3⟩ := hc
  have l0 : 0 < f.defs.length := by
    cases hl : f.defs.length with
    | zero => rw [List.get?_eq_none.mpr (by omega)] at h0; cases h0
    | succ n => omega
  have l3 : 3 < f.defs.length := by
    rcases Nat.lt_or_ge 3 f.defs.length with h | h
    · exact h
    · rw [List.get?_eq_none.mpr (by omega)] at h3; cases h3
  refine ⟨?_, ?_, ?_, ?_⟩ <;> rw [h.get?_eq (by omega)] <;> assumption

/-- Fuel irrelevance: under `StrictWF` any fuel above the value id evaluates
identically. -/
theorem evalF_fuel {f : Func} (hwf : StrictWF f) (env : Env) :
    ∀ v fuel1 fuel2, v < fuel1 → v < fuel2 →
      evalF f.defs env fuel1 v = evalF f.defs env fuel2 v := by
  intro v
  induction v using Nat.strong_induction_on with
  | _ v ih =>
    intro fuel1 fuel2 h1 h2
    obtain ⟨g1, rfl⟩ : ∃ g1, fuel1 = g1 + 1 := ⟨fuel1 - 1, by omega⟩
    obtain ⟨g2, rfl⟩ : ∃ g2, fuel2 = g2 + 1 := ⟨fuel2 - 1, by omega⟩
    show evalF f.defs env (g1 + 1) v = evalF f.defs env (g2 + 1) v
    unfold evalF
    cases hd : f.defs.get? v with
    | none => simp
    | some d =>
      have hops : ∀ a ∈ d.ops, a < v := hwf v d hd
      have step : ∀ a ∈ d.ops, evalF f.defs env g1 a = evalF f.defs env g2 a := by
        intro a ha
        exact ih a (hops a ha) g1 g2 (by have := hops a ha; omega)
          (by have := hops a ha; omega)
      cases d with
      | const k => rcases k with _ | _ | k <;> simp
      | param k => simp
      | fadd a b =>
        simp only []
        rw [step a (by simp [IDef.ops]), step b (by simp [IDef.ops])]
      | fsub a b =>
        simp only []
        rw [step a (by simp [IDef.ops]), step b (by simp [IDef.ops])]
      | fmul a b =>
        simp only []
        rw [step a (by simp [IDef.ops]), step b (by simp [IDef.ops])]
      | fdiv a b =>
        simp only []
        rw [step a (by simp [IDef.ops]), step b (by simp [IDef.ops])]
      | fneg a =>
        simp only []
        rw [step a (by simp [IDef.ops])]
      | sqrt a =>
        simp only []
        rw [step a (by simp [IDef.ops])]
      | optbarrier a =>
        simp only []
        rw [step a (by simp [IDef.ops])]
      | phi2 c w => simp

/-- Appending definitions does not change the evaluation of existing values. -/
theorem evalF_extends {f f' : Func} (hwf : StrictWF f) (hx : Extends f f')
    (env : Env) :
    ∀ fuel v, v < f.defs.length →
      evalF f'.defs env fuel v = evalF f.defs env fuel v := by
  intro fuel
  induction fuel with
  | zero => intro v _; rfl
  | succ g ih =>
    intro v hv
    show evalF f'.defs env (g + 1) v = evalF f.defs env (g + 1) v
    unfold evalF
    rw [hx.get?_eq hv]
    cases hd : f.defs.get? v with
    | none => simp
    | some d =>
      have hops : ∀ a ∈ d.ops, a < v := hwf v d hd
      have step : ∀ a ∈ d.ops, evalF f'.defs env g a = evalF f.defs env g a := by
        intro a ha
        exact ih a (by have := hops a ha; omega)
      cases d with
      | const k => rcases k with _ | _ | k <;> simp
      | param k => simp
      | fadd a b =>
        simp only []
        rw [step a (by simp [IDef.ops]), step b (by simp [IDef.ops])]
      | fsub a b =>
        simp only []
        rw [step a (by simp [IDef.ops]), step b (by simp [IDef.ops])]
      | fmul a b =>
        simp only []
        rw [step a (by simp [IDef.ops]), step b (by simp [IDef.ops])]
      | fdiv a b =>
        simp only []
        rw [step a (by simp [IDef.ops]), step b (by simp [IDef.ops])]
      | fneg a =>
        simp only []
        rw [step a (by simp [IDef.ops])]
      | sqrt a =>
        simp only []
        rw [step a (by simp [IDef.ops])]
      | optbarrier a =>
        simp only []
        rw [step a (by simp [IDef.ops])]
      | phi2 c w => simp

/-- Stability: evaluation of an existing value is unchanged in any extension. -/
theorem eval_extends {f f' : Func} (hwf : StrictWF f) (hx : Extends f f')
    (env : Env) {v : Nat} (hv : v < f.defs.length) :
    eval f' env v = eval f env v := by
  unfold eval
  exact evalF_extends hwf hx env (v + 1) v hv

theorem HasConsts.length_ge {f : Func} (hc : HasConsts f) :
    4 ≤ f.defs.length := by
  rcases Nat.lt_or_ge f.defs.length 4 with h | h
  · exfalso
    have h3 := hc.2.2.2
    rw [List.get?_eq_none.mpr (by omega)] at h3
    cases h3
  · exact h

theorem StrictWF.append {f : Func} (hwf : StrictWF f) {d : IDef}
    (hops : ∀ a ∈ d.ops, a < f.defs.length) : StrictWF (f.append d).1 := by
  intro v d' hget a ha
  simp only [Func.append] at hget
  rcases Nat.lt_trichotomy v f.defs.length with h | h | h
  · rw [List.get?_append h] at hget
    exact hwf v d' hget a ha
  · subst h
    rw [List.get?_concat_length] at hget
    cases hget
    exact hops a ha
  · rw [List.get?_eq_none.mpr (by simp; omega)] at hget
    cases hget

theorem Func.append_get?_self (f : Func) (d : IDef) :
    (f.append d).1.defs.get? (f.append d).2 = some d := by
  simp only [Func.append]
  exact List.get?_concat_length f.defs d

theorem Func.append_length (f : Func) (d : IDef) :
    (f.append d).1.defs.length = f.defs.length + 1 := by
  simp [Func.append]

/-- Unfold one evaluation step at a value with a known definition. -/
theorem evalF_succ (defs : List IDef) (env : Env) (fuel v : Nat) :
    evalF defs env (fuel + 1) v =
      match defs.get? v with
      | some (.const 1) => 1
      | some (.const _) => 0
      | some (.param k) => env.par k
      | some (.fadd a b) => evalF defs env fuel a + evalF defs env fuel b
      | some (.fsub a b) => evalF defs env fuel a - evalF defs env fuel b
      | some (.fmul a b) => evalF defs env fuel a * evalF defs env fuel b
      | some (.fdiv a b) => evalF defs env fuel a / evalF defs env fuel b
      | some (.fneg a) => -evalF defs env fuel a
      | some (.sqrt a) => env.sq (evalF defs env fuel a)
      | some (.optbarrier a) => evalF defs env fuel a
      | some (.phi2 _ _) => 0
      | none => 0 := rfl

/-- `eval` of `F_ZERO` is `0`. -/
theorem eval_F_ZERO {f : Func} (hc : HasConsts f) (env : Env) :
    eval f env F_ZERO = 0 := by
  have h : eval f env F_ZERO = evalF f.defs env (F_ZERO + 1) F_ZERO := rfl
  rw [h, evalF_succ, show (F_ZERO : Nat) = 0 from rfl, hc.1]

/-- `eval` of `F_ONE` is `1`. -/
theorem eval_F_ONE {f : Func} (hc : HasConsts f) (env : Env) :
    eval f env F_ONE = 1 := by
  have h : eval f env F_ONE = evalF f.defs env (F_ONE + 1) F_ONE := rfl
  rw [h, evalF_succ, show (F_ONE : Nat) = 1 from rfl, hc.2.1]

/-- Convert a fuelled evaluation to `eval` under `StrictWF`. -/
theorem evalF_eq_eval {f : Func} (hwf : StrictWF f) (env : Env) {fuel v : Nat}
    (h : v < fuel) : evalF f.defs env fuel v = eval f env v :=
  evalF_fuel hwf env v fuel (v + 1) h (Nat.lt_succ_self v)

/-- Evaluation of a freshly appended binary instruction. -/
theorem eval_append_bin {f : Func} (hwf : StrictWF f) (env : Env) {a b : Nat}
    (ha : a < f.defs.length) (hb : b < f.defs.length) (d : IDef)
    (hd : d = .fadd a b ∨ d = .fsub a b ∨ d = .fmul a b) :
    eval (f.append d).1 env (f.append d).2 =
      match d with
      | .fadd _ _ => eval f env a + eval f env b
      | .fsub _ _ => eval f env a - eval f env b
      | _ => eval f env a * eval f env b := by
  have hx : Extends f (f.append d).1 := f.append_extends d
  have hget := f.append_get?_self d
  have hstep : ∀ c, c < f.defs.length →
      evalF (f.append d).1.defs env (f.append d).2 c = eval f env c := by
    intro c hc
    rw [show (f.append d).2 = f.defs.length from rfl]
    rw [evalF_extends hwf hx env f.defs.length c hc]
    exact evalF_eq_eval hwf env hc
  show evalF (f.append d).1.defs env ((f.append d).2 + 1) (f.append d).2 = _
  rw [evalF_succ, hget]
  rcases hd with rfl | rfl | rfl <;>
    simp only [] <;> rw [hstep a ha, hstep b hb]

/-- Evaluation of a freshly appended `fneg`. -/
theorem eval_append_fneg {f : Func} (hwf : StrictWF f) (env : Env) {a : Nat}
    (ha : a < f.defs.length) :
    eval (f.append (.fneg a)).1 env (f.append (.fneg a)).2 =
      -eval f env a := by
  have hx : Extends f (f.append (.fneg a)).1 := f.append_extends _
  show evalF _ env _ _ = _
  rw [evalF_succ, f.append_get?_self]
  simp only []
  rw [show (f.append (.fneg a)).2 = f.defs.length from rfl,
    evalF_extends hwf hx env f.defs.length a ha]
  rw [evalF_eq_eval hwf env ha]

/-- Evaluation of a freshly appended `fmul` (direct form). -/
theorem eval_append_fmul {f : Func} (hwf : StrictWF f) (env : Env) {a b : Nat}
    (ha : a < f.defs.length) (hb : b < f.defs.length) :
    eval (f.append (.fmul a b)).1 env (f.append (.fmul a b)).2 =
      eval f env a * eval f env b :=
  eval_append_bin hwf env ha hb _ (Or.inr (Or.inr rfl))

/-- Evaluation of a freshly appended `fadd` (direct form). -/
theorem eval_append_fadd {f : Func} (hwf : StrictWF f) (env : Env) {a b : Nat}
    (ha : a < f.defs.length) (hb : b < f.defs.length) :
    eval (f.append (.fadd a b)).1 env (f.append (.fadd a b)).2 =
      eval f env a + eval f env b :=
  eval_append_bin hwf env ha hb _ (Or.inl rfl)

/-- Evaluation of a freshly appended `fsub` (direct form). -/
theorem eval_append_fsub {f : Func} (hwf : StrictWF f) (env : Env) {a b : Nat}
    (ha : a < f.defs.length) (hb : b < f.defs.length) :
    eval (f.append (.fsub a b)).1 env (f.append (.fsub a b)).2 =
      eval f env a - eval f env b :=
  eval_append_bin hwf env ha hb _ (Or.inr (Or.inl rfl))

/-- Evaluation of a freshly appended `param` read. -/
theorem eval_append_param {f : Func} (env : Env) (k : ParamKind) :
    eval (f.append (.param k)).1 env (f.append (.param k)).2 = env.par k := by
  show evalF _ env _ _ = _
  rw [evalF_succ, f.append_get?_self]

/-- Optbarrier stripping never increases the value id. -/
theorem stripGo_le {f : Func} (hwf : StrictWF f) :
    ∀ fuel v, Func.stripGo f.defs fuel v ≤ v := by
  intro fuel
  induction fuel with
  | zero => intro v; exact Nat.le_refl v
  | succ g ih =>
    intro v
    unfold Func.stripGo
    cases hd : f.defs.get? v with
    | none => exact Nat.le_refl v
    | some d =>
      cases d with
      | optbarrier a =>
        have hav : a < v := hwf v _ hd a (by simp [IDef.ops])
        exact Nat.le_trans (ih a) (Nat.le_of_lt hav)
      | const k => exact Nat.le_refl v
      | param k => exact Nat.le_refl v
      | fadd a b => exact Nat.le_refl v
      | fsub a b => exact Nat.le_refl v
      | fmul a b => exact Nat.le_refl v
      | fdiv a b => exact Nat.le_refl v
      | fneg a => exact Nat.le_refl v
      | sqrt a => exact Nat.le_refl v
      | phi2 c w => exact Nat.le_refl v

/-- The stripped value stays in range. -/
theorem strip_lt {f : Func} (hwf : StrictWF f) {v : Nat}
    (hv : v < f.defs.length) : strip_optbarrier f v < f.defs.length :=
  Nat.lt_of_le_of_lt (stripGo_le hwf _ v) hv

/-- `optbarrier` is a semantic identity: stripping preserves evaluation. -/
theorem eval_strip {f : Func} (hwf : StrictWF f) (env : Env) {v : Nat}
    (hv : v < f.defs.length) :
    eval f env (strip_optbarrier f v) = eval f env v := by
  suffices h : ∀ fuel v, v < f.defs.length →
      eval f env (Func.stripGo f.defs fuel v) = eval f env v from
    h f.defs.length v hv
  intro fuel
  induction fuel with
  | zero => intro v _; rfl
  | succ g ih =>
    intro v hv
    unfold Func.stripGo
    cases hd : f.defs.get? v with
    | none => rfl
    | some d =>
      cases d with
      | optbarrier a =>
        have hav : a < v := hwf v _ hd a (by simp [IDef.ops])
        rw [ih a (by omega)]
        show eval f env a = eval f env v
        unfold eval
        conv_rhs => rw [evalF_succ, hd]
        exact evalF_fuel hwf env a (a + 1) v (Nat.lt_succ_self a) hav
      | const k => rfl
      | param k => rfl
      | fadd a b => rfl
      | fsub a b => rfl
      | fmul a b => rfl
      | fdiv a b => rfl
      | fneg a => rfl
      | sqrt a => rfl
      | phi2 c w => rfl

/-- Specification of `Util.add`: the function is only extended, strictness is
preserved, the result is in range, and it evaluates to the sum (or
difference). -/
theorem Util.add_spec {f : Func} (env : Env) {dst val : Nat} (neg : Bool)
    (hwf : StrictWF f) (hc : HasConsts f) (hd : dst < f.defs.length)
    (hv : val < f.defs.length) :
    Extends f (Util.add f dst val neg).1 ∧
    StrictWF (Util.add f dst val neg).1 ∧
    (Util.add f dst val neg).2 < (Util.add f dst val neg).1.defs.length ∧
    eval (Util.add f dst val neg).1 env (Util.add f dst val neg).2 =
      eval f env dst +
        (if neg then -(eval f env val) else eval f env val) := by
  unfold Util.add
  by_cases h0 : val = F_ZERO
  · rw [if_pos h0]
    refine ⟨Extends.rfl, hwf, hd, ?_⟩
    rw [h0, eval_F_ZERO hc env]
    cases neg <;> simp
  · rw [if_neg h0]
    by_cases hz : dst = F_ZERO
    · rw [if_pos hz]
      cases neg with
      | false =>
        simp only [Bool.false_eq_true, if_false]
        refine ⟨Extends.rfl, hwf, hv, ?_⟩
        rw [hz, eval_F_ZERO hc env]
        simp
      | true =>
        simp only [if_true]
        refine ⟨f.append_extends _, hwf.append (by simp [IDef.ops]; omega), ?_, ?_⟩
        · rw [Func.append_length]
          exact Nat.lt_succ_self _
        · rw [eval_append_fneg hwf env hv, hz, eval_F_ZERO hc env]
          simp
    · rw [if_neg hz]
      cases neg with
      | false =>
        simp only [Bool.false_eq_true, if_false]
        refine ⟨f.append_extends _,
          hwf.append (by simp [IDef.ops]; omega), ?_, ?_⟩
        · rw [Func.append_length]
          exact Nat.lt_succ_self _
        · rw [eval_append_fadd hwf env hd hv]
      | true =>
        simp only [if_true]
        refine ⟨f.append_extends _,
          hwf.append (by simp [IDef.ops]; omega), ?_, ?_⟩
        · rw [Func.append_length]
          exact Nat.lt_succ_self _
        · rw [eval_append_fsub hwf env hd hv]
          ring

/-! ### Index and preservation lemmas -/

theorem uindex_lt_length {us : List SimUnknownKind} {u : SimUnknownKind}
    {i : Nat} (h : uindex us u = some i) : i < us.length := by
  induction us generalizing i with
  | nil => cases h
  | cons x xs ih =>
    simp only [uindex] at h
    by_cases hx : x = u
    · rw [if_pos hx] at h
      cases h
      exact Nat.succ_pos _
    · rw [if_neg hx] at h
      cases hm : uindex xs u with
      | none => rw [hm] at h; cases h
      | some j =>
        rw [hm] at h
        replace h : some (j + 1) = some i := h
        cases h
        exact Nat.succ_lt_succ (ih hm)

theorem uindex_get? {us : List SimUnknownKind} {u : SimUnknownKind}
    {i : Nat} (h : uindex us u = some i) : us.get? i = some u := by
  induction us generalizing i with
  | nil => cases h
  | cons x xs ih =>
    simp only [uindex] at h
    by_cases hx : x = u
    · rw [if_pos hx] at h
      cases h
      simp [hx]
    · rw [if_neg hx] at h
      cases hm : uindex xs u with
      | none => rw [hm] at h; cases h
      | some j =>
        rw [hm] at h
        replace h : some (j + 1) = some i := h
        cases h
        simpa using ih hm

theorem uindex_isSome_of_mem {us : List SimUnknownKind} {u : SimUnknownKind}
    (h : u ∈ us) : ∃ i, uindex us u = some i := by
  induction us with
  | nil => cases h
  | cons x xs ih =>
    simp only [uindex]
    by_cases hx : x = u
    · exact ⟨0, by rw [if_pos hx]⟩
    · rw [if_neg hx]
      cases h with
      | head => exact absurd rfl hx
      | tail _ h =>
        obtain ⟨i, hi⟩ := ih h
        exact ⟨i + 1, by rw [hi]; rfl⟩

theorem uindex_mem {us : List SimUnknownKind} {u : SimUnknownKind}
    {i : Nat} (h : uindex us u = some i) : u ∈ us := by
  have := uindex_get? h
  exact List.get?_mem this

theorem uindex_append_none {us : List SimUnknownKind} {u w : SimUnknownKind}
    (h : uindex us u = none) :
    uindex (us ++ [w]) u = if w = u then some us.length else none := by
  induction us with
  | nil =>
    simp only [List.nil_append, uindex, List.length_nil]
    by_cases hw : w = u
    · rw [if_pos hw, if_pos hw]
    · rw [if_neg hw, if_neg hw]
      rfl
  | cons x xs ih =>
    simp only [uindex] at h
    simp only [List.cons_append, uindex, List.append_eq]
    by_cases hx : x = u
    · rw [if_pos hx] at h
      cases h
    · rw [if_neg hx] at h ⊢
      cases hm : uindex xs u with
      | none =>
        rw [ih hm]
        by_cases hw : w = u
        · rw [if_pos hw, if_pos hw]
          simp
        · rw [if_neg hw, if_neg hw]
          rfl
      | some j =>
        rw [hm] at h
        cases h

theorem uindex_append_found {us : List SimUnknownKind} {u w : SimUnknownKind}
    {i : Nat} (h : uindex us u = some i) : uindex (us ++ [w]) u = some i := by
  induction us generalizing i with
  | nil => cases h
  | cons x xs ih =>
    simp only [uindex] at h
    simp only [List.cons_append, uindex, List.append_eq]
    by_cases hx : x = u
    · rw [if_pos hx] at h ⊢
      exact h
    · rw [if_neg hx] at h ⊢
      cases hm : uindex xs u with
      | none => rw [hm] at h; cases h
      | some j =>
        rw [hm] at h
        rw [ih hm]
        exact h

/-- Generic fold invariance: if every step preserves a projection, the fold
does. -/
theorem foldl_proj {α β γ : Type _} {g : β → α → β} {h : β → γ}
    (hg : ∀ b a, h (g b a) = h b) :
    ∀ (l : List α) (b : β), h (l.foldl g b) = h b := by
  intro l
  induction l with
  | nil => intro b; rfl
  | cons x xs ih =>
    intro b
    rw [List.foldl_cons, ih, hg]

theorem ensure_param_proj (s : State) (k : ParamKind) :
    (Builder.ensure_param s k).1.unknowns = s.unknowns ∧
    (Builder.ensure_param s k).1.liveParams = s.liveParams ∧
    (Builder.ensure_param s k).1.residual = s.residual ∧
    (Builder.ensure_param s k).1.jacobian = s.jacobian ∧
    (Builder.ensure_param s k).1.noise_sources = s.noise_sources ∧
    (Builder.ensure_param s k).1.limState = s.limState ∧
    (Builder.ensure_param s k).1.dead = s.dead := by
  unfold Builder.ensure_param
  cases plookup s.params k <;> exact ⟨rfl, rfl, rfl, rfl, rfl, rfl, rfl⟩

theorem eob_proj (s : State) (m : Nat) (k : Bool) (v : Nat) :
    (Builder.eob s m k v).1.unknowns = s.unknowns ∧
    (Builder.eob s m k v).1.liveParams = s.liveParams ∧
    (Builder.eob s m k v).1.params = s.params ∧
    (Builder.eob s m k v).1.residual = s.residual ∧
    (Builder.eob s m k v).1.jacobian = s.jacobian ∧
    (Builder.eob s m k v).1.noise_sources = s.noise_sources ∧
    (Builder.eob s m k v).1.limState = s.limState := by
  unfold Builder.eob
  rcases hfe : Util.ensure_optbarrier s.func v with ⟨f1, v1⟩
  exact ⟨rfl, rfl, rfl, rfl, rfl, rfl, rfl⟩

theorem eob_residual_proj (m : Nat) (s : State) (i : Nat) :
    (Builder.eob_residual m s i).unknowns = s.unknowns ∧
    (Builder.eob_residual m s i).liveParams = s.liveParams ∧
    (Builder.eob_residual m s i).params = s.params ∧
    (Builder.eob_residual m s i).jacobian = s.jacobian ∧
    (Builder.eob_residual m s i).limState = s.limState := by
  unfold Builder.eob_residual
  cases hr : s.residual.get? i with
  | none => exact ⟨rfl, rfl, rfl, rfl, rfl⟩
  | some r =>
    obtain ⟨rr, rx, rss, xss, rlr, xlr⟩ := r
    dsimp only
    rcases h1 : Builder.eob s m (Builder.isKirchoff s.unknowns i) rr
      with ⟨s1, w1⟩
    have p1 := eob_proj s m (Builder.isKirchoff s.unknowns i) rr
    rw [h1] at p1
    dsimp only
    rcases h2 : Builder.eob s1 m (Builder.isKirchoff s.unknowns i) rx
      with ⟨s2, w2⟩
    have p2 := eob_proj s1 m (Builder.isKirchoff s.unknowns i) rx
    rw [h2] at p2
    dsimp only
    rcases h3 : Builder.eob s2 m (Builder.isKirchoff s.unknowns i) rss
      with ⟨s3, w3⟩
    have p3 := eob_proj s2 m (Builder.isKirchoff s.unknowns i) rss
    rw [h3] at p3
    dsimp only
    rcases h4 : Builder.eob s3 m (Builder.isKirchoff s.unknowns i) F_ZERO
      with ⟨s4, w4⟩
    have p4 := eob_proj s3 m (Builder.isKirchoff s.unknowns i) F_ZERO
    rw [h4] at p4
    dsimp only
    rcases h5 : Builder.eob s4 m (Builder.isKirchoff s.unknowns i) rlr
      with ⟨s5, w5⟩
    have p5 := eob_proj s4 m (Builder.isKirchoff s.unknowns i) rlr
    rw [h5] at p5
    dsimp only
    rcases h6 : Builder.eob s5 m (Builder.isKirchoff s.unknowns i) xlr
      with ⟨s6, w6⟩
    have p6 := eob_proj s5 m (Builder.isKirchoff s.unknowns i) xlr
    rw [h6] at p6
    dsimp only
    refine ⟨?_, ?_, ?_, ?_, ?_⟩
    · show s6.unknowns = s.unknowns
      rw [p6.1, p5.1, p4.1, p3.1, p2.1, p1.1]
    · show s6.liveParams = s.liveParams
      rw [p6.2.1, p5.2.1, p4.2.1, p3.2.1, p2.2.1, p1.2.1]
    · show s6.params = s.params
      rw [p6.2.2.1, p5.2.2.1, p4.2.2.1, p3.2.2.1, p2.2.2.1, p1.2.2.1]
    · show s6.jacobian = s.jacobian
      rw [p6.2.2.2.2.1, p5.2.2.2.2.1, p4.2.2.2.2.1, p3.2.2.2.2.1,
        p2.2.2.2.2.1, p1.2.2.2.2.1]
    · show s6.limState = s.limState
      rw [p6.2.2.2.2.2.2, p5.2.2.2.2.2.2, p4.2.2.2.2.2.2, p3.2.2.2.2.2.2,
        p2.2.2.2.2.2.2, p1.2.2.2.2.2.2]

theorem eob_noise_proj (m : Nat) (s : State) (i : Nat) :
    (Builder.eob_noise m s i).unknowns = s.unknowns ∧
    (Builder.eob_noise m s i).liveParams = s.liveParams ∧
    (Builder.eob_noise m s i).params = s.params ∧
    (Builder.eob_noise m s i).jacobian = s.jacobian ∧
    (Builder.eob_noise m s i).limState = s.limState := by
  unfold Builder.eob_noise
  cases hr : s.noise_sources.get? i with
  | none => exact ⟨rfl, rfl, rfl, rfl, rfl⟩
  | some n =>
    dsimp only
    rcases h1 : Builder.eob s m false n.factor with ⟨s1, w1⟩
    have p1 := eob_proj s m false n.factor
    rw [h1] at p1
    dsimp only
    exact ⟨p1.1, p1.2.1, p1.2.2.1, p1.2.2.2.2.1, p1.2.2.2.2.2.2⟩

theorem eob_entry_proj (m : Nat) (s : State) (i : Nat) :
    (Builder.eob_entry m s i).unknowns = s.unknowns ∧
    (Builder.eob_entry m s i).liveParams = s.liveParams ∧
    (Builder.eob_entry m s i).params = s.params ∧
    (Builder.eob_entry m s i).noise_sources = s.noise_sources ∧
    (Builder.eob_entry m s i).limState = s.limState := by
  unfold Builder.eob_entry
  cases hr : s.jacobian.get? i with
  | none => exact ⟨rfl, rfl, rfl, rfl, rfl⟩
  | some e =>
    dsimp only
    rcases h1 : Builder.eob s m (Builder.isKirchoff s.unknowns e.row) e.resist
      with ⟨s1, w1⟩
    have p1 := eob_proj s m (Builder.isKirchoff s.unknowns e.row) e.resist
    rw [h1] at p1
    dsimp only
    rcases h2 : Builder.eob s1 m (Builder.isKirchoff s.unknowns e.row) e.react
      with ⟨s2, w2⟩
    have p2 := eob_proj s1 m (Builder.isKirchoff s.unknowns e.row) e.react
    rw [h2] at p2
    dsimp only
    refine ⟨?_, ?_, ?_, ?_, ?_⟩
    · show s2.unknowns = s.unknowns
      rw [p2.1, p1.1]
    · show s2.liveParams = s.liveParams
      rw [p2.2.1, p1.2.1]
    · show s2.params = s.params
      rw [p2.2.2.1, p1.2.2.1]
    · show s2.noise_sources = s.noise_sources
      rw [p2.2.2.2.2.2.1, p1.2.2.2.2.2.1]
    · show s2.limState = s.limState
      rw [p2.2.2.2.2.2.2, p1.2.2.2.2.2.2]

theorem ensure_optbarriers_proj (s : State) :
    (Builder.ensure_optbarriers s).unknowns = s.unknowns ∧
    (Builder.ensure_optbarriers s).liveParams = s.liveParams := by
  unfold Builder.ensure_optbarriers
  rcases hp : Builder.ensure_param s (.paramSysFun .mfactor) with ⟨s0, m⟩
  have pp := ensure_param_proj s (.paramSysFun .mfactor)
  rw [hp] at pp
  dsimp only
  have f1u : ∀ t, ((List.range t.residual.length).foldl
      (Builder.eob_residual m) t).unknowns = t.unknowns := by
    intro t
    exact foldl_proj (fun b a => (eob_residual_proj m b a).1) _ t
  have f1l : ∀ t, ((List.range t.residual.length).foldl
      (Builder.eob_residual m) t).liveParams = t.liveParams := by
    intro t
    exact foldl_proj (fun b a => (eob_residual_proj m b a).2.1) _ t
  rcases hq : Builder.eob ((List.range s0.residual.length).foldl
      (Builder.eob_residual m) s0) m false m with ⟨s2, w2⟩
  have pq := eob_proj ((List.range s0.residual.length).foldl
      (Builder.eob_residual m) s0) m false m
  rw [hq] at pq
  dsimp only
  constructor
  · rw [foldl_proj (fun b a => (eob_entry_proj m b a).1),
      foldl_proj (fun b a => (eob_noise_proj m b a).1), pq.1, f1u, pp.1]
  · rw [foldl_proj (fun b a => (eob_entry_proj m b a).2.1),
      foldl_proj (fun b a => (eob_noise_proj m b a).2.1), pq.2.1, f1l, pp.2.1]

theorem lim_step_proj (di : Builder.DerivInfo) (st un : Nat)
    (vn : Nat × Bool) (s : State) (i : Nat) :
    (Builder.lim_step di st un vn s i).unknowns = s.unknowns ∧
    (Builder.lim_step di st un vn s i).liveParams = s.liveParams ∧
    (Builder.lim_step di st un vn s i).jacobian = s.jacobian ∧
    (Builder.lim_step di st un vn s i).noise_sources = s.noise_sources ∧
    (Builder.lim_step di st un vn s i).limState = s.limState := by
  unfold Builder.lim_step
  cases hd : dindex di.dunknowns vn.1 with
  | none => exact ⟨rfl, rfl, rfl, rfl, rfl⟩
  | some unknown =>
    dsimp only
    rcases hp : Builder.ensure_param s (.newState st) with ⟨s1, changed⟩
    have pp := ensure_param_proj s (.newState st)
    rw [hp] at pp
    dsimp only
    cases hr : s1.residual.get? i with
    | none => exact ⟨pp.1, pp.2.1, pp.2.2.2.1, pp.2.2.2.2.1, pp.2.2.2.2.2.1⟩
    | some r => exact ⟨pp.1, pp.2.1, pp.2.2.2.1, pp.2.2.2.2.1, pp.2.2.2.2.2.1⟩

theorem build_lim_rhs_proj (s : State) (di : Builder.DerivInfo) :
    (Builder.build_lim_rhs s di).unknowns = s.unknowns ∧
    (Builder.build_lim_rhs s di).liveParams = s.liveParams ∧
    (Builder.build_lim_rhs s di).jacobian = s.jacobian ∧
    (Builder.build_lim_rhs s di).noise_sources = s.noise_sources := by
  unfold Builder.build_lim_rhs
  have inner : ∀ (i : Nat) (t : State) (p : Nat × (Nat × List (Nat × Bool))),
      ((p.2.2.foldl (fun s vn => Builder.lim_step di p.1 p.2.1 vn s i) t).unknowns
          = t.unknowns) ∧
      ((p.2.2.foldl (fun s vn => Builder.lim_step di p.1 p.2.1 vn s i) t).liveParams
          = t.liveParams) ∧
      ((p.2.2.foldl (fun s vn => Builder.lim_step di p.1 p.2.1 vn s i) t).jacobian
          = t.jacobian) ∧
      ((p.2.2.foldl (fun s vn => Builder.lim_step di p.1 p.2.1 vn s i) t).noise_sources
          = t.noise_sources) := by
    intro i t p
    refine ⟨?_, ?_, ?_, ?_⟩
    · exact foldl_proj (fun b a => (lim_step_proj di p.1 p.2.1 a b i).1) _ t
    · exact foldl_proj (fun b a => (lim_step_proj di p.1 p.2.1 a b i).2.1) _ t
    · exact foldl_proj (fun b a => (lim_step_proj di p.1 p.2.1 a b i).2.2.1) _ t
    · exact foldl_proj (fun b a => (lim_step_proj di p.1 p.2.1 a b i).2.2.2.1) _ t
  have mid : ∀ (i : Nat) (t : State),
      ((t.limState.enum.foldl
          (fun s p => p.2.2.foldl (fun s vn => Builder.lim_step di p.1 p.2.1 vn s i) s)
          t).unknowns = t.unknowns) ∧
      ((t.limState.enum.foldl
          (fun s p => p.2.2.foldl (fun s vn => Builder.lim_step di p.1 p.2.1 vn s i) s)
          t).liveParams = t.liveParams) ∧
      ((t.limState.enum.foldl
          (fun s p => p.2.2.foldl (fun s vn => Builder.lim_step di p.1 p.2.1 vn s i) s)
          t).jacobian = t.jacobian) ∧
      ((t.limState.enum.foldl
          (fun s p => p.2.2.foldl (fun s vn => Builder.lim_step di p.1 p.2.1 vn s i) s)
          t).noise_sources = t.noise_sources) := by
    intro i t
    refine ⟨?_, ?_, ?_, ?_⟩
    · exact foldl_proj (fun b a => (inner i b a).1) _ t
    · exact foldl_proj (fun b a => (inner i b a).2.1) _ t
    · exact foldl_proj (fun b a => (inner i b a).2.2.1) _ t
    · exact foldl_proj (fun b a => (inner i b a).2.2.2) _ t
  refine ⟨?_, ?_, ?_, ?_⟩
  · exact foldl_proj (fun b a => (mid a b).1) _ s
  · exact foldl_proj (fun b a => (mid a b).2.1) _ s
  · exact foldl_proj (fun b a => (mid a b).2.2.1) _ s
  · exact foldl_proj (fun b a => (mid a b).2.2.2) _ s

theorem build_jacobian_proj (s : State) (reads : List (ParamKind × Nat))
    (di : Builder.DerivInfo) :
    (Builder.build_jacobian s reads di).unknowns = s.unknowns ∧
    (Builder.build_jacobian s reads di).liveParams = s.liveParams ∧
    (Builder.build_jacobian s reads di).residual = s.residual ∧
    (Builder.build_jacobian s reads di).limState = s.limState ∧
    (Builder.build_jacobian s reads di).noise_sources = s.noise_sources := by
  exact ⟨rfl, rfl, rfl, rfl, rfl⟩

theorem build_input_unknown_pairs_proj (t : State) :
    (Builder.build_input_unknown_pairs t).unknowns = t.unknowns ∧
    (Builder.build_input_unknown_pairs t).liveParams = t.liveParams ∧
    (Builder.build_input_unknown_pairs t).params = t.params ∧
    (Builder.build_input_unknown_pairs t).jacobian = t.jacobian ∧
    (Builder.build_input_unknown_pairs t).residual = t.residual ∧
    (Builder.build_input_unknown_pairs t).noise_sources = t.noise_sources :=
  ⟨rfl, rfl, rfl, rfl, rfl, rfl⟩

theorem build_input_model_inputs (t : State) :
    (Builder.build_input_unknown_pairs t).model_inputs =
      (Builder.live_params t).filterMap
        (fun kv => Builder.input_pair t.unknowns kv.1) := rfl

theorem live_params_build_input (t : State) :
    Builder.live_params (Builder.build_input_unknown_pairs t) =
      Builder.live_params t := rfl

/-- `finish` preserves the unknown set and the liveness oracle. -/
theorem finishFrom_unknowns (s : State) (di : Builder.DerivInfo) :
    (Builder.finishFrom s di).unknowns = s.unknowns ∧
    (Builder.finishFrom s di).liveParams = s.liveParams := by
  constructor
  · unfold Builder.finishFrom
    dsimp only
    rw [(build_input_unknown_pairs_proj _).1, (ensure_optbarriers_proj _).1,
      (build_lim_rhs_proj _ _).1, (build_jacobian_proj _ _ _).1]
  · unfold Builder.finishFrom
    dsimp only
    rw [(build_input_unknown_pairs_proj _).2.1, (ensure_optbarriers_proj _).2,
      (build_lim_rhs_proj _ _).2.1, (build_jacobian_proj _ _ _).2.1]

/-- After `finish`, `model_inputs` is exactly the live-param filterMap the
source computes (`build_input_unknown_pairs` runs last, and only the two
entry counts are recorded afterwards). -/
theorem finish_model_inputs (s : State) (di : Builder.DerivInfo) :
    (Builder.finishFrom s di).model_inputs =
      (Builder.live_params (Builder.finishFrom s di)).filterMap
        (fun kv => Builder.input_pair (Builder.finishFrom s di).unknowns kv.1) := by
  unfold Builder.finishFrom
  dsimp only
  rw [build_input_model_inputs]
  simp only [Builder.live_params]
  dsimp only
  rw [(build_input_unknown_pairs_proj _).1, (build_input_unknown_pairs_proj _).2.1,
    (build_input_unknown_pairs_proj _).2.2.1]

/-! ### HasConsts preservation and the Jacobian sparsity invariant -/

/-- Fold preservation of a predicate. -/
theorem foldl_pred {α β : Type _} {g : β → α → β} {P : β → Prop}
    (hg : ∀ b a, P b → P (g b a)) :
    ∀ (l : List α) (b : β), P b → P (l.foldl g b) := by
  intro l
  induction l with
  | nil => intro b hb; exact hb
  | cons x xs ih =>
    intro b hb
    rw [List.foldl_cons]
    exact ih _ (hg b x hb)

theorem Util.add_extends (f : Func) (dst val : Nat) (neg : Bool) :
    Extends f (Util.add f dst val neg).1 := by
  unfold Util.add
  split_ifs <;> first | exact Extends.rfl | exact f.append_extends _

theorem setDef_hasConsts {f : Func} (hc : HasConsts f) {v w : Nat}
    (hv : f.defs.get? v = some (.optbarrier w)) (d : IDef) :
    HasConsts (f.setDef v d) := by
  have hv4 : 4 ≤ v := by
    rcases Nat.lt_or_ge v 4 with h | h
    · exfalso
      interval_cases v
      · rw [hc.1] at hv; cases hv
      · rw [hc.2.1] at hv; cases hv
      · rw [hc.2.2.1] at hv; cases hv
      · rw [hc.2.2.2] at hv; cases hv
    · exact h
  refine ⟨?_, ?_, ?_, ?_⟩ <;>
    simp only [Func.setDef] <;>
    rw [List.get?_set_ne _ _ (by omega)]
  · exact hc.1
  · exact hc.2.1
  · exact hc.2.2.1
  · exact hc.2.2.2

theorem update_optbarrier_hasConsts {f : Func} (hc : HasConsts f)
    (v m : Nat) : HasConsts (Util.update_optbarrier f v m) := by
  unfold Util.update_optbarrier
  cases hv : f.defs.get? v with
  | none => exact hc
  | some d =>
    cases d with
    | optbarrier w =>
      dsimp only
      have hx : Extends f (f.append (.fmul m w)).1 := f.append_extends _
      have hc2 : HasConsts (f.append (.fmul m w)).1 := hx.hasConsts hc
      have hv2 : (f.append (.fmul m w)).1.defs.get? v =
          some (.optbarrier w) := by
        rw [hx.get?_eq]
        · exact hv
        · by_contra hlt
          push_neg at hlt
          rw [List.get?_eq_none.mpr hlt] at hv
          cases hv
      exact setDef_hasConsts hc2 hv2 _
    | const k => exact hc
    | param k => exact hc
    | fadd a b => exact hc
    | fsub a b => exact hc
    | fmul a b => exact hc
    | fdiv a b => exact hc
    | fneg a => exact hc
    | sqrt a => exact hc
    | phi2 c w => exact hc

theorem ensure_optbarrier_spec {f : Func} (hc : HasConsts f) (v : Nat) :
    HasConsts (Util.ensure_optbarrier f v).1 ∧
    ((Util.ensure_optbarrier f v).2 = F_ZERO ↔ v = F_ZERO) := by
  unfold Util.ensure_optbarrier
  by_cases h0 : v = F_ZERO
  · rw [if_pos h0]
    exact ⟨hc, Iff.rfl⟩
  · rw [if_neg h0]
    have hlen := hc.length_ge
    cases hv : f.defs.get? v with
    | none =>
      refine ⟨(f.append_extends _).hasConsts hc, ?_⟩
      constructor
      · intro h
        exfalso
        have : (f.append (.optbarrier v)).2 = f.defs.length := rfl
        rw [this] at h
        unfold F_ZERO at h
        omega
      · intro h; exact absurd h h0
    | some d =>
      cases d with
      | optbarrier w =>
        exact ⟨hc, by constructor <;> intro h <;> exact absurd h h0⟩
      | const k =>
        refine ⟨(f.append_extends _).hasConsts hc, ?_⟩
        constructor
        · intro h
          exfalso
          have : (f.append (.optbarrier v)).2 = f.defs.length := rfl
          rw [this] at h
          unfold F_ZERO at h
          omega
        · intro h; exact absurd h h0
      | param k =>
        refine ⟨(f.append_extends _).hasConsts hc, ?_⟩
        constructor
        · intro h
          exfalso
          have : (f.append (.optbarrier v)).2 = f.defs.length := rfl
          rw [this] at h
          unfold F_ZERO at h
          omega
        · intro h; exact absurd h h0
      | fadd a b =>
        refine ⟨(f.append_extends _).hasConsts hc, ?_⟩
        constructor
        · intro h
          exfalso
          have : (f.append (.optbarrier v)).2 = f.defs.length := rfl
          rw [this] at h
          unfold F_ZERO at h
          omega
        · intro h; exact absurd h h0
      | fsub a b =>
        refine ⟨(f.append_extends _).hasConsts hc, ?_⟩
        constructor
        · intro h
          exfalso
          have : (f.append (.optbarrier v)).2 = f.defs.length := rfl
          rw [this] at h
          unfold F_ZERO at h
          omega
        · intro h; exact absurd h h0
      | fmul a b =>
        refine ⟨(f.append_extends _).hasConsts hc, ?_⟩
        constructor
        · intro h
          exfalso
          have : (f.append (.optbarrier v)).2 = f.defs.length := rfl
          rw [this] at h
          unfold F_ZERO at h
          omega
        · intro h; exact absurd h h0
      | fdiv a b =>
        refine ⟨(f.append_extends _).hasConsts hc, ?_⟩
        constructor
        · intro h
          exfalso
          have : (f.append (.optbarrier v)).2 = f.defs.length := rfl
          rw [this] at h
          unfold F_ZERO at h
          omega
        · intro h; exact absurd h h0
      | fneg a =>
        refine ⟨(f.append_extends _).hasConsts hc, ?_⟩
        constructor
        · intro h
          exfalso
          have : (f.append (.optbarrier v)).2 = f.defs.length := rfl
          rw [this] at h
          unfold F_ZERO at h
          omega
        · intro h; exact absurd h h0
      | sqrt a =>
        refine ⟨(f.append_extends _).hasConsts hc, ?_⟩
        constructor
        · intro h
          exfalso
          have : (f.append (.optbarrier v)).2 = f.defs.length := rfl
          rw [this] at h
          unfold F_ZERO at h
          omega
        · intro h; exact absurd h h0
      | phi2 c w =>
        refine ⟨(f.append_extends _).hasConsts hc, ?_⟩
        constructor
        · intro h
          exfalso
          have : (f.append (.optbarrier v)).2 = f.defs.length := rfl
          rw [this] at h
          unfold F_ZERO at h
          omega
        · intro h; exact absurd h h0

/-- The optbarrier-anchoring closure keeps `F_ZERO` fixed and maps non-zero
values to non-zero values, preserving the constant slots. -/
theorem eob_spec0 {s : State} (hc : HasConsts s.func) (m v : Nat)
    (kb : Bool) :
    HasConsts (Builder.eob s m kb v).1.func ∧
    ((Builder.eob s m kb v).2 = F_ZERO ↔ v = F_ZERO) := by
  unfold Builder.eob
  rcases hfe : Util.ensure_optbarrier s.func v with ⟨f1, v1⟩
  have hsp := ensure_optbarrier_spec hc v
  rw [hfe] at hsp
  dsimp only
  by_cases hk : kb = true ∧ v1 ≠ F_ZERO
  · rw [if_pos hk]
    exact ⟨update_optbarrier_hasConsts hsp.1 v1 m, hsp.2⟩
  · rw [if_neg hk]
    exact ⟨hsp.1, hsp.2⟩

/-- The Jacobian sparsity invariant: constant slots intact and no all-zero
matrix entry. -/
def JacOK (t : State) : Prop :=
  HasConsts t.func ∧ ∀ e ∈ t.jacobian, ¬(e.resist = F_ZERO ∧ e.react = F_ZERO)

theorem foldl_extends {γ α : Type _} {g : (Func × γ) → α → (Func × γ)}
    (hg : ∀ b a, Extends b.1 (g b a).1) :
    ∀ (l : List α) (b : Func × γ), Extends b.1 (l.foldl g b).1 := by
  intro l
  induction l with
  | nil => intro b; exact Extends.rfl
  | cons x xs ih =>
    intro b
    rw [List.foldl_cons]
    exact (hg b x).trans (ih (g b x))

theorem ensure_param_func (s : State) (k : ParamKind) :
    Extends s.func (Builder.ensure_param s k).1.func := by
  unfold Builder.ensure_param
  cases plookup s.params k with
  | none => exact s.func.append_extends _
  | some v => exact Extends.rfl

theorem eob_residual_JacOK (m : Nat) (s : State) (i : Nat)
    (h : JacOK s) : JacOK (Builder.eob_residual m s i) := by
  have hjac := (eob_residual_proj m s i).2.2.2.1
  refine ⟨?_, ?_⟩
  · unfold Builder.eob_residual
    cases hr : s.residual.get? i with
    | none => exact h.1
    | some r =>
      obtain ⟨rr, rx, rss, xss, rlr, xlr⟩ := r
      dsimp only
      rcases h1 : Builder.eob s m (Builder.isKirchoff s.unknowns i) rr
        with ⟨s1, w1⟩
      have p1 := eob_spec0 h.1 m rr (Builder.isKirchoff s.unknowns i)
      rw [h1] at p1
      dsimp only
      rcases h2 : Builder.eob s1 m (Builder.isKirchoff s.unknowns i) rx
        with ⟨s2, w2⟩
      have p2 := eob_spec0 p1.1 m rx (Builder.isKirchoff s.unknowns i)
      rw [h2] at p2
      dsimp only
      rcases h3 : Builder.eob s2 m (Builder.isKirchoff s.unknowns i) rss
        with ⟨s3, w3⟩
      have p3 := eob_spec0 p2.1 m rss (Builder.isKirchoff s.unknowns i)
      rw [h3] at p3
      dsimp only
      rcases h4 : Builder.eob s3 m (Builder.isKirchoff s.unknowns i) F_ZERO
        with ⟨s4, w4⟩
      have p4 := eob_spec0 p3.1 m F_ZERO (Builder.isKirchoff s.unknowns i)
      rw [h4] at p4
      dsimp only
      rcases h5 : Builder.eob s4 m (Builder.isKirchoff s.unknowns i) rlr
        with ⟨s5, w5⟩
      have p5 := eob_spec0 p4.1 m rlr (Builder.isKirchoff s.unknowns i)
      rw [h5] at p5
      dsimp only
      rcases h6 : Builder.eob s5 m (Builder.isKirchoff s.unknowns i) xlr
        with ⟨s6, w6⟩
      have p6 := eob_spec0 p5.1 m xlr (Builder.isKirchoff s.unknowns i)
      rw [h6] at p6
      dsimp only
      exact p6.1
  · rw [hjac]
    exact h.2

theorem eob_noise_JacOK (m : Nat) (s : State) (i : Nat)
    (h : JacOK s) : JacOK (Builder.eob_noise m s i) := by
  have hjac := (eob_noise_proj m s i).2.2.2.1
  refine ⟨?_, ?_⟩
  · unfold Builder.eob_noise
    cases hr : s.noise_sources.get? i with
    | none => exact h.1
    | some n =>
      dsimp only
      rcases h1 : Builder.eob s m false n.factor with ⟨s1, w1⟩
      have p1 := eob_spec0 h.1 m n.factor false
      rw [h1] at p1
      dsimp only
      exact p1.1
  · rw [hjac]
    exact h.2

theorem eob_entry_JacOK (m : Nat) (s : State) (i : Nat)
    (h : JacOK s) : JacOK (Builder.eob_entry m s i) := by
  unfold Builder.eob_entry
  cases hr : s.jacobian.get? i with
  | none => exact h
  | some e =>
    dsimp only
    rcases h1 : Builder.eob s m (Builder.isKirchoff s.unknowns e.row) e.resist
      with ⟨s1, w1⟩
    have p1 := eob_spec0 h.1 m e.resist (Builder.isKirchoff s.unknowns e.row)
    rw [h1] at p1
    have q1 := eob_proj s m (Builder.isKirchoff s.unknowns e.row) e.resist
    rw [h1] at q1
    dsimp only
    rcases h2 : Builder.eob s1 m (Builder.isKirchoff s.unknowns e.row) e.react
      with ⟨s2, w2⟩
    have p2 := eob_spec0 p1.1 m e.react (Builder.isKirchoff s.unknowns e.row)
    rw [h2] at p2
    have q2 := eob_proj s1 m (Builder.isKirchoff s.unknowns e.row) e.react
    rw [h2] at q2
    dsimp only
    refine ⟨p2.1, ?_⟩
    intro e' he'
    show ¬(e'.resist = F_ZERO ∧ e'.react = F_ZERO)
    have hmem : e' ∈ s2.jacobian ∨
        e' = { e with resist := w1, react := w2 } :=
      List.mem_or_eq_of_mem_set he'
    have hs2 : s2.jacobian = s.jacobian := by rw [q2.2.2.2.2.1, q1.2.2.2.2.1]
    rcases hmem with hm | hm
    · rw [hs2] at hm
      exact h.2 e' hm
    · subst hm
      have he : e ∈ s.jacobian := List.get?_mem hr
      have hne := h.2 e he
      dsimp only
      intro ⟨hz1, hz2⟩
      exact hne ⟨p1.2.mp hz1, p2.2.mp hz2⟩

theorem ensure_optbarriers_JacOK (s : State) (h : JacOK s) :
    JacOK (Builder.ensure_optbarriers s) := by
  unfold Builder.ensure_optbarriers
  rcases hp : Builder.ensure_param s (.paramSysFun .mfactor) with ⟨s0, m⟩
  have hpc : HasConsts s0.func := by
    have hx := ensure_param_func s (.paramSysFun .mfactor)
    rw [hp] at hx
    exact hx.hasConsts h.1
  have hpj : s0.jacobian = s.jacobian := by
    have := (ensure_param_proj s (.paramSysFun .mfactor)).2.2.2.1
    rw [hp] at this
    exact this
  have h0 : JacOK s0 := ⟨hpc, by rw [hpj]; exact h.2⟩
  dsimp only
  have h1 : JacOK ((List.range s0.residual.length).foldl
      (Builder.eob_residual m) s0) :=
    foldl_pred (fun b a => eob_residual_JacOK m b a) _ s0 h0
  rcases hq : Builder.eob ((List.range s0.residual.length).foldl
      (Builder.eob_residual m) s0) m false m with ⟨s2, w2⟩
  have h2 : JacOK s2 := by
    have pc := eob_spec0 h1.1 m m false
    rw [hq] at pc
    have pj := eob_proj ((List.range s0.residual.length).foldl
      (Builder.eob_residual m) s0) m false m
    rw [hq] at pj
    exact ⟨pc.1, by rw [pj.2.2.2.2.1]; exact h1.2⟩
  dsimp only
  have h3 : JacOK ((List.range s2.noise_sources.length).foldl
      (Builder.eob_noise m) s2) :=
    foldl_pred (fun b a => eob_noise_JacOK m b a) _ s2 h2
  exact foldl_pred (fun b a => eob_entry_JacOK m b a) _ _ h3

theorem jac_add_extends (di : Builder.DerivInfo) (f : Func)
    (entry residualV : Nat) (unknown : Nat) (neg : Bool) :
    Extends f (Builder.jac_add di f entry residualV unknown neg).1 := by
  unfold Builder.jac_add
  cases dlookup di.derivs residualV unknown with
  | none => exact Extends.rfl
  | some ddx => exact Util.add_extends f entry ddx neg

theorem jac_add4_extends (di : Builder.DerivInfo) (res : Residual)
    (lu : Nat) (neg : Bool) (acc : Func × Nat × Nat) :
    Extends acc.1 (Builder.jac_add4 di res lu neg acc).1 := by
  unfold Builder.jac_add4
  exact (((jac_add_extends di _ _ _ _ _).trans
    (jac_add_extends di _ _ _ _ _)).trans
    (jac_add_extends di _ _ _ _ _)).trans
    (jac_add_extends di _ _ _ _ _)

theorem jac_add_residual_extends (di : Builder.DerivInfo)
    (limState : List (Nat × List (Nat × Bool))) (us : List SimUnknownKind)
    (res : Residual) (su : SimUnknownKind) (unknownVal : Nat) (neg : Bool)
    (fd : Func × List (Nat × Nat)) :
    Extends fd.1 (Builder.jac_add_residual di limState us res su unknownVal
      neg fd).1 := by
  unfold Builder.jac_add_residual
  cases uindex us su with
  | none => exact Extends.rfl
  | some i =>
    dsimp only
    have step1 : ∀ (acc : Func × Nat × Nat),
        Extends acc.1
          ((match limLookup limState unknownVal with
          | some lim_vals =>
            lim_vals.foldl
              (fun acc vn =>
                match dindex di.dunknowns vn.1 with
                | none => acc
                | some lu => Builder.jac_add4 di res lu (neg != vn.2) acc)
              acc
          | none => acc) : Func × Nat × Nat).1 := by
      intro acc
      cases limLookup limState unknownVal with
      | none => exact Extends.rfl
      | some lim_vals =>
        dsimp only
        refine foldl_extends ?_ lim_vals acc
        intro b a
        cases dindex di.dunknowns a.1 with
        | none => exact Extends.rfl
        | some lu => exact jac_add4_extends di res lu (neg != a.2) b
    refine Extends.trans
      (step1 (fd.1, ((fd.2.get? i).getD (F_ZERO, F_ZERO)).1,
        ((fd.2.get? i).getD (F_ZERO, F_ZERO)).2)) ?_
    cases dindex di.dunknowns unknownVal with
    | none => exact Extends.rfl
    | some du => exact jac_add4_extends di res du neg _

theorem jac_row_extends (di : Builder.DerivInfo)
    (limState : List (Nat × List (Nat × Bool))) (us : List SimUnknownKind)
    (reads : List (ParamKind × Nat)) (res : Residual) (f : Func) :
    Extends f (Builder.jac_row di limState us reads res f).1 := by
  unfold Builder.jac_row
  refine foldl_extends ?_ reads (f, _)
  intro b a
  cases ha : a.1 with
  | voltage hi lo =>
    dsimp only
    cases lo with
    | none =>
      exact jac_add_residual_extends di limState us res _ a.2 false b
    | some l =>
      dsimp only
      exact Extends.trans
        (jac_add_residual_extends di limState us res _ a.2 true b)
        (jac_add_residual_extends di limState us res _ a.2 false _)
  | implicitUnknown eq =>
    exact jac_add_residual_extends di limState us res _ a.2 false b
  | current k =>
    exact jac_add_residual_extends di limState us res _ a.2 false b
  | param p => exact Extends.rfl
  | paramGiven p => exact Extends.rfl
  | paramSysFun pf => exact Extends.rfl
  | portConnected p => exact Extends.rfl
  | hiddenState w => exact Extends.rfl
  | newState st => exact Extends.rfl

theorem build_jacobian_func (s : State) (reads : List (ParamKind × Nat))
    (di : Builder.DerivInfo) :
    Extends s.func (Builder.build_jacobian s reads di).func := by
  unfold Builder.build_jacobian
  dsimp only
  refine foldl_extends ?_ s.residual.enum (s.func, [])
  intro b a
  exact jac_row_extends di s.limState s.unknowns reads a.2 b.1

theorem sparsify_row_nonzero {row : Nat} {dense : List (Nat × Nat)}
    {e : MatrixEntry} (h : e ∈ Builder.sparsify_row row dense) :
    ¬(e.resist = F_ZERO ∧ e.react = F_ZERO) := by
  unfold Builder.sparsify_row at h
  obtain ⟨p, hp, he⟩ := List.mem_map.mp h
  have hf := (List.mem_filter.mp hp).2
  subst he
  dsimp only
  intro ⟨h1, h2⟩
  rw [h1, h2] at hf
  simp at hf

theorem build_jacobian_entries (s : State) (reads : List (ParamKind × Nat))
    (di : Builder.DerivInfo) :
    ∀ e ∈ (Builder.build_jacobian s reads di).jacobian,
      ¬(e.resist = F_ZERO ∧ e.react = F_ZERO) := by
  unfold Builder.build_jacobian
  dsimp only
  have main : ∀ (l : List (Nat × Residual)) (b : Func × List MatrixEntry),
      (∀ e ∈ b.2, ¬(e.resist = F_ZERO ∧ e.react = F_ZERO)) →
      ∀ e ∈ (l.foldl
        (fun (acc : Func × List MatrixEntry) p =>
          let fd := Builder.jac_row di s.limState s.unknowns reads p.2 acc.1
          (fd.1, acc.2 ++ Builder.sparsify_row p.1 fd.2)) b).2,
        ¬(e.resist = F_ZERO ∧ e.react = F_ZERO) := by
    intro l
    induction l with
    | nil => intro b hb; exact hb
    | cons x xs ih =>
      intro b hb
      rw [List.foldl_cons]
      refine ih _ ?_
      intro e he
      rcases List.mem_append.mp he with hm | hm
      · exact hb e hm
      · exact sparsify_row_nonzero hm
  intro e he
  exact main s.residual.enum (s.func, []) (by intro e h; cases h) e he

theorem add_lim_rhs_extends (di : Builder.DerivInfo) (f : Func)
    (delta : Nat) (unknown : Nat) (dst residualV residual_ss : Nat) :
    Extends f (Builder.add_lim_rhs di f delta unknown dst residualV
      residual_ss).1 := by
  unfold Builder.add_lim_rhs
  dsimp only
  refine Extends.trans (Util.add_extends f
    ((dlookup di.derivs residualV unknown).getD F_ZERO)
    ((dlookup di.derivs residual_ss unknown).getD F_ZERO) false) ?_
  split_ifs
  · exact Extends.trans (Func.append_extends _ _) (Util.add_extends _ _ _ false)
  · exact Extends.rfl

theorem lim_step_extends (di : Builder.DerivInfo) (st un : Nat)
    (vn : Nat × Bool) (s : State) (i : Nat) :
    Extends s.func (Builder.lim_step di st un vn s i).func := by
  unfold Builder.lim_step
  cases hd : dindex di.dunknowns vn.1 with
  | none => exact Extends.rfl
  | some unknown =>
    dsimp only
    rcases hp : Builder.ensure_param s (.newState st) with ⟨s1, changed⟩
    have hx1 : Extends s.func s1.func := by
      have := ensure_param_func s (.newState st)
      rw [hp] at this
      exact this
    dsimp only
    have hx2 : Extends s1.func
        (if vn.2 then s1.func.append (.fadd changed un)
         else s1.func.append (.fsub changed un)).1 := by
      cases vn.2
      · exact s1.func.append_extends _
      · exact s1.func.append_extends _
    cases hr : s1.residual.get? i with
    | none => exact hx1.trans hx2
    | some r =>
      refine hx1.trans (hx2.trans ?_)
      refine Extends.trans (add_lim_rhs_extends di
        (if vn.2 then s1.func.append (.fadd changed un)
         else s1.func.append (.fsub changed un)).1
        (if vn.2 then s1.func.append (.fadd changed un)
         else s1.func.append (.fsub changed un)).2
        unknown r.resist_lim_rhs r.resist r.resist_small_signal) ?_
      exact add_lim_rhs_extends di _ _ _ _ _ _

theorem build_lim_rhs_func (s : State) (di : Builder.DerivInfo) :
    Extends s.func (Builder.build_lim_rhs s di).func := by
  unfold Builder.build_lim_rhs
  refine foldl_pred ?_ (List.range s.residual.length) s Extends.rfl
    (P := fun t => Extends s.func t.func)
  intro b a hb
  refine foldl_pred ?_ b.limState.enum b hb
    (P := fun t => Extends s.func t.func)
  intro c p hc
  refine foldl_pred ?_ p.2.2 c hc (P := fun t => Extends s.func t.func)
  intro d vn hd
  exact hd.trans (lim_step_extends di p.1 p.2.1 vn d a)

theorem finishFrom_jacobian (s : State) (di : Builder.DerivInfo) :
    (Builder.finishFrom s di).jacobian =
      (Builder.ensure_optbarriers (Builder.build_lim_rhs
        (Builder.build_jacobian s (Builder.sim_unknown_reads s) di)
        di)).jacobian := by
  unfold Builder.finishFrom
  dsimp only
  rw [(build_input_unknown_pairs_proj _).2.2.2.1]

/-! ### Semantics of the limit-exit RHS accumulation -/

/-- Evaluation of a value defined by a `param` marker. -/
theorem eval_param_of_get {f : Func} {v : Nat} {k : ParamKind}
    (h : f.defs.get? v = some (.param k)) (env : Env) :
    eval f env v = env.par k := by
  show evalF f.defs env (v + 1) v = _
  rw [evalF_succ, h]

/-- `plookup` steps over the head of the table. -/
theorem plookup_cons (x : ParamKind × Nat) (ps : List (ParamKind × Nat))
    (k : ParamKind) :
    plookup (x :: ps) k = if x.1 = k then some x.2 else plookup ps k := by
  by_cases hx : x.1 = k
  · simp [plookup, List.find?, hx]
  · simp [plookup, List.find?, hx]

/-- `plookup` over a one-entry extension of the table. -/
theorem plookup_append {ps : List (ParamKind × Nat)} {q : ParamKind × Nat}
    {k : ParamKind} {v : Nat} (h : plookup (ps ++ [q]) k = some v) :
    plookup ps k = some v ∨ (k = q.1 ∧ v = q.2) := by
  induction ps with
  | nil =>
    rw [List.nil_append, plookup_cons] at h
    by_cases hq : q.1 = k
    · rw [if_pos hq] at h
      cases h
      exact Or.inr ⟨hq.symm, rfl⟩
    · rw [if_neg hq] at h
      simp [plookup, List.find?] at h
  | cons x xs ih =>
    rw [List.cons_append, plookup_cons] at h
    rw [plookup_cons]
    by_cases hx : x.1 = k
    · rw [if_pos hx] at h ⊢
      exact Or.inl h
    · rw [if_neg hx] at h ⊢
      exact ih h

/-- A successful `plookup` exhibits a member of the table. -/
theorem plookup_mem {ps : List (ParamKind × Nat)} {k : ParamKind} {v : Nat}
    (h : plookup ps k = some v) : (k, v) ∈ ps := by
  unfold plookup at h
  cases hf : ps.find? (fun p => decide (p.1 = k)) with
  | none => rw [hf] at h; cases h
  | some q =>
    rw [hf] at h
    replace h : some q.2 = some v := h
    cases h
    have hq1 : q.1 = k := by
      have hq2 := List.find?_some hf
      simpa using hq2
    have hq : (k, q.2) = q := by
      rcases q with ⟨a, b⟩
      cases hq1
      rfl
    rw [hq]
    exact List.mem_of_find?_eq_some hf

/-- Soundness of the `StrictWF` scan. -/
theorem StrictWF.of_strictCheck {f : Func} (h : strictCheck f.defs = true) :
    StrictWF f := by
  intro v d hget a ha
  have hv : v < f.defs.length := by
    by_contra hge
    rw [List.get?_eq_none.mpr (by omega)] at hget
    cases hget
  have hall := List.all_eq_true.mp h v (List.mem_range.mpr hv)
  rw [hget] at hall
  exact of_decide_eq_true (List.all_eq_true.mp hall a ha)

/-- Soundness of the `ParamsWF` scan. -/
theorem ParamsWF.of_paramsCheck {s : State} (h : paramsCheck s = true) :
    ParamsWF s := by
  intro k v hp
  have hall := List.all_eq_true.mp h _ (plookup_mem hp)
  simp only [Bool.and_eq_true, decide_eq_true_eq] at hall
  exact hall

/-- Specification of `ensure_param`: the function is only extended, the
param-table invariant is preserved, and the returned value is in range and
evaluates to the parameter's environment value. -/
theorem ensure_param_spec (s : State) (k : ParamKind) (env : Env)
    (hwf : StrictWF s.func) (hpw : ParamsWF s) :
    Extends s.func (Builder.ensure_param s k).1.func ∧
    StrictWF (Builder.ensure_param s k).1.func ∧
    ParamsWF (Builder.ensure_param s k).1 ∧
    (Builder.ensure_param s k).2 <
      (Builder.ensure_param s k).1.func.defs.length ∧
    eval (Builder.ensure_param s k).1.func env (Builder.ensure_param s k).2 =
      env.par k := by
  unfold Builder.ensure_param
  cases hp : plookup s.params k with
  | some v =>
    dsimp only
    obtain ⟨hv, hget⟩ := hpw k v hp
    exact ⟨Extends.rfl, hwf, hpw, hv, eval_param_of_get hget env⟩
  | none =>
    dsimp only
    refine ⟨s.func.append_extends _, hwf.append (by simp [IDef.ops]), ?_, ?_, ?_⟩
    · intro k' v' hp'
      dsimp only at hp'
      rcases plookup_append hp' with h | ⟨hk, hv⟩
      · obtain ⟨hlt, hget⟩ := hpw k' v' h
        refine ⟨lt_of_lt_of_le hlt (s.func.append_extends _).length_le, ?_⟩
        rw [(s.func.append_extends (.param k)).get?_eq hlt]
        exact hget
      · dsimp only at hk hv
        subst hk
        subst hv
        refine ⟨?_, s.func.append_get?_self _⟩
        rw [Func.append_length]
        exact Nat.lt_succ_self _
    · rw [Func.append_length]
      exact Nat.lt_succ_self _
    · exact eval_append_param env k

/-- A derivative looked up in an in-range AD map is in range (`F_ZERO` is the
default). -/
theorem dlookup_getD_lt {derivs : List ((Nat × Nat) × Nat)} {n : Nat}
    (hall : ∀ p ∈ derivs, p.2 < n) (hn : 0 < n) (a u : Nat) :
    (dlookup derivs a u).getD F_ZERO < n := by
  cases hd : dlookup derivs a u with
  | none =>
    simp only [Option.getD_none]
    exact hn
  | some w =>
    simp only [Option.getD_some]
    unfold dlookup at hd
    cases hf : derivs.find? (fun p => decide (p.1 = (a, u))) with
    | none => rw [hf] at hd; cases hd
    | some q =>
      rw [hf] at hd
      replace hd : some q.2 = some w := hd
      cases hd
      exact hall q (List.mem_of_find?_eq_some hf)

/-- Specification of the `add_lim_rhs` closure: the destination becomes the
old destination plus the combined derivative times `delta`. -/
theorem add_lim_rhs_spec (di : Builder.DerivInfo) {f : Func} (env : Env)
    (delta unknown dst rv sv : Nat)
    (hwf : StrictWF f) (hc : HasConsts f)
    (hdel : delta < f.defs.length) (hdst : dst < f.defs.length)
    (h1 : (dlookup di.derivs rv unknown).getD F_ZERO < f.defs.length)
    (h2 : (dlookup di.derivs sv unknown).getD F_ZERO < f.defs.length) :
    Extends f (Builder.add_lim_rhs di f delta unknown dst rv sv).1 ∧
    StrictWF (Builder.add_lim_rhs di f delta unknown dst rv sv).1 ∧
    (Builder.add_lim_rhs di f delta unknown dst rv sv).2 <
      (Builder.add_lim_rhs di f delta unknown dst rv sv).1.defs.length ∧
    eval (Builder.add_lim_rhs di f delta unknown dst rv sv).1 env
        (Builder.add_lim_rhs di f delta unknown dst rv sv).2 =
      eval f env dst +
        (eval f env ((dlookup di.derivs rv unknown).getD F_ZERO) +
          eval f env ((dlookup di.derivs sv unknown).getD F_ZERO)) *
          eval f env delta := by
  unfold Builder.add_lim_rhs
  dsimp only
  obtain ⟨hxa, hwfa, hlta, heva⟩ := Util.add_spec env false hwf hc h1 h2
  simp only [Bool.false_eq_true, if_false] at heva
  rcases hfa : Util.add f ((dlookup di.derivs rv unknown).getD F_ZERO)
      ((dlookup di.derivs sv unknown).getD F_ZERO) false with ⟨f1, a1⟩
  rw [hfa] at hxa hwfa hlta heva
  try dsimp only at hxa
  try dsimp only at hwfa
  try dsimp only at hlta
  try dsimp only at heva
  try dsimp only
  have hc1 : HasConsts f1 := hxa.hasConsts hc
  by_cases hcond : a1 ≠ F_ZERO ∧ delta ≠ F_ZERO
  · rw [if_pos hcond]
    try dsimp only
    have hdelta1 : delta < f1.defs.length := lt_of_lt_of_le hdel hxa.length_le
    have hwffr : StrictWF (f1.append (.fmul a1 delta)).1 := by
      refine hwfa.append ?_
      intro a ha
      simp only [IDef.ops, List.mem_cons, List.not_mem_nil, or_false] at ha
      rcases ha with rfl | rfl
      · exact hlta
      · exact hdelta1
    have hcfr : HasConsts (f1.append (.fmul a1 delta)).1 :=
      (f1.append_extends _).hasConsts hc1
    have hdstfr : dst < (f1.append (.fmul a1 delta)).1.defs.length :=
      lt_of_lt_of_le hdst
        (le_trans hxa.length_le (f1.append_extends _).length_le)
    have hfr2 : (f1.append (.fmul a1 delta)).2 <
        (f1.append (.fmul a1 delta)).1.defs.length := by
      rw [Func.append_length]
      exact Nat.lt_succ_self _
    obtain ⟨hxb, hwfb, hltb, hevb⟩ :=
      Util.add_spec env false hwffr hcfr hdstfr hfr2
    simp only [Bool.false_eq_true, if_false] at hevb
    refine ⟨(hxa.trans (f1.append_extends _)).trans hxb, hwfb, hltb, ?_⟩
    rw [hevb, eval_append_fmul hwfa env hlta hdelta1, heva,
      eval_extends hwf (hxa.trans (f1.append_extends _)) env hdst,
      eval_extends hwf hxa env hdel]
  · rw [if_neg hcond]
    try dsimp only
    refine ⟨hxa, hwfa, lt_of_lt_of_le hdst hxa.length_le, ?_⟩
    rw [eval_extends hwf hxa env hdst]
    rcases not_and_or.mp hcond with h | h
    · have ha0 : a1 = F_ZERO := not_not.mp h
      have hsum : eval f env ((dlookup di.derivs rv unknown).getD F_ZERO) +
          eval f env ((dlookup di.derivs sv unknown).getD F_ZERO) = 0 := by
        rw [← heva, ha0, eval_F_ZERO hc1 env]
      rw [hsum, zero_mul, add_zero]
    · have hd0 : delta = F_ZERO := not_not.mp h
      rw [hd0, eval_F_ZERO hc env, mul_zero, add_zero]

/-! ### Semantics of the branch builders -/

/-- Fold an invariant and extension through `mapState`. -/
theorem mapState_inv {α : Type _} {g : Func → α → Func × α} {P : Func → Prop} :
    ∀ (l : List α),
      (∀ f x, x ∈ l → P f → P (g f x).1 ∧ Extends f (g f x).1) →
      ∀ f, P f → P (Builder.mapState g f l).1 ∧
        Extends f (Builder.mapState g f l).1
  | [], _, f, hf => ⟨hf, Extends.rfl⟩
  | x :: xs, hg, f, hf => by
    unfold Builder.mapState
    dsimp only
    obtain ⟨h1, h2⟩ := hg f x (List.mem_cons_self x xs) hf
    obtain ⟨h3, h4⟩ := mapState_inv xs
      (fun f2 y hy hf2 => hg f2 y (List.mem_cons_of_mem x hy) hf2) (g f x).1 h1
    exact ⟨h3, h2.trans h4⟩

/-- `mfactor_multiply` only appends and preserves strictness. -/
theorem mfactor_multiply_wf {f : Func} {mfactor srcfactor : Nat}
    (hwf : StrictWF f) (hm : mfactor < f.defs.length)
    (hs : srcfactor < f.defs.length) :
    StrictWF (Builder.mfactor_multiply f mfactor srcfactor).1 ∧
    Extends f (Builder.mfactor_multiply f mfactor srcfactor).1 := by
  unfold Builder.mfactor_multiply
  by_cases h1 : mfactor = F_ONE
  · rw [if_pos h1]
    exact ⟨hwf, Extends.rfl⟩
  · rw [if_neg h1]
    by_cases h2 : srcfactor = F_ONE
    · rw [if_pos h2]
      refine ⟨hwf.append ?_, f.append_extends _⟩
      intro a ha
      simp only [IDef.ops, List.mem_cons, List.not_mem_nil, or_false] at ha
      cases ha
      exact hm
    · rw [if_neg h2]
      have hwf1 : StrictWF (f.append (.sqrt mfactor)).1 := by
        refine hwf.append ?_
        intro a ha
        simp only [IDef.ops, List.mem_cons, List.not_mem_nil, or_false] at ha
        cases ha
        exact hm
      refine ⟨hwf1.append ?_,
        (f.append_extends _).trans ((f.append (.sqrt mfactor)).1.append_extends _)⟩
      intro a ha
      simp only [IDef.ops, List.mem_cons, List.not_mem_nil, or_false] at ha
      rcases ha with rfl | rfl
      · exact lt_of_lt_of_le hs (f.append_extends _).length_le
      · rw [Func.append_length]
        exact Nat.lt_succ_self _

/-- `mfactor_divide` only appends and preserves strictness. -/
theorem mfactor_divide_wf {f : Func} {mfactor srcfactor : Nat}
    (hwf : StrictWF f) (hm : mfactor < f.defs.length)
    (hs : srcfactor < f.defs.length) :
    StrictWF (Builder.mfactor_divide f mfactor srcfactor).1 ∧
    Extends f (Builder.mfactor_divide f mfactor srcfactor).1 := by
  unfold Builder.mfactor_divide
  by_cases h1 : mfactor = F_ONE
  · rw [if_pos h1]
    exact ⟨hwf, Extends.rfl⟩
  · rw [if_neg h1]
    have hwf1 : StrictWF (f.append (.sqrt mfactor)).1 := by
      refine hwf.append ?_
      intro a ha
      simp only [IDef.ops, List.mem_cons, List.not_mem_nil, or_false] at ha
      cases ha
      exact hm
    refine ⟨hwf1.append ?_,
      (f.append_extends _).trans ((f.append (.sqrt mfactor)).1.append_extends _)⟩
    intro a ha
    simp only [IDef.ops, List.mem_cons, List.not_mem_nil, or_false] at ha
    rcases ha with rfl | rfl
    · exact lt_of_lt_of_le hs (f.append_extends _).length_le
    · rw [Func.append_length]
      exact Nat.lt_succ_self _

/-- `ensure_unknown` on a present unknown is the identity. -/
theorem ensure_unknown_found {s : State} {u : SimUnknownKind} {i : Nat}
    (h : uindex s.unknowns u = some i) :
    Builder.ensure_unknown s u = (s, i) := by
  unfold Builder.ensure_unknown
  rw [h]

/-- The requested unknown is present after `ensure_unknown`. -/
theorem ensure_unknown_mem (s : State) (u : SimUnknownKind) :
    u ∈ (Builder.ensure_unknown s u).1.unknowns := by
  unfold Builder.ensure_unknown
  cases h : uindex s.unknowns u with
  | some i => exact uindex_mem h
  | none =>
    dsimp only
    exact List.mem_append_right _ (List.mem_cons_self u [])

/-- `ensure_unknown` only extends the unknown set. -/
theorem ensure_unknown_mem_mono {s : State} {w : SimUnknownKind}
    (u : SimUnknownKind) (hw : w ∈ s.unknowns) :
    w ∈ (Builder.ensure_unknown s u).1.unknowns := by
  unfold Builder.ensure_unknown
  cases h : uindex s.unknowns u with
  | some i => exact hw
  | none =>
    dsimp only
    exact List.mem_append_left _ hw

/-- `modifyResidual` keeps existing unknowns. -/
theorem modifyResidual_mem_mono {s : State} {w : SimUnknownKind}
    (u : SimUnknownKind) (g : Func → Residual → Func × Residual)
    (hw : w ∈ s.unknowns) : w ∈ (Builder.modifyResidual s u g).unknowns := by
  unfold Builder.modifyResidual
  dsimp only
  cases hr : (Builder.ensure_unknown s u).1.residual.get?
      (Builder.ensure_unknown s u).2 with
  | some r =>
    dsimp only
    exact ensure_unknown_mem_mono u hw
  | none => exact ensure_unknown_mem_mono u hw

/-- The targeted unknown is present after `modifyResidual`. -/
theorem modifyResidual_mem_self (s : State) (u : SimUnknownKind)
    (g : Func → Residual → Func × Residual) :
    u ∈ (Builder.modifyResidual s u g).unknowns := by
  unfold Builder.modifyResidual
  dsimp only
  cases hr : (Builder.ensure_unknown s u).1.residual.get?
      (Builder.ensure_unknown s u).2 with
  | some r =>
    dsimp only
    exact ensure_unknown_mem s u
  | none => exact ensure_unknown_mem s u

/-- `add_noise` keeps existing unknowns. -/
theorem add_noise_mem_mono {s : State} {w : SimUnknownKind}
    (c : Contribution) (hi : SimUnknownKind) (lo : Option SimUnknownKind)
    (hw : w ∈ s.unknowns) : w ∈ (Builder.add_noise s c hi lo).unknowns := by
  unfold Builder.add_noise
  dsimp only
  cases lo with
  | none => exact ensure_unknown_mem_mono hi hw
  | some l =>
    dsimp only
    exact ensure_unknown_mem_mono l (ensure_unknown_mem_mono hi hw)

/-- The branch-current unknown is present after `add_source_equation`. -/
theorem add_source_equation_mem (s : State) (c : Contribution) (eq_val : Nat)
    (dst : BranchWrite) :
    SimUnknownKind.current dst.kind ∈
      (Builder.add_source_equation s c eq_val dst).unknowns := by
  unfold Builder.add_source_equation
  dsimp only
  cases hlo : dst.lo.map SimUnknownKind.kirchoffLaw with
  | none =>
    exact modifyResidual_mem_mono _ _
      (add_noise_mem_mono _ _ _ (modifyResidual_mem_self _ _ _))
  | some l =>
    exact modifyResidual_mem_mono _ _
      (modifyResidual_mem_mono _ _
        (add_noise_mem_mono _ _ _ (modifyResidual_mem_self _ _ _)))

/-- Specification of `current_branch`: the function is only extended (noise
factors get their `sqrt(mfactor)` scaling), the system is untouched, and the
contribution carries the current-source values unchanged. -/
theorem current_branch_spec (s : State) (info : BranchInfo) (env : Env)
    (hwf : StrictWF s.func) (hpw : ParamsWF s)
    (hn : ∀ n ∈ info.current_src.noise, n.factor < s.func.defs.length) :
    Extends s.func (Builder.current_branch s info).1.func ∧
    StrictWF (Builder.current_branch s info).1.func ∧
    (Builder.current_branch s info).1.unknowns = s.unknowns ∧
    (Builder.current_branch s info).1.residual = s.residual ∧
    (Builder.current_branch s info).2.unknown = info.current_src.unknown ∧
    (Builder.current_branch s info).2.resist = info.current_src.resist ∧
    (Builder.current_branch s info).2.react = info.current_src.react ∧
    (Builder.current_branch s info).2.resist_small_signal =
      info.current_src.resist_small_signal ∧
    (Builder.current_branch s info).2.react_small_signal =
      info.current_src.react_small_signal := by
  unfold Builder.current_branch
  obtain ⟨hx1, hwf1, hpw1, hlt1, hev1⟩ :=
    ensure_param_spec s (.paramSysFun .mfactor) env hwf hpw
  have pp := ensure_param_proj s (.paramSysFun .mfactor)
  rcases hp : Builder.ensure_param s (.paramSysFun .mfactor) with ⟨s1, m⟩
  rw [hp] at hx1 hwf1 hpw1 hlt1 pp
  try dsimp only at hx1
  try dsimp only at hwf1
  try dsimp only at hpw1
  try dsimp only at hlt1
  try dsimp only at pp
  try dsimp only
  have hmap := mapState_inv
    (g := fun f src =>
      let (f, fac) := Builder.mfactor_multiply f m src.factor
      (f, { src with factor := fac }))
    (P := fun f => StrictWF f ∧ m < f.defs.length ∧
      s.func.defs.length ≤ f.defs.length)
    info.current_src.noise
    (fun f x hx hf => by
      obtain ⟨hwfx, hxx⟩ := mfactor_multiply_wf hf.1 hf.2.1
        (lt_of_lt_of_le (hn x hx) hf.2.2)
      exact ⟨⟨hwfx, lt_of_lt_of_le hf.2.1 hxx.length_le,
        le_trans hf.2.2 hxx.length_le⟩, hxx⟩)
    s1.func ⟨hwf1, hlt1, hx1.length_le⟩
  exact ⟨hx1.trans hmap.2, hmap.1.1, pp.1, pp.2.2.1, rfl, rfl, rfl, rfl, rfl⟩

/-- Specification of `Residual::add`: the resistive slot gains the
optbarrier-stripped value (negated on request); nothing else changes. -/
theorem residual_add_spec {f : Func} (env : Env) (r : Residual) (negate : Bool)
    (val : Nat) (hwf : StrictWF f) (hc : HasConsts f)
    (hr : r.resist < f.defs.length) (hv : val < f.defs.length) :
    Extends f (r.add f negate val).1 ∧
    StrictWF (r.add f negate val).1 ∧
    (r.add f negate val).2.resist < (r.add f negate val).1.defs.length ∧
    (r.add f negate val).2.react = r.react ∧
    (r.add f negate val).2.resist_small_signal = r.resist_small_signal ∧
    (r.add f negate val).2.react_small_signal = r.react_small_signal ∧
    (r.add f negate val).2.resist_lim_rhs = r.resist_lim_rhs ∧
    (r.add f negate val).2.react_lim_rhs = r.react_lim_rhs ∧
    eval (r.add f negate val).1 env (r.add f negate val).2.resist =
      eval f env r.resist +
        (if negate then -(eval f env val) else eval f env val) := by
  unfold Residual.add
  dsimp only
  obtain ⟨hx, hwf2, hlt, hev⟩ :=
    Util.add_spec env negate hwf hc hr (strip_lt hwf hv)
  rw [eval_strip hwf env hv] at hev
  rcases ha : Util.add f r.resist (strip_optbarrier f val) negate with ⟨f1, v1⟩
  rw [ha] at hx hwf2 hlt hev
  try dsimp only at hx
  try dsimp only at hwf2
  try dsimp only at hlt
  try dsimp only at hev
  try dsimp only
  exact ⟨hx, hwf2, hlt, rfl, rfl, rfl, rfl, rfl, hev⟩

/-- Specification of `Residual::add_contribution`: each of the four residual
fields gains (or loses) the matching optbarrier-stripped contribution value;
the lim-rhs fields are untouched. -/
theorem add_contribution_spec {f : Func} (env : Env) (r : Residual)
    (c : Contribution) (negate : Bool)
    (hwf : StrictWF f) (hc : HasConsts f)
    (h1 : r.resist < f.defs.length) (h2 : r.react < f.defs.length)
    (h3 : r.resist_small_signal < f.defs.length)
    (h4 : r.react_small_signal < f.defs.length)
    (g1 : c.resist < f.defs.length) (g2 : c.react < f.defs.length)
    (g3 : c.resist_small_signal < f.defs.length)
    (g4 : c.react_small_signal < f.defs.length) :
    Extends f (r.add_contribution c f negate).1 ∧
    StrictWF (r.add_contribution c f negate).1 ∧
    ((r.add_contribution c f negate).2.resist <
        (r.add_contribution c f negate).1.defs.length ∧
      (r.add_contribution c f negate).2.react <
        (r.add_contribution c f negate).1.defs.length ∧
      (r.add_contribution c f negate).2.resist_small_signal <
        (r.add_contribution c f negate).1.defs.length ∧
      (r.add_contribution c f negate).2.react_small_signal <
        (r.add_contribution c f negate).1.defs.length) ∧
    (r.add_contribution c f negate).2.resist_lim_rhs = r.resist_lim_rhs ∧
    (r.add_contribution c f negate).2.react_lim_rhs = r.react_lim_rhs ∧
    eval (r.add_contribution c f negate).1 env
        (r.add_contribution c f negate).2.resist =
      eval f env r.resist +
        (if negate then -(eval f env c.resist) else eval f env c.resist) ∧
    eval (r.add_contribution c f negate).1 env
        (r.add_contribution c f negate).2.react =
      eval f env r.react +
        (if negate then -(eval f env c.react) else eval f env c.react) ∧
    eval (r.add_contribution c f negate).1 env
        (r.add_contribution c f negate).2.resist_small_signal =
      eval f env r.resist_small_signal +
        (if negate then -(eval f env c.resist_small_signal)
         else eval f env c.resist_small_signal) ∧
    eval (r.add_contribution c f negate).1 env
        (r.add_contribution c f negate).2.react_small_signal =
      eval f env r.react_small_signal +
        (if negate then -(eval f env c.react_small_signal)
         else eval f env c.react_small_signal) := by
  unfold Residual.add_contribution
  dsimp only
  obtain ⟨hx1, hwf1, hlt1, hev1⟩ :=
    Util.add_spec env negate hwf hc h1 (strip_lt hwf g1)
  rw [eval_strip hwf env g1] at hev1
  rcases ha1 : Util.add f r.resist (strip_optbarrier f c.resist) negate
    with ⟨f1, v1⟩
  rw [ha1] at hx1 hwf1 hlt1 hev1
  try dsimp only at hx1
  try dsimp only at hwf1
  try dsimp only at hlt1
  try dsimp only at hev1
  try dsimp only
  have hcc1 : HasConsts f1 := hx1.hasConsts hc
  obtain ⟨hx2, hwf2, hlt2, hev2⟩ := Util.add_spec env negate hwf1 hcc1
    (lt_of_lt_of_le h2 hx1.length_le)
    (strip_lt hwf1 (lt_of_lt_of_le g2 hx1.length_le))
  rw [eval_strip hwf1 env (lt_of_lt_of_le g2 hx1.length_le),
    eval_extends hwf hx1 env h2, eval_extends hwf hx1 env g2] at hev2
  rcases ha2 : Util.add f1 r.react (strip_optbarrier f1 c.react) negate
    with ⟨f2, v2⟩
  rw [ha2] at hx2 hwf2 hlt2 hev2
  try dsimp only at hx2
  try dsimp only at hwf2
  try dsimp only at hlt2
  try dsimp only at hev2
  try dsimp only
  have hcc2 : HasConsts f2 := hx2.hasConsts hcc1
  have hx12 : Extends f f2 := hx1.trans hx2
  obtain ⟨hx3, hwf3, hlt3, hev3⟩ := Util.add_spec env negate hwf2 hcc2
    (lt_of_lt_of_le h3 hx12.length_le)
    (strip_lt hwf2 (lt_of_lt_of_le g3 hx12.length_le))
  rw [eval_strip hwf2 env (lt_of_lt_of_le g3 hx12.length_le),
    eval_extends hwf hx12 env h3, eval_extends hwf hx12 env g3] at hev3
  rcases ha3 : Util.add f2 r.resist_small_signal
      (strip_optbarrier f2 c.resist_small_signal) negate with ⟨f3, v3⟩
  rw [ha3] at hx3 hwf3 hlt3 hev3
  try dsimp only at hx3
  try dsimp only at hwf3
  try dsimp only at hlt3
  try dsimp only at hev3
  try dsimp only
  have hcc3 : HasConsts f3 := hx3.hasConsts hcc2
  have hx13 : Extends f f3 := hx12.trans hx3
  obtain ⟨hx4, hwf4, hlt4, hev4⟩ := Util.add_spec env negate hwf3 hcc3
    (lt_of_lt_of_le h4 hx13.length_le)
    (strip_lt hwf3 (lt_of_lt_of_le g4 hx13.length_le))
  rw [eval_strip hwf3 env (lt_of_lt_of_le g4 hx13.length_le),
    eval_extends hwf hx13 env h4, eval_extends hwf hx13 env g4] at hev4
  rcases ha4 : Util.add f3 r.react_small_signal
      (strip_optbarrier f3 c.react_small_signal) negate with ⟨f4, v4⟩
  rw [ha4] at hx4 hwf4 hlt4 hev4
  try dsimp only at hx4
  try dsimp only at hwf4
  try dsimp only at hlt4
  try dsimp only at hev4
  try dsimp only
  refine ⟨hx13.trans hx4, hwf4,
    ⟨lt_of_lt_of_le hlt1 ((hx2.trans (hx3.trans hx4)).length_le),
     lt_of_lt_of_le hlt2 ((hx3.trans hx4).length_le),
     lt_of_lt_of_le hlt3 hx4.length_le, hlt4⟩,
    rfl, rfl, ?_, ?_, ?_, ?_⟩
  · rw [eval_extends hwf1 (hx2.trans (hx3.trans hx4)) env hlt1, hev1]
  · rw [eval_extends hwf2 (hx3.trans hx4) env hlt2, hev2]
  · rw [eval_extends hwf3 hx4 env hlt3, hev3]
  · rw [hev4]

/-- `modifyResidual` on a present unknown with an existing row applies the
mutator to that row in place. -/
theorem modifyResidual_found {s : State} {u : SimUnknownKind} {i : Nat}
    {r0 : Residual} (hu : uindex s.unknowns u = some i)
    (hr : s.residual.get? i = some r0)
    (g : Func → Residual → Func × Residual) :
    Builder.modifyResidual s u g =
      { s with
          func := (g s.func r0).1
          residual := s.residual.set i (g s.func r0).2 } := by
  unfold Builder.modifyResidual
  rw [ensure_unknown_found hu]
  dsimp only
  rw [hr]

/-- `add_noise` with both unknowns present only appends the noise records. -/
theorem add_noise_found {s : State} {hi loU : SimUnknownKind} {i j : Nat}
    (hhi : uindex s.unknowns hi = some i)
    (hlo : uindex s.unknowns loU = some j) (c : Contribution) :
    Builder.add_noise s c hi (some loU) =
      { s with
          noise_sources := s.noise_sources ++
            c.noise.map
              (fun src => ⟨src.name, src.kind, i, some j, src.factor⟩) } := by
  unfold Builder.add_noise
  rw [ensure_unknown_found hhi]
  dsimp only
  rw [ensure_unknown_found hlo]

/-- Specification of `add_kirchoff_law` when both node unknowns are already
present (the builder creates a Kirchhoff unknown for every node up front):
the contribution is added at the `hi` row, subtracted at the `lo` row, and
the unknown set is unchanged. -/
theorem add_kirchoff_law_spec (t : State) (c : Contribution)
    (dst : BranchWrite) (env : Env) {lo : Nat} {ih il : Nat}
    {rhi rlo : Residual}
    (hwf : StrictWF t.func) (hc : HasConsts t.func)
    (hdlo : dst.lo = some lo)
    (hhi : uindex t.unknowns (.kirchoffLaw dst.hi) = some ih)
    (hlo : uindex t.unknowns (.kirchoffLaw lo) = some il)
    (hne : il ≠ ih)
    (hri : t.residual.get? ih = some rhi)
    (hrl : t.residual.get? il = some rlo)
    (b1 : rhi.resist < t.func.defs.length)
    (b2 : rhi.react < t.func.defs.length)
    (b3 : rhi.resist_small_signal < t.func.defs.length)
    (b4 : rhi.react_small_signal < t.func.defs.length)
    (b5 : rlo.resist < t.func.defs.length)
    (b6 : rlo.react < t.func.defs.length)
    (b7 : rlo.resist_small_signal < t.func.defs.length)
    (b8 : rlo.react_small_signal < t.func.defs.length)
    (g1 : c.resist < t.func.defs.length)
    (g2 : c.react < t.func.defs.length)
    (g3 : c.resist_small_signal < t.func.defs.length)
    (g4 : c.react_small_signal < t.func.defs.length) :
    Extends t.func (Builder.add_kirchoff_law t c dst).func ∧
    StrictWF (Builder.add_kirchoff_law t c dst).func ∧
    (Builder.add_kirchoff_law t c dst).unknowns = t.unknowns ∧
    ∃ ri rl,
      (Builder.add_kirchoff_law t c dst).residual.get? ih = some ri ∧
      (Builder.add_kirchoff_law t c dst).residual.get? il = some rl ∧
      eval (Builder.add_kirchoff_law t c dst).func env ri.resist =
        eval t.func env rhi.resist + eval t.func env c.resist ∧
      eval (Builder.add_kirchoff_law t c dst).func env ri.react =
        eval t.func env rhi.react + eval t.func env c.react ∧
      eval (Builder.add_kirchoff_law t c dst).func env ri.resist_small_signal =
        eval t.func env rhi.resist_small_signal +
          eval t.func env c.resist_small_signal ∧
      eval (Builder.add_kirchoff_law t c dst).func env ri.react_small_signal =
        eval t.func env rhi.react_small_signal +
          eval t.func env c.react_small_signal ∧
      eval (Builder.add_kirchoff_law t c dst).func env rl.resist =
        eval t.func env rlo.resist - eval t.func env c.resist ∧
      eval (Builder.add_kirchoff_law t c dst).func env rl.react =
        eval t.func env rlo.react - eval t.func env c.react ∧
      eval (Builder.add_kirchoff_law t c dst).func env rl.resist_small_signal =
        eval t.func env rlo.resist_small_signal -
          eval t.func env c.resist_small_signal ∧
      eval (Builder.add_kirchoff_law t c dst).func env rl.react_small_signal =
        eval t.func env rlo.react_small_signal -
          eval t.func env c.react_small_signal := by
  unfold Builder.add_kirchoff_law
  try dsimp only
  rw [hdlo]
  simp only [Option.map]
  try dsimp only
  rw [modifyResidual_found hhi hri]
  try dsimp only
  obtain ⟨hxA, hwfA, ⟨bA1, bA2, bA3, bA4⟩, hlA1, hlA2, heA1, heA2, heA3, heA4⟩ :=
    add_contribution_spec env rhi c false hwf hc b1 b2 b3 b4 g1 g2 g3 g4
  simp only [Bool.false_eq_true, if_false] at heA1 heA2 heA3 heA4
  rcases hA : rhi.add_contribution c t.func false with ⟨F1, R1⟩
  rw [hA] at hxA hwfA bA1 bA2 bA3 bA4 hlA1 hlA2 heA1 heA2 heA3 heA4
  try dsimp only at hxA
  try dsimp only at hwfA
  try dsimp only at bA1
  try dsimp only at bA2
  try dsimp only at bA3
  try dsimp only at bA4
  try dsimp only at hlA1
  try dsimp only at hlA2
  try dsimp only at heA1
  try dsimp only at heA2
  try dsimp only at heA3
  try dsimp only at heA4
  try dsimp only
  have hu2 : uindex ({ t with
      func := F1
      residual := t.residual.set ih R1 } : State).unknowns
      (.kirchoffLaw lo) = some il := hlo
  have hr2 : ({ t with
      func := F1
      residual := t.residual.set ih R1 } : State).residual.get? il =
      some rlo := by
    show (t.residual.set ih R1).get? il = some rlo
    rw [List.get?_set_ne _ _ (Ne.symm hne)]
    exact hrl
  rw [modifyResidual_found hu2 hr2]
  try dsimp only
  have hccA : HasConsts F1 := hxA.hasConsts hc
  obtain ⟨hxB, hwfB, ⟨bB1, bB2, bB3, bB4⟩, hlB1, hlB2, heB1, heB2, heB3, heB4⟩ :=
    add_contribution_spec env rlo c true hwfA hccA
      (lt_of_lt_of_le b5 hxA.length_le) (lt_of_lt_of_le b6 hxA.length_le)
      (lt_of_lt_of_le b7 hxA.length_le) (lt_of_lt_of_le b8 hxA.length_le)
      (lt_of_lt_of_le g1 hxA.length_le) (lt_of_lt_of_le g2 hxA.length_le)
      (lt_of_lt_of_le g3 hxA.length_le) (lt_of_lt_of_le g4 hxA.length_le)
  simp only [if_true] at heB1 heB2 heB3 heB4
  rw [eval_extends hwf hxA env b5, eval_extends hwf hxA env g1] at heB1
  rw [eval_extends hwf hxA env b6, eval_extends hwf hxA env g2] at heB2
  rw [eval_extends hwf hxA env b7, eval_extends hwf hxA env g3] at heB3
  rw [eval_extends hwf hxA env b8, eval_extends hwf hxA env g4] at heB4
  rcases hB : rlo.add_contribution c F1 true with ⟨F2, R2⟩
  rw [hB] at hxB hwfB bB1 bB2 bB3 bB4 hlB1 hlB2 heB1 heB2 heB3 heB4
  try dsimp only at hxB
  try dsimp only at hwfB
  try dsimp only at bB1
  try dsimp only at bB2
  try dsimp only at bB3
  try dsimp only at bB4
  try dsimp only at hlB1
  try dsimp only at hlB2
  try dsimp only at heB1
  try dsimp only at heB2
  try dsimp only at heB3
  try dsimp only at heB4
  try dsimp only
  have hu3 : uindex ({ t with
      func := F2
      residual := (t.residual.set ih R1).set il R2 } : State).unknowns
      (.kirchoffLaw dst.hi) = some ih := hhi
  have hu4 : uindex ({ t with
      func := F2
      residual := (t.residual.set ih R1).set il R2 } : State).unknowns
      (.kirchoffLaw lo) = some il := hlo
  rw [add_noise_found hu3 hu4]
  try dsimp only
  have hihlen : ih < t.residual.length := by
    rcases List.get?_eq_some.mp hri with ⟨h, _⟩
    exact h
  have hillen : il < (t.residual.set ih R1).length := by
    rw [List.length_set]
    rcases List.get?_eq_some.mp hrl with ⟨h, _⟩
    exact h
  refine ⟨hxA.trans hxB, hwfB, rfl, R1, R2, ?_, ?_, ?_, ?_, ?_, ?_, ?_, ?_, ?_, ?_⟩
  · rw [List.get?_set_ne _ _ hne]
    exact List.get?_set_eq_of_lt R1 hihlen
  · exact List.get?_set_eq_of_lt R2 hillen
  · rw [eval_extends hwfA hxB env bA1, heA1]
  · rw [eval_extends hwfA hxB env bA2, heA2]
  · rw [eval_extends hwfA hxB env bA3, heA3]
  · rw [eval_extends hwfA hxB env bA4, heA4]
  · rw [heB1]
    ring
  · rw [heB2]
    ring
  · rw [heB3]
    ring
  · rw [heB4]
    ring

/-- `uindex` of a freshly appended unknown is its position at the end. -/
theorem uindex_append_self {us : List SimUnknownKind} {u : SimUnknownKind}
    (h : uindex us u = none) : uindex (us ++ [u]) u = some us.length := by
  rw [uindex_append_none h, if_pos rfl]

/-- `ensure_unknown` on an absent unknown appends it together with a fresh
all-zero residual row. -/
theorem ensure_unknown_new {s : State} {u : SimUnknownKind}
    (hu : uindex s.unknowns u = none) :
    Builder.ensure_unknown s u =
      ({ s with
          unknowns := s.unknowns ++ [u]
          residual := s.residual ++ [Residual.zero] }, s.unknowns.length) := by
  unfold Builder.ensure_unknown
  rw [hu]

/-- `modifyResidual` on an absent unknown appends it and applies the mutator
to the fresh all-zero row. -/
theorem modifyResidual_new {s : State} {u : SimUnknownKind}
    (hu : uindex s.unknowns u = none)
    (hpar : s.residual.length = s.unknowns.length)
    (g : Func → Residual → Func × Residual) :
    Builder.modifyResidual s u g =
      { s with
          func := (g s.func Residual.zero).1
          unknowns := s.unknowns ++ [u]
          residual := (s.residual ++ [Residual.zero]).set s.unknowns.length
            (g s.func Residual.zero).2 } := by
  unfold Builder.modifyResidual
  rw [ensure_unknown_new hu]
  dsimp only
  have hget : (s.residual ++ [Residual.zero]).get? s.unknowns.length =
      some Residual.zero := by
    rw [← hpar]
    exact List.get?_concat_length _ _
  rw [hget]

/-- `add_noise` with the `hi` unknown present and no `lo` unknown only
appends the noise records. -/
theorem add_noise_found_none {s : State} {hi : SimUnknownKind} {i : Nat}
    (hhi : uindex s.unknowns hi = some i) (c : Contribution) :
    Builder.add_noise s c hi none =
      { s with
          noise_sources := s.noise_sources ++
            c.noise.map
              (fun src => ⟨src.name, src.kind, i, none, src.factor⟩) } := by
  unfold Builder.add_noise
  rw [ensure_unknown_found hhi]

/-- Specification of `voltage_branch`: the function is only extended (noise
factors get their `sqrt(mfactor)` division), the system is untouched, and the
contribution carries the voltage-source values unchanged. -/
theorem voltage_branch_spec (s : State) (info : BranchInfo) (env : Env)
    (hwf : StrictWF s.func) (hpw : ParamsWF s)
    (hn : ∀ n ∈ info.voltage_src.noise, n.factor < s.func.defs.length) :
    Extends s.func (Builder.voltage_branch s info).1.func ∧
    StrictWF (Builder.voltage_branch s info).1.func ∧
    (Builder.voltage_branch s info).1.unknowns = s.unknowns ∧
    (Builder.voltage_branch s info).1.residual = s.residual ∧
    (Builder.voltage_branch s info).2.unknown = info.voltage_src.unknown ∧
    (Builder.voltage_branch s info).2.resist = info.voltage_src.resist ∧
    (Builder.voltage_branch s info).2.react = info.voltage_src.react ∧
    (Builder.voltage_branch s info).2.resist_small_signal =
      info.voltage_src.resist_small_signal ∧
    (Builder.voltage_branch s info).2.react_small_signal =
      info.voltage_src.react_small_signal := by
  unfold Builder.voltage_branch
  obtain ⟨hx1, hwf1, hpw1, hlt1, hev1⟩ :=
    ensure_param_spec s (.paramSysFun .mfactor) env hwf hpw
  have pp := ensure_param_proj s (.paramSysFun .mfactor)
  rcases hp : Builder.ensure_param s (.paramSysFun .mfactor) with ⟨s1, m⟩
  rw [hp] at hx1 hwf1 hpw1 hlt1 pp
  try dsimp only at hx1
  try dsimp only at hwf1
  try dsimp only at hpw1
  try dsimp only at hlt1
  try dsimp only at pp
  try dsimp only
  have hmap := mapState_inv
    (g := fun f src =>
      let (f, fac) := Builder.mfactor_divide f m src.factor
      (f, { src with factor := fac }))
    (P := fun f => StrictWF f ∧ m < f.defs.length ∧
      s.func.defs.length ≤ f.defs.length)
    info.voltage_src.noise
    (fun f x hx hf => by
      obtain ⟨hwfx, hxx⟩ := mfactor_divide_wf hf.1 hf.2.1
        (lt_of_lt_of_le (hn x hx) hf.2.2)
      exact ⟨⟨hwfx, lt_of_lt_of_le hf.2.1 hxx.length_le,
        le_trans hf.2.2 hxx.length_le⟩, hxx⟩)
    s1.func ⟨hwf1, hlt1, hx1.length_le⟩
  exact ⟨hx1.trans hmap.2, hmap.1.1, pp.1, pp.2.2.1, rfl, rfl, rfl, rfl, rfl⟩

/-- Specification of `add_source_equation` when the branch-current unknown is
fresh and both node unknowns are present: a new `Current` unknown is appended
whose fresh residual receives the contribution minus the designator value
(resistive slot) and the plain contribution elsewhere; the equation value is
added at `hi`'s resistive residual and subtracted at `lo`'s. -/
theorem add_source_equation_spec (t : State) (c : Contribution)
    (eq_val : Nat) (dst : BranchWrite) (env : Env) {lo : Nat} {ih il : Nat}
    {rhi rlo : Residual}
    (hwf : StrictWF t.func) (hc : HasConsts t.func)
    (hpar : t.residual.length = t.unknowns.length)
    (hcu : uindex t.unknowns (.current dst.kind) = none)
    (hdlo : dst.lo = some lo)
    (hhi : uindex t.unknowns (.kirchoffLaw dst.hi) = some ih)
    (hlo : uindex t.unknowns (.kirchoffLaw lo) = some il)
    (hne : il ≠ ih)
    (hri : t.residual.get? ih = some rhi)
    (hrl : t.residual.get? il = some rlo)
    (bhi : rhi.resist < t.func.defs.length)
    (blo : rlo.resist < t.func.defs.length)
    (g1 : c.resist < t.func.defs.length) (g2 : c.react < t.func.defs.length)
    (g3 : c.resist_small_signal < t.func.defs.length)
    (g4 : c.react_small_signal < t.func.defs.length)
    (gu : c.unknown.getD F_ZERO < t.func.defs.length)
    (ge : eq_val < t.func.defs.length) :
    Extends t.func (Builder.add_source_equation t c eq_val dst).func ∧
    StrictWF (Builder.add_source_equation t c eq_val dst).func ∧
    (Builder.add_source_equation t c eq_val dst).unknowns =
      t.unknowns ++ [.current dst.kind] ∧
    ∃ rc ri rl,
      (Builder.add_source_equation t c eq_val dst).residual.get?
        t.unknowns.length = some rc ∧
      (Builder.add_source_equation t c eq_val dst).residual.get? ih =
        some ri ∧
      (Builder.add_source_equation t c eq_val dst).residual.get? il =
        some rl ∧
      eval (Builder.add_source_equation t c eq_val dst).func env rc.resist =
        eval t.func env c.resist -
          eval t.func env (c.unknown.getD F_ZERO) ∧
      eval (Builder.add_source_equation t c eq_val dst).func env rc.react =
        eval t.func env c.react ∧
      eval (Builder.add_source_equation t c eq_val dst).func env
          rc.resist_small_signal = eval t.func env c.resist_small_signal ∧
      eval (Builder.add_source_equation t c eq_val dst).func env
          rc.react_small_signal = eval t.func env c.react_small_signal ∧
      eval (Builder.add_source_equation t c eq_val dst).func env ri.resist =
        eval t.func env rhi.resist + eval t.func env eq_val ∧
      eval (Builder.add_source_equation t c eq_val dst).func env rl.resist =
        eval t.func env rlo.resist - eval t.func env eq_val := by
  have h0 : (F_ZERO : Nat) < t.func.defs.length := by
    have h4 := hc.length_ge
    show 0 < t.func.defs.length
    omega
  have hihlt : ih < t.residual.length := by
    rcases List.get?_eq_some.mp hri with ⟨h, _⟩
    exact h
  have hillt : il < t.residual.length := by
    rcases List.get?_eq_some.mp hrl with ⟨h, _⟩
    exact h
  have hihu : ih < t.unknowns.length := by
    rw [← hpar]
    exact hihlt
  have hilu : il < t.unknowns.length := by
    rw [← hpar]
    exact hillt
  unfold Builder.add_source_equation
  try dsimp only
  rw [hdlo]
  simp only [Option.map]
  try dsimp only
  rw [modifyResidual_new hcu hpar]
  try dsimp only
  obtain ⟨hxA, hwfA, ⟨bA1, bA2, bA3, bA4⟩, hlA1, hlA2, heA1, heA2, heA3, heA4⟩ :=
    add_contribution_spec env Residual.zero c false hwf hc h0 h0 h0 h0
      g1 g2 g3 g4
  simp only [Bool.false_eq_true, if_false] at heA1 heA2 heA3 heA4
  rcases hA : Residual.zero.add_contribution c t.func false with ⟨F1, RC1⟩
  rw [hA] at hxA hwfA bA1 bA2 bA3 bA4 hlA1 hlA2 heA1 heA2 heA3 heA4
  dsimp only [Residual.zero] at heA1 heA2 heA3 heA4
  rw [eval_F_ZERO hc env, zero_add] at heA1 heA2 heA3 heA4
  try dsimp only at hxA
  try dsimp only at hwfA
  try dsimp only at bA1
  try dsimp only at bA2
  try dsimp only at bA3
  try dsimp only at bA4
  try dsimp only at heA1
  try dsimp only at heA2
  try dsimp only at heA3
  try dsimp only at heA4
  try dsimp only
  obtain ⟨hxB, hwfB, hltB, hrB2, hrB3, hrB4, _, _, heB⟩ :=
    residual_add_spec env RC1 true (c.unknown.getD F_ZERO) hwfA
      (hxA.hasConsts hc) bA1 (lt_of_lt_of_le gu hxA.length_le)
  simp only [if_true] at heB
  rw [eval_extends hwf hxA env gu, heA1] at heB
  rcases hB : RC1.add F1 true (c.unknown.getD F_ZERO) with ⟨F2, RC⟩
  rw [hB] at hxB hwfB hltB hrB2 hrB3 hrB4 heB
  try dsimp only at hxB
  try dsimp only at hwfB
  try dsimp only at hltB
  try dsimp only at hrB2
  try dsimp only at hrB3
  try dsimp only at hrB4
  try dsimp only at heB
  try dsimp only
  have hx2 : Extends t.func F2 := hxA.trans hxB
  have hcu2 : uindex ({ t with
      func := F2
      unknowns := t.unknowns ++ [SimUnknownKind.current dst.kind]
      residual := (t.residual ++ [Residual.zero]).set t.unknowns.length RC } :
      State).unknowns (.current dst.kind) = some t.unknowns.length :=
    uindex_append_self hcu
  rw [add_noise_found_none hcu2 c]
  try dsimp only
  have hhi2 : uindex ({ t with
      func := F2
      unknowns := t.unknowns ++ [SimUnknownKind.current dst.kind]
      residual := (t.residual ++ [Residual.zero]).set t.unknowns.length RC
      noise_sources := t.noise_sources ++ c.noise.map
        (fun src =>
          ⟨src.name, src.kind, t.unknowns.length, none, src.factor⟩) } :
      State).unknowns (.kirchoffLaw dst.hi) = some ih :=
    uindex_append_found hhi
  have hri2 : ({ t with
      func := F2
      unknowns := t.unknowns ++ [SimUnknownKind.current dst.kind]
      residual := (t.residual ++ [Residual.zero]).set t.unknowns.length RC
      noise_sources := t.noise_sources ++ c.noise.map
        (fun src =>
          ⟨src.name, src.kind, t.unknowns.length, none, src.factor⟩) } :
      State).residual.get? ih = some rhi := by
    show ((t.residual ++ [Residual.zero]).set t.unknowns.length RC).get? ih =
      some rhi
    rw [List.get?_set_ne _ _ (by omega : t.unknowns.length ≠ ih),
      List.get?_append hihlt]
    exact hri
  rw [modifyResidual_found hhi2 hri2]
  try dsimp only
  have hcc2 : HasConsts F2 := hx2.hasConsts hc
  obtain ⟨hxC, hwfC, hltC, _, _, _, _, _, heC⟩ :=
    residual_add_spec env rhi false eq_val hwfB hcc2
      (lt_of_lt_of_le bhi hx2.length_le) (lt_of_lt_of_le ge hx2.length_le)
  simp only [Bool.false_eq_true, if_false] at heC
  rw [eval_extends hwf hx2 env bhi, eval_extends hwf hx2 env ge] at heC
  rcases hC : rhi.add F2 false eq_val with ⟨F3, RI⟩
  rw [hC] at hxC hwfC hltC heC
  try dsimp only at hxC
  try dsimp only at hwfC
  try dsimp only at hltC
  try dsimp only at heC
  try dsimp only
  have hx3 : Extends t.func F3 := hx2.trans hxC
  have hlo2 : uindex ({ t with
      func := F3
      unknowns := t.unknowns ++ [SimUnknownKind.current dst.kind]
      residual := ((t.residual ++ [Residual.zero]).set t.unknowns.length
        RC).set ih RI
      noise_sources := t.noise_sources ++ c.noise.map
        (fun src =>
          ⟨src.name, src.kind, t.unknowns.length, none, src.factor⟩) } :
      State).unknowns (.kirchoffLaw lo) = some il :=
    uindex_append_found hlo
  have hrl2 : ({ t with
      func := F3
      unknowns := t.unknowns ++ [SimUnknownKind.current dst.kind]
      residual := ((t.residual ++ [Residual.zero]).set t.unknowns.length
        RC).set ih RI
      noise_sources := t.noise_sources ++ c.noise.map
        (fun src =>
          ⟨src.name, src.kind, t.unknowns.length, none, src.factor⟩) } :
      State).residual.get? il = some rlo := by
    show (((t.residual ++ [Residual.zero]).set t.unknowns.length RC).set ih
      RI).get? il = some rlo
    rw [List.get?_set_ne _ _ (Ne.symm hne),
      List.get?_set_ne _ _ (by omega : t.unknowns.length ≠ il),
      List.get?_append hillt]
    exact hrl
  rw [modifyResidual_found hlo2 hrl2]
  try dsimp only
  have hcc3 : HasConsts F3 := hx3.hasConsts hc
  obtain ⟨hxD, hwfD, hltD, _, _, _, _, _, heD⟩ :=
    residual_add_spec env rlo true eq_val hwfC hcc3
      (lt_of_lt_of_le blo hx3.length_le) (lt_of_lt_of_le ge hx3.length_le)
  simp only [if_true] at heD
  rw [eval_extends hwf hx3 env blo, eval_extends hwf hx3 env ge] at heD
  rcases hD : rlo.add F3 true eq_val with ⟨F4, RL⟩
  rw [hD] at hxD hwfD hltD heD
  try dsimp only at hxD
  try dsimp only at hwfD
  try dsimp only at hltD
  try dsimp only at heD
  try dsimp only
  have hlen1 : t.unknowns.length < (t.residual ++ [Residual.zero]).length := by
    rw [List.length_append]
    simp
    omega
  refine ⟨hx3.trans hxD, hwfD, rfl, RC, RI, RL, ?_, ?_, ?_, ?_, ?_, ?_, ?_,
    ?_, ?_⟩
  · rw [List.get?_set_ne _ _ (by omega : il ≠ t.unknowns.length),
      List.get?_set_ne _ _ (by omega : ih ≠ t.unknowns.length)]
    exact List.get?_set_eq_of_lt RC hlen1
  · rw [List.get?_set_ne _ _ hne]
    refine List.get?_set_eq_of_lt RI ?_
    rw [List.length_set]
    exact lt_of_lt_of_le hihlt (by rw [List.length_append]; omega)
  · refine List.get?_set_eq_of_lt RL ?_
    rw [List.length_set, List.length_set]
    exact lt_of_lt_of_le hillt (by rw [List.length_append]; omega)
  · rw [eval_extends hwfB (hxC.trans hxD) env hltB, heB]
    ring
  · rw [hrB2, eval_extends hwfA (hxB.trans (hxC.trans hxD)) env bA2, heA2]
  · rw [hrB3, eval_extends hwfA (hxB.trans (hxC.trans hxD)) env bA3, heA3]
  · rw [hrB4, eval_extends hwfA (hxB.trans (hxC.trans hxD)) env bA4, heA4]
  · rw [eval_extends hwfC hxD env hltC, heC]
  · rw [heD]
    ring

/-- Optbarrier stripping only consults the table below the value, so it is
stable under extension. -/
theorem stripGo_ext {f f' : Func} (hwf : StrictWF f) (hx : Extends f f') :
    ∀ fuel v, v < f.defs.length →
      Func.stripGo f'.defs fuel v = Func.stripGo f.defs fuel v := by
  intro fuel
  induction fuel with
  | zero => intro v _; rfl
  | succ g ih =>
    intro v hv
    unfold Func.stripGo
    rw [hx.get?_eq hv]
    cases hd : f.defs.get? v with
    | none => rfl
    | some d =>
      cases d with
      | optbarrier a =>
        have hav : a < v := hwf v _ hd a (by simp [IDef.ops])
        exact ih a (by omega)
      | const k => rfl
      | param k => rfl
      | fadd a b => rfl
      | fsub a b => rfl
      | fmul a b => rfl
      | fdiv a b => rfl
      | fneg a => rfl
      | sqrt a => rfl
      | phi2 c w => rfl

/-- Under strictness, any fuel above the value id strips the same. -/
theorem stripGo_fuel {f : Func} (hwf : StrictWF f) :
    ∀ fuel fuel2 v, v < fuel → v < fuel2 →
      Func.stripGo f.defs fuel v = Func.stripGo f.defs fuel2 v := by
  intro fuel
  induction fuel with
  | zero =>
    intro fuel2 v h
    omega
  | succ g ih =>
    intro fuel2 v hv hv2
    cases fuel2 with
    | zero => omega
    | succ g2 =>
      unfold Func.stripGo
      cases hd : f.defs.get? v with
      | none => rfl
      | some d =>
        cases d with
        | optbarrier a =>
          have hav : a < v := hwf v _ hd a (by simp [IDef.ops])
          exact ih g2 a (by omega) (by omega)
        | const k => rfl
        | param k => rfl
        | fadd a b => rfl
        | fsub a b => rfl
        | fmul a b => rfl
        | fdiv a b => rfl
        | fneg a => rfl
        | sqrt a => rfl
        | phi2 c w => rfl

/-- `strip_optbarrier` of an existing value is unchanged in any extension. -/
theorem strip_extends {f f' : Func} (hwf : StrictWF f) (hx : Extends f f')
    {v : Nat} (hv : v < f.defs.length) :
    strip_optbarrier f' v = strip_optbarrier f v := by
  unfold strip_optbarrier
  rw [stripGo_ext hwf hx f'.defs.length v hv]
  exact stripGo_fuel hwf f'.defs.length f.defs.length v
    (lt_of_lt_of_le hv hx.length_le) hv

/-- `ensure_param` preserves strictness (the appended marker has no
operands). -/
theorem ensure_param_wf {s : State} (k : ParamKind) (hwf : StrictWF s.func) :
    StrictWF (Builder.ensure_param s k).1.func := by
  unfold Builder.ensure_param
  cases hp : plookup s.params k with
  | some v => exact hwf
  | none =>
    dsimp only
    exact hwf.append (by simp [IDef.ops])

/-- `F_ZERO` strips to itself: slot 0 holds `const 0`, not an optbarrier. -/
theorem strip_zero {f : Func} (hc : HasConsts f) :
    strip_optbarrier f F_ZERO = F_ZERO := by
  unfold strip_optbarrier
  have hlen : 4 ≤ f.defs.length := hc.length_ge
  obtain ⟨g, hg⟩ : ∃ g, f.defs.length = g + 1 :=
    ⟨f.defs.length - 1, by omega⟩
  rw [hg]
  unfold Func.stripGo
  rw [(show f.defs.get? F_ZERO = some (.const 0) from hc.1)]

theorem get?_some_lt {α : Type _} {l : List α} {v : Nat} {a : α}
    (h : l.get? v = some a) : v < l.length := by
  by_contra hlt
  push_neg at hlt
  rw [List.get?_eq_none.mpr hlt] at h
  cases h

/-- Appending a fresh binding makes `plookup` find it. -/
theorem plookup_append_fresh {l : List (ParamKind × Nat)} {k : ParamKind}
    (v : Nat) (h : plookup l k = none) :
    plookup (l ++ [(k, v)]) k = some v := by
  induction l with
  | nil =>
    rw [List.nil_append, plookup_cons, if_pos rfl]
  | cons p ps ih =>
    rw [plookup_cons] at h
    rw [List.cons_append, plookup_cons]
    by_cases hp : p.1 = k
    · rw [if_pos hp] at h
      cases h
    · rw [if_neg hp] at h ⊢
      exact ih h

/-- The ensured parameter is in the table afterwards. -/
theorem ensure_param_plookup (s : State) (k : ParamKind) :
    plookup (Builder.ensure_param s k).1.params k =
      some (Builder.ensure_param s k).2 := by
  unfold Builder.ensure_param
  cases hp : plookup s.params k with
  | some v => exact hp
  | none =>
    dsimp only
    exact plookup_append_fresh _ hp

theorem forall2_mem_right {α β : Type _} {R : α → β → Prop} :
    ∀ {l1 : List α} {l2 : List β}, List.Forall₂ R l1 l2 →
      ∀ b ∈ l2, ∃ a ∈ l1, R a b := by
  intro l1 l2 h
  induction h with
  | nil => intro b hb; cases hb
  | cons hr _ ih =>
    intro b hb
    rcases List.mem_cons.mp hb with rfl | hb2
    · exact ⟨_, List.mem_cons_self _ _, hr⟩
    · obtain ⟨a, ha, hra⟩ := ih b hb2
      exact ⟨a, List.mem_cons_of_mem _ ha, hra⟩

theorem forall2_comp {α β γ : Type _} {R : α → β → Prop} {S : β → γ → Prop}
    {T : α → γ → Prop} (h : ∀ a b c, R a b → S b c → T a c) :
    ∀ {l1 : List α} {l2 : List β} {l3 : List γ},
      List.Forall₂ R l1 l2 → List.Forall₂ S l2 l3 →
      List.Forall₂ T l1 l3 := by
  intro l1 l2 l3 h1
  induction h1 generalizing l3 with
  | nil =>
    intro h2
    cases h2
    exact List.Forall₂.nil
  | cons hr _ ih =>
    intro h2
    cases h2 with
    | cons hs ht => exact List.Forall₂.cons (h _ _ _ hr hs) (ih ht)

/-- `mapState` with a per-element output relation stated at the final
function: relations stable under `Extends` survive the threading. -/
theorem mapState_forall2 {α : Type _} (g : Func → α → Func × α)
    (Inv : Func → Prop) (R : Func → α → α → Prop) :
    ∀ (l : List α) (f : Func),
      (∀ f2 x, x ∈ l → Inv f2 →
        Extends f2 (g f2 x).1 ∧ Inv (g f2 x).1 ∧
        R (g f2 x).1 x (g f2 x).2) →
      (∀ f2 f3 x y, R f2 x y → Extends f2 f3 → R f3 x y) →
      Inv f →
      Extends f (Builder.mapState g f l).1 ∧
      Inv (Builder.mapState g f l).1 ∧
      List.Forall₂ (R (Builder.mapState g f l).1) l
        (Builder.mapState g f l).2 := by
  intro l
  induction l with
  | nil =>
    intro f _ _ hf
    exact ⟨Extends.rfl, hf, List.Forall₂.nil⟩
  | cons x xs ih =>
    intro f hstep hpers hf
    unfold Builder.mapState
    dsimp only
    obtain ⟨hx1, hi1, hr1⟩ := hstep f x (List.mem_cons_self x xs) hf
    obtain ⟨hx2, hi2, hr2⟩ := ih (g f x).1
      (fun f2 y hy hf2 => hstep f2 y (List.mem_cons_of_mem x hy) hf2)
      hpers hi1
    exact ⟨hx1.trans hx2, hi2,
      List.Forall₂.cons (hpers _ _ _ _ hr1 hx2) hr2⟩

/-- Specification of the `select` closure of `switch_branch` on values whose
optbarrier-stripping is trivial: the shared value when both sides agree,
otherwise a fresh two-input `phi`. -/
theorem switch_select_spec {f : Func} (vbb cbb vv cv : Nat)
    (hwf : StrictWF f)
    (hv : strip_optbarrier f vv = vv) (hc : strip_optbarrier f cv = cv)
    (hvl : vv < f.defs.length) (hcl : cv < f.defs.length) :
    (vv = cv → Builder.switch_select f vbb cbb vv cv = (f, vv)) ∧
    (vv ≠ cv →
      Builder.switch_select f vbb cbb vv cv =
        f.append (.phi2 (cbb, cv) (vbb, vv))) ∧
    StrictWF (Builder.switch_select f vbb cbb vv cv).1 ∧
    Extends f (Builder.switch_select f vbb cbb vv cv).1 ∧
    (Builder.switch_select f vbb cbb vv cv).2 <
      (Builder.switch_select f vbb cbb vv cv).1.defs.length := by
  unfold Builder.switch_select
  rw [hv, hc]
  by_cases he : vv = cv
  · rw [if_pos he]
    exact ⟨fun _ => rfl, fun hne => absurd he hne, hwf, Extends.rfl, hvl⟩
  · rw [if_neg he]
    have hwf2 : StrictWF (f.append (.phi2 (cbb, cv) (vbb, vv))).1 := by
      refine hwf.append ?_
      intro a ha
      simp only [IDef.ops, List.mem_cons, List.not_mem_nil, or_false] at ha
      rcases ha with rfl | rfl
      · exact hcl
      · exact hvl
    refine ⟨fun heq => absurd heq he, fun _ => rfl, hwf2,
      f.append_extends _, ?_⟩
    rw [Func.append_length]
    exact Nat.lt_succ_self _

/-- Specification of `switch_branch` for contributions whose values strip
trivially: each contribution value (designator and the four branch values) is
the shared value when the voltage and current sides agree and a fresh
`phi((current_bb, current), (voltage_bb, voltage))` otherwise; every noise
record goes through the same `select` (against `F_ZERO` on the other side)
and its factor is then divided (voltage side) or multiplied (current side)
by `sqrt(mfactor)`. -/
theorem switch_branch_fields (s : State) (info : BranchInfo) (vbb cbb : Nat)
    (hwf : StrictWF s.func) (hcs : HasConsts s.func) (hpw : ParamsWF s)
    (hnv : ∀ src ∈ info.voltage_src.noise,
      strip_optbarrier s.func src.factor = src.factor ∧
      src.factor < s.func.defs.length)
    (hnc : ∀ src ∈ info.current_src.noise,
      strip_optbarrier s.func src.factor = src.factor ∧
      src.factor < s.func.defs.length)
    (fu1 : strip_optbarrier s.func (info.voltage_src.unknown.getD F_ZERO) =
      info.voltage_src.unknown.getD F_ZERO)
    (fu2 : strip_optbarrier s.func (info.current_src.unknown.getD F_ZERO) =
      info.current_src.unknown.getD F_ZERO)
    (f1 : strip_optbarrier s.func info.voltage_src.resist =
      info.voltage_src.resist)
    (f2 : strip_optbarrier s.func info.current_src.resist =
      info.current_src.resist)
    (f3 : strip_optbarrier s.func info.voltage_src.react =
      info.voltage_src.react)
    (f4 : strip_optbarrier s.func info.current_src.react =
      info.current_src.react)
    (f5 : strip_optbarrier s.func info.voltage_src.resist_small_signal =
      info.voltage_src.resist_small_signal)
    (f6 : strip_optbarrier s.func info.current_src.resist_small_signal =
      info.current_src.resist_small_signal)
    (f7 : strip_optbarrier s.func info.voltage_src.react_small_signal =
      info.voltage_src.react_small_signal)
    (f8 : strip_optbarrier s.func info.current_src.react_small_signal =
      info.current_src.react_small_signal)
    (bu1 : info.voltage_src.unknown.getD F_ZERO < s.func.defs.length)
    (bu2 : info.current_src.unknown.getD F_ZERO < s.func.defs.length)
    (b1 : info.voltage_src.resist < s.func.defs.length)
    (b2 : info.current_src.resist < s.func.defs.length)
    (b3 : info.voltage_src.react < s.func.defs.length)
    (b4 : info.current_src.react < s.func.defs.length)
    (b5 : info.voltage_src.resist_small_signal < s.func.defs.length)
    (b6 : info.current_src.resist_small_signal < s.func.defs.length)
    (b7 : info.voltage_src.react_small_signal < s.func.defs.length)
    (b8 : info.current_src.react_small_signal < s.func.defs.length) :
    Extends s.func (Builder.switch_branch s info vbb cbb).1.func ∧
    StrictWF (Builder.switch_branch s info vbb cbb).1.func ∧
    (Builder.switch_branch s info vbb cbb).1.unknowns = s.unknowns ∧
    (Builder.switch_branch s info vbb cbb).1.residual = s.residual ∧
    (∃ m vn cn,
      (Builder.switch_branch s info vbb cbb).2.noise = vn ++ cn ∧
      plookup (Builder.switch_branch s info vbb cbb).1.params
        (.paramSysFun .mfactor) = some m ∧
      List.Forall₂ (SwitchVoltageNoise
          (Builder.switch_branch s info vbb cbb).1.func m vbb cbb)
        info.voltage_src.noise vn ∧
      List.Forall₂ (SwitchCurrentNoise
          (Builder.switch_branch s info vbb cbb).1.func m vbb cbb)
        info.current_src.noise cn) ∧
    ((info.voltage_src.unknown.getD F_ZERO =
          info.current_src.unknown.getD F_ZERO ∧
        (Builder.switch_branch s info vbb cbb).2.unknown =
          some (info.voltage_src.unknown.getD F_ZERO)) ∨
      (info.voltage_src.unknown.getD F_ZERO ≠
          info.current_src.unknown.getD F_ZERO ∧
        ∃ u, (Builder.switch_branch s info vbb cbb).2.unknown = some u ∧
          (Builder.switch_branch s info vbb cbb).1.func.defs.get? u =
            some (.phi2 (cbb, info.current_src.unknown.getD F_ZERO)
              (vbb, info.voltage_src.unknown.getD F_ZERO)))) ∧
    ((info.voltage_src.resist = info.current_src.resist ∧
        (Builder.switch_branch s info vbb cbb).2.resist =
          info.voltage_src.resist) ∨
      (info.voltage_src.resist ≠ info.current_src.resist ∧
        (Builder.switch_branch s info vbb cbb).1.func.defs.get?
            (Builder.switch_branch s info vbb cbb).2.resist =
          some (.phi2 (cbb, info.current_src.resist)
            (vbb, info.voltage_src.resist)))) ∧
    ((info.voltage_src.react = info.current_src.react ∧
        (Builder.switch_branch s info vbb cbb).2.react =
          info.voltage_src.react) ∨
      (info.voltage_src.react ≠ info.current_src.react ∧
        (Builder.switch_branch s info vbb cbb).1.func.defs.get?
            (Builder.switch_branch s info vbb cbb).2.react =
          some (.phi2 (cbb, info.current_src.react)
            (vbb, info.voltage_src.react)))) ∧
    ((info.voltage_src.resist_small_signal =
          info.current_src.resist_small_signal ∧
        (Builder.switch_branch s info vbb cbb).2.resist_small_signal =
          info.voltage_src.resist_small_signal) ∨
      (info.voltage_src.resist_small_signal ≠
          info.current_src.resist_small_signal ∧
        (Builder.switch_branch s info vbb cbb).1.func.defs.get?
            (Builder.switch_branch s info vbb cbb).2.resist_small_signal =
          some (.phi2 (cbb, info.current_src.resist_small_signal)
            (vbb, info.voltage_src.resist_small_signal)))) ∧
    ((info.voltage_src.react_small_signal =
          info.current_src.react_small_signal ∧
        (Builder.switch_branch s info vbb cbb).2.react_small_signal =
          info.voltage_src.react_small_signal) ∨
      (info.voltage_src.react_small_signal ≠
          info.current_src.react_small_signal ∧
        (Builder.switch_branch s info vbb cbb).1.func.defs.get?
            (Builder.switch_branch s info vbb cbb).2.react_small_signal =
          some (.phi2 (cbb, info.current_src.react_small_signal)
            (vbb, info.voltage_src.react_small_signal)))) := by
  have hb0 : (F_ZERO : Nat) < s.func.defs.length := by
    have := hcs.length_ge
    unfold F_ZERO
    omega
  unfold Builder.switch_branch
  try dsimp only
  obtain ⟨hs1eq, hs1ne, hwf1, hx1, hlt1⟩ :=
    switch_select_spec vbb cbb (info.voltage_src.unknown.getD F_ZERO)
      (info.current_src.unknown.getD F_ZERO) hwf fu1 fu2 bu1 bu2
  rcases h1 : Builder.switch_select s.func vbb cbb
      (info.voltage_src.unknown.getD F_ZERO)
      (info.current_src.unknown.getD F_ZERO) with ⟨g1, u1⟩
  rw [h1] at hs1eq hs1ne hwf1 hx1 hlt1
  try dsimp only at hwf1
  try dsimp only at hx1
  try dsimp only at hlt1
  try rw [h1]
  try dsimp only
  have hMV := mapState_forall2
    (fun f src =>
      ((Builder.switch_select f vbb cbb src.factor F_ZERO).1,
       { name := src.name, kind := src.kind,
         factor := (Builder.switch_select f vbb cbb src.factor F_ZERO).2 }))
    (fun f2 => StrictWF f2 ∧ Extends s.func f2)
    (fun f2 x y => y.name = x.name ∧ y.kind = x.kind ∧
      y.factor < f2.defs.length ∧
      SelectedAt f2 vbb cbb x.factor F_ZERO y.factor)
    info.voltage_src.noise g1
    (by
      intro f2 x hx hinv
      obtain ⟨hwf2, hx2⟩ := hinv
      obtain ⟨hsf, hbf⟩ := hnv x hx
      have hstr : strip_optbarrier f2 x.factor = x.factor :=
        (strip_extends hwf hx2 hbf).trans hsf
      have hstr0 : strip_optbarrier f2 F_ZERO = F_ZERO :=
        (strip_extends hwf hx2 hb0).trans (strip_zero hcs)
      have hbx : x.factor < f2.defs.length :=
        lt_of_lt_of_le hbf hx2.length_le
      have hb02 : (F_ZERO : Nat) < f2.defs.length :=
        lt_of_lt_of_le hb0 hx2.length_le
      obtain ⟨hseq, hsne, hswf, hsx, hslt⟩ :=
        switch_select_spec vbb cbb x.factor F_ZERO hwf2 hstr hstr0 hbx hb02
      try dsimp only
      rcases hsel : Builder.switch_select f2 vbb cbb x.factor F_ZERO
        with ⟨fS, vS⟩
      rw [hsel] at hseq hsne hswf hsx hslt
      try dsimp only at hswf
      try dsimp only at hsx
      try dsimp only at hslt
      try dsimp only
      refine ⟨hsx, ⟨hswf, hx2.trans hsx⟩, rfl, rfl, hslt, ?_⟩
      by_cases he : x.factor = F_ZERO
      · left
        have hu := congrArg Prod.snd (hseq he)
        dsimp only at hu
        exact ⟨he, hu⟩
      · right
        have hpair := hsne he
        have hg := congrArg Prod.fst hpair
        have hu := congrArg Prod.snd hpair
        dsimp only at hg hu
        refine ⟨he, ?_⟩
        rw [hg, hu]
        exact Func.append_get?_self _ _)
    (by
      intro f2 f3 x y hr hx23
      obtain ⟨hn, hk, hb, hs⟩ := hr
      refine ⟨hn, hk, lt_of_lt_of_le hb hx23.length_le, ?_⟩
      rcases hs with ⟨he, hv⟩ | ⟨he, hv⟩
      · exact Or.inl ⟨he, hv⟩
      · refine Or.inr ⟨he, ?_⟩
        rw [hx23.get?_eq (get?_some_lt hv)]
        exact hv)
    ⟨hwf1, hx1⟩
  rcases hV : Builder.mapState
      (fun f src =>
        ((Builder.switch_select f vbb cbb src.factor F_ZERO).1,
         { name := src.name, kind := src.kind,
           factor :=
             (Builder.switch_select f vbb cbb src.factor F_ZERO).2 }))
      g1 info.voltage_src.noise with ⟨gV, vn1⟩
  rw [hV] at hMV
  obtain ⟨hxV, ⟨hwfV, hxsV⟩, hfaV⟩ := hMV
  try dsimp only at hxV
  try dsimp only at hwfV
  try dsimp only at hxsV
  try dsimp only at hfaV
  try rw [hV]
  try dsimp only
  have hMC := mapState_forall2
    (fun f src =>
      ((Builder.switch_select f vbb cbb F_ZERO src.factor).1,
       { name := src.name, kind := src.kind,
         factor := (Builder.switch_select f vbb cbb F_ZERO src.factor).2 }))
    (fun f2 => StrictWF f2 ∧ Extends s.func f2)
    (fun f2 x y => y.name = x.name ∧ y.kind = x.kind ∧
      y.factor < f2.defs.length ∧
      SelectedAt f2 vbb cbb F_ZERO x.factor y.factor)
    info.current_src.noise gV
    (by
      intro f2 x hx hinv
      obtain ⟨hwf2, hx2⟩ := hinv
      obtain ⟨hsf, hbf⟩ := hnc x hx
      have hstr : strip_optbarrier f2 x.factor = x.factor :=
        (strip_extends hwf hx2 hbf).trans hsf
      have hstr0 : strip_optbarrier f2 F_ZERO = F_ZERO :=
        (strip_extends hwf hx2 hb0).trans (strip_zero hcs)
      have hbx : x.factor < f2.defs.length :=
        lt_of_lt_of_le hbf hx2.length_le
      have hb02 : (F_ZERO : Nat) < f2.defs.length :=
        lt_of_lt_of_le hb0 hx2.length_le
      obtain ⟨hseq, hsne, hswf, hsx, hslt⟩ :=
        switch_select_spec vbb cbb F_ZERO x.factor hwf2 hstr0 hstr hb02 hbx
      try dsimp only
      rcases hsel : Builder.switch_select f2 vbb cbb F_ZERO x.factor
        with ⟨fS, vS⟩
      rw [hsel] at hseq hsne hswf hsx hslt
      try dsimp only at hswf
      try dsimp only at hsx
      try dsimp only at hslt
      try dsimp only
      refine ⟨hsx, ⟨hswf, hx2.trans hsx⟩, rfl, rfl, hslt, ?_⟩
      by_cases he : (F_ZERO : Nat) = x.factor
      · left
        have hu := congrArg Prod.snd (hseq he)
        dsimp only at hu
        exact ⟨he, hu⟩
      · right
        have hpair := hsne he
        have hg := congrArg Prod.fst hpair
        have hu := congrArg Prod.snd hpair
        dsimp only at hg hu
        refine ⟨he, ?_⟩
        rw [hg, hu]
        exact Func.append_get?_self _ _)
    (by
      intro f2 f3 x y hr hx23
      obtain ⟨hn, hk, hb, hs⟩ := hr
      refine ⟨hn, hk, lt_of_lt_of_le hb hx23.length_le, ?_⟩
      rcases hs with ⟨he, hv⟩ | ⟨he, hv⟩
      · exact Or.inl ⟨he, hv⟩
      · refine Or.inr ⟨he, ?_⟩
        rw [hx23.get?_eq (get?_some_lt hv)]
        exact hv)
    ⟨hwfV, hxsV⟩
  rcases hC : Builder.mapState
      (fun f src =>
        ((Builder.switch_select f vbb cbb F_ZERO src.factor).1,
         { name := src.name, kind := src.kind,
           factor :=
             (Builder.switch_select f vbb cbb F_ZERO src.factor).2 }))
      gV info.current_src.noise with ⟨gC, cn1⟩
  rw [hC] at hMC
  obtain ⟨hxC, ⟨hwfC, hxsC⟩, hfaC⟩ := hMC
  try dsimp only at hxC
  try dsimp only at hwfC
  try dsimp only at hxsC
  try dsimp only at hfaC
  try rw [hC]
  try dsimp only
  have hx1C : Extends s.func gC := hxsC
  obtain ⟨hs2eq, hs2ne, hwf2, hx2, hlt2⟩ :=
    switch_select_spec vbb cbb info.voltage_src.resist
      info.current_src.resist hwfC
      ((strip_extends hwf hx1C b1).trans f1)
      ((strip_extends hwf hx1C b2).trans f2)
      (lt_of_lt_of_le b1 hx1C.length_le) (lt_of_lt_of_le b2 hx1C.length_le)
  rcases h2 : Builder.switch_select gC vbb cbb info.voltage_src.resist
      info.current_src.resist with ⟨g2, p1⟩
  rw [h2] at hs2eq hs2ne hwf2 hx2 hlt2
  try dsimp only at hwf2
  try dsimp only at hx2
  try dsimp only at hlt2
  try rw [h2]
  try dsimp only
  have hx12 : Extends s.func g2 := hx1C.trans hx2
  obtain ⟨hs3eq, hs3ne, hwf3, hx3, hlt3⟩ :=
    switch_select_spec vbb cbb info.voltage_src.react
      info.current_src.react hwf2
      ((strip_extends hwf hx12 b3).trans f3)
      ((strip_extends hwf hx12 b4).trans f4)
      (lt_of_lt_of_le b3 hx12.length_le) (lt_of_lt_of_le b4 hx12.length_le)
  rcases h3 : Builder.switch_select g2 vbb cbb info.voltage_src.react
      info.current_src.react with ⟨g3, p2⟩
  rw [h3] at hs3eq hs3ne hwf3 hx3 hlt3
  try dsimp only at hwf3
  try dsimp only at hx3
  try dsimp only at hlt3
  try rw [h3]
  try dsimp only
  have hx13 : Extends s.func g3 := hx12.trans hx3
  obtain ⟨hs4eq, hs4ne, hwf4, hx4, hlt4⟩ :=
    switch_select_spec vbb cbb info.voltage_src.resist_small_signal
      info.current_src.resist_small_signal hwf3
      ((strip_extends hwf hx13 b5).trans f5)
      ((strip_extends hwf hx13 b6).trans f6)
      (lt_of_lt_of_le b5 hx13.length_le) (lt_of_lt_of_le b6 hx13.length_le)
  rcases h4 : Builder.switch_select g3 vbb cbb
      info.voltage_src.resist_small_signal
      info.current_src.resist_small_signal with ⟨g4, p3⟩
  rw [h4] at hs4eq hs4ne hwf4 hx4 hlt4
  try dsimp only at hwf4
  try dsimp only at hx4
  try dsimp only at hlt4
  try rw [h4]
  try dsimp only
  have hx14 : Extends s.func g4 := hx13.trans hx4
  obtain ⟨hs5eq, hs5ne, hwf5, hx5, hlt5⟩ :=
    switch_select_spec vbb cbb info.voltage_src.react_small_signal
      info.current_src.react_small_signal hwf4
      ((strip_extends hwf hx14 b7).trans f7)
      ((strip_extends hwf hx14 b8).trans f8)
      (lt_of_lt_of_le b7 hx14.length_le) (lt_of_lt_of_le b8 hx14.length_le)
  rcases h5 : Builder.switch_select g4 vbb cbb
      info.voltage_src.react_small_signal
      info.current_src.react_small_signal with ⟨g5, p4⟩
  rw [h5] at hs5eq hs5ne hwf5 hx5 hlt5
  try dsimp only at hwf5
  try dsimp only at hx5
  try dsimp only at hlt5
  try rw [h5]
  try dsimp only
  have hx15 : Extends s.func g5 := hx14.trans hx5
  have hpw5 : ParamsWF { s with func := g5 } := by
    intro k v hp
    obtain ⟨hlt, hget⟩ := hpw k v hp
    refine ⟨lt_of_lt_of_le hlt hx15.length_le, ?_⟩
    show g5.defs.get? v = _
    rw [hx15.get?_eq hlt]
    exact hget
  have pp := ensure_param_proj { s with func := g5 } (.paramSysFun .mfactor)
  have hps := ensure_param_spec { s with func := g5 } (.paramSysFun .mfactor)
    ⟨fun _ => 0, fun q => q⟩ hwf5 hpw5
  have hplk := ensure_param_plookup { s with func := g5 }
    (.paramSysFun .mfactor)
  rcases hp : Builder.ensure_param { s with func := g5 }
      (.paramSysFun .mfactor) with ⟨s3, m⟩
  rw [hp] at pp hps hplk
  try dsimp only at pp
  try dsimp only at hps
  try dsimp only at hplk
  try rw [hp]
  try dsimp only
  have hxg5 : Extends g5 s3.func := hps.1
  have hwfs3 : StrictWF s3.func := hps.2.1
  have hmlt : m < s3.func.defs.length := hps.2.2.2.1
  have hxVs3 : Extends gV s3.func :=
    hxC.trans (hx2.trans (hx3.trans (hx4.trans (hx5.trans hxg5))))
  have hvb : ∀ y ∈ vn1, y.factor < s3.func.defs.length := by
    intro y hy
    obtain ⟨x, hx, hr⟩ := forall2_mem_right hfaV y hy
    exact lt_of_lt_of_le hr.2.2.1 hxVs3.length_le
  have hMD := mapState_forall2
    (fun f src =>
      ((Builder.mfactor_divide f m src.factor).1,
       { name := src.name, kind := src.kind,
         factor := (Builder.mfactor_divide f m src.factor).2 }))
    (fun f2 => StrictWF f2 ∧ Extends s3.func f2)
    (fun f2 y z => z.name = y.name ∧ z.kind = y.kind ∧
      z.factor < f2.defs.length ∧ ScaledDiv f2 m y.factor z.factor)
    vn1 s3.func
    (by
      intro f2 y hy hinv
      obtain ⟨hwf2, hx2s⟩ := hinv
      have hbY : y.factor < f2.defs.length :=
        lt_of_lt_of_le (hvb y hy) hx2s.length_le
      have hbM : m < f2.defs.length := lt_of_lt_of_le hmlt hx2s.length_le
      have hdwf := mfactor_divide_wf hwf2 hbM hbY
      have hsc : ScaledDiv (Builder.mfactor_divide f2 m y.factor).1 m
          y.factor (Builder.mfactor_divide f2 m y.factor).2 ∧
          (Builder.mfactor_divide f2 m y.factor).2 <
            (Builder.mfactor_divide f2 m y.factor).1.defs.length := by
        unfold Builder.mfactor_divide
        by_cases hm1 : m = F_ONE
        · rw [if_pos hm1]
          exact ⟨Or.inl ⟨hm1, rfl⟩, hbY⟩
        · rw [if_neg hm1]
          dsimp only
          refine ⟨Or.inr ⟨hm1, (f2.append (.sqrt m)).2, ?_, ?_⟩, ?_⟩
          · rw [((f2.append (.sqrt m)).1.append_extends _).get?_eq ?_]
            · exact Func.append_get?_self _ _
            · rw [Func.append_length]
              exact Nat.lt_succ_self _
          · exact Func.append_get?_self _ _
          · rw [Func.append_length]
            exact Nat.lt_succ_self _
      try dsimp only
      rcases hdv : Builder.mfactor_divide f2 m y.factor with ⟨fD2, vD⟩
      rw [hdv] at hdwf hsc
      try dsimp only at hdwf
      try dsimp only at hsc
      try dsimp only
      exact ⟨hdwf.2, ⟨hdwf.1, hx2s.trans hdwf.2⟩, rfl, rfl, hsc.2, hsc.1⟩)
    (by
      intro f2 f3 y z hr hx23
      obtain ⟨hn, hk, hb, hs⟩ := hr
      refine ⟨hn, hk, lt_of_lt_of_le hb hx23.length_le, ?_⟩
      rcases hs with ⟨hm1, hv⟩ | ⟨hm1, sq, hsq, hv⟩
      · exact Or.inl ⟨hm1, hv⟩
      · refine Or.inr ⟨hm1, sq, ?_, ?_⟩
        · rw [hx23.get?_eq (get?_some_lt hsq)]
          exact hsq
        · rw [hx23.get?_eq (get?_some_lt hv)]
          exact hv)
    ⟨hwfs3, Extends.rfl⟩
  rcases hD : Builder.mapState
      (fun f src =>
        ((Builder.mfactor_divide f m src.factor).1,
         { name := src.name, kind := src.kind,
           factor := (Builder.mfactor_divide f m src.factor).2 }))
      s3.func vn1 with ⟨fD, vn2⟩
  rw [hD] at hMD
  obtain ⟨hxD, ⟨hwfD, hxsD⟩, hfaD⟩ := hMD
  try dsimp only at hxD
  try dsimp only at hwfD
  try dsimp only at hxsD
  try dsimp only at hfaD
  try rw [hD]
  try dsimp only
  have hxCfD : Extends gC fD :=
    (hx2.trans (hx3.trans (hx4.trans (hx5.trans hxg5)))).trans hxD
  have hcb : ∀ y ∈ cn1, y.factor < fD.defs.length := by
    intro y hy
    obtain ⟨x, hx, hr⟩ := forall2_mem_right hfaC y hy
    exact lt_of_lt_of_le hr.2.2.1 hxCfD.length_le
  have hmltD : m < fD.defs.length := lt_of_lt_of_le hmlt hxD.length_le
  have hMM := mapState_forall2
    (fun f src =>
      ((Builder.mfactor_multiply f m src.factor).1,
       { name := src.name, kind := src.kind,
         factor := (Builder.mfactor_multiply f m src.factor).2 }))
    (fun f2 => StrictWF f2 ∧ Extends fD f2)
    (fun f2 y z => z.name = y.name ∧ z.kind = y.kind ∧
      z.factor < f2.defs.length ∧ ScaledMul f2 m y.factor z.factor)
    cn1 fD
    (by
      intro f2 y hy hinv
      obtain ⟨hwf2, hx2s⟩ := hinv
      have hbY : y.factor < f2.defs.length :=
        lt_of_lt_of_le (hcb y hy) hx2s.length_le
      have hbM : m < f2.defs.length := lt_of_lt_of_le hmltD hx2s.length_le
      have hdwf := mfactor_multiply_wf hwf2 hbM hbY
      have hsc : ScaledMul (Builder.mfactor_multiply f2 m y.factor).1 m
          y.factor (Builder.mfactor_multiply f2 m y.factor).2 ∧
          (Builder.mfactor_multiply f2 m y.factor).2 <
            (Builder.mfactor_multiply f2 m y.factor).1.defs.length := by
        unfold Builder.mfactor_multiply
        by_cases hm1 : m = F_ONE
        · rw [if_pos hm1]
          exact ⟨Or.inl ⟨hm1, rfl⟩, hbY⟩
        · rw [if_neg hm1]
          by_cases hf1 : y.factor = F_ONE
          · rw [if_pos hf1]
            refine ⟨Or.inr (Or.inl ⟨hm1, hf1, Func.append_get?_self _ _⟩),
              ?_⟩
            rw [Func.append_length]
            exact Nat.lt_succ_self _
          · rw [if_neg hf1]
            try dsimp only
            refine ⟨Or.inr (Or.inr ⟨hm1, hf1, (f2.append (.sqrt m)).2, ?_,
              Func.append_get?_self _ _⟩), ?_⟩
            · rw [((f2.append (.sqrt m)).1.append_extends _).get?_eq ?_]
              · exact Func.append_get?_self _ _
              · rw [Func.append_length]
                exact Nat.lt_succ_self _
            · rw [Func.append_length]
              exact Nat.lt_succ_self _
      try dsimp only
      rcases hdv : Builder.mfactor_multiply f2 m y.factor with ⟨fM2, vM⟩
      rw [hdv] at hdwf hsc
      try dsimp only at hdwf
      try dsimp only at hsc
      try dsimp only
      exact ⟨hdwf.2, ⟨hdwf.1, hx2s.trans hdwf.2⟩, rfl, rfl, hsc.2, hsc.1⟩)
    (by
      intro f2 f3 y z hr hx23
      obtain ⟨hn, hk, hb, hs⟩ := hr
      refine ⟨hn, hk, lt_of_lt_of_le hb hx23.length_le, ?_⟩
      rcases hs with ⟨hm1, hv⟩ | ⟨hm1, hf1, hv⟩ | ⟨hm1, hf1, sq, hsq, hv⟩
      · exact Or.inl ⟨hm1, hv⟩
      · refine Or.inr (Or.inl ⟨hm1, hf1, ?_⟩)
        rw [hx23.get?_eq (get?_some_lt hv)]
        exact hv
      · refine Or.inr (Or.inr ⟨hm1, hf1, sq, ?_, ?_⟩)
        · rw [hx23.get?_eq (get?_some_lt hsq)]
          exact hsq
        · rw [hx23.get?_eq (get?_some_lt hv)]
          exact hv)
    ⟨hwfD, Extends.rfl⟩
  rcases hM : Builder.mapState
      (fun f src =>
        ((Builder.mfactor_multiply f m src.factor).1,
         { name := src.name, kind := src.kind,
           factor := (Builder.mfactor_multiply f m src.factor).2 }))
      fD cn1 with ⟨fM, cn2⟩
  rw [hM] at hMM
  obtain ⟨hxM, ⟨hwfM, hxsM⟩, hfaM⟩ := hMM
  try dsimp only at hxM
  try dsimp only at hwfM
  try dsimp only at hxsM
  try dsimp only at hfaM
  try rw [hM]
  try dsimp only
  have hxDM : Extends s3.func fM := hxD.trans hxM
  have hx5M : Extends g5 fM := hxg5.trans hxDM
  have hx4M : Extends g4 fM := hx5.trans hx5M
  have hx3M : Extends g3 fM := hx4.trans hx4M
  have hx2M : Extends g2 fM := hx3.trans hx3M
  have hxCM : Extends gC fM := hx2.trans hx2M
  have hxVM : Extends gV fM := hxC.trans hxCM
  have hx1M : Extends g1 fM := hxV.trans hxVM
  have hxfin : Extends s.func fM := hx1.trans hx1M
  refine ⟨hxfin, hwfM, pp.1, pp.2.2.1, ?_, ?_, ?_, ?_, ?_, ?_⟩
  · refine ⟨m, vn2, cn2, rfl, hplk, ?_, ?_⟩
    · have hfaV2 : List.Forall₂ (fun x y => y.name = x.name ∧
          y.kind = x.kind ∧ y.factor < fM.defs.length ∧
          SelectedAt fM vbb cbb x.factor F_ZERO y.factor)
          info.voltage_src.noise vn1 := by
        refine List.Forall₂.imp ?_ hfaV
        intro x y hr
        obtain ⟨hn, hk, hb, hs⟩ := hr
        refine ⟨hn, hk, lt_of_lt_of_le hb hxVM.length_le, ?_⟩
        rcases hs with ⟨he, hv⟩ | ⟨he, hv⟩
        · exact Or.inl ⟨he, hv⟩
        · refine Or.inr ⟨he, ?_⟩
          rw [hxVM.get?_eq (get?_some_lt hv)]
          exact hv
      have hfaD2 : List.Forall₂ (fun y z => z.name = y.name ∧
          z.kind = y.kind ∧ z.factor < fM.defs.length ∧
          ScaledDiv fM m y.factor z.factor) vn1 vn2 := by
        refine List.Forall₂.imp ?_ hfaD
        intro y z hr
        obtain ⟨hn, hk, hb, hs⟩ := hr
        refine ⟨hn, hk, lt_of_lt_of_le hb hxM.length_le, ?_⟩
        rcases hs with ⟨hm1, hv⟩ | ⟨hm1, sq, hsq, hv⟩
        · exact Or.inl ⟨hm1, hv⟩
        · refine Or.inr ⟨hm1, sq, ?_, ?_⟩
          · rw [hxM.get?_eq (get?_some_lt hsq)]
            exact hsq
          · rw [hxM.get?_eq (get?_some_lt hv)]
            exact hv
      refine forall2_comp ?_ hfaV2 hfaD2
      intro x y z hr hs
      exact ⟨hs.1.trans hr.1, hs.2.1.trans hr.2.1,
        y.factor, hr.2.2.2, hs.2.2.2⟩
    · have hfaC2 : List.Forall₂ (fun x y => y.name = x.name ∧
          y.kind = x.kind ∧ y.factor < fM.defs.length ∧
          SelectedAt fM vbb cbb F_ZERO x.factor y.factor)
          info.current_src.noise cn1 := by
        refine List.Forall₂.imp ?_ hfaC
        intro x y hr
        obtain ⟨hn, hk, hb, hs⟩ := hr
        refine ⟨hn, hk, lt_of_lt_of_le hb hxCM.length_le, ?_⟩
        rcases hs with ⟨he, hv⟩ | ⟨he, hv⟩
        · exact Or.inl ⟨he, hv⟩
        · refine Or.inr ⟨he, ?_⟩
          rw [hxCM.get?_eq (get?_some_lt hv)]
          exact hv
      have hfaM2 : List.Forall₂ (fun y z => z.name = y.name ∧
          z.kind = y.kind ∧ z.factor < fM.defs.length ∧
          ScaledMul fM m y.factor z.factor) cn1 cn2 :=
        hfaM
      refine forall2_comp ?_ hfaC2 hfaM2
      intro x y z hr hs
      exact ⟨hs.1.trans hr.1, hs.2.1.trans hr.2.1,
        y.factor, hr.2.2.2, hs.2.2.2⟩
  · by_cases he : info.voltage_src.unknown.getD F_ZERO =
        info.current_src.unknown.getD F_ZERO
    · left
      refine ⟨he, ?_⟩
      have hu := congrArg Prod.snd (hs1eq he)
      dsimp only at hu
      rw [hu]
    · right
      refine ⟨he, u1, rfl, ?_⟩
      have hpair := hs1ne he
      have hg := congrArg Prod.fst hpair
      have hu := congrArg Prod.snd hpair
      dsimp only at hg hu
      rw [hx1M.get?_eq hlt1, hg, hu]
      exact Func.append_get?_self _ _
  · by_cases he : info.voltage_src.resist = info.current_src.resist
    · left
      refine ⟨he, ?_⟩
      have hu := congrArg Prod.snd (hs2eq he)
      dsimp only at hu
      rw [hu]
    · right
      refine ⟨he, ?_⟩
      have hpair := hs2ne he
      have hg := congrArg Prod.fst hpair
      have hu := congrArg Prod.snd hpair
      dsimp only at hg hu
      show fM.defs.get? p1 = _
      rw [hx2M.get?_eq hlt2, hg, hu]
      exact Func.append_get?_self _ _
  · by_cases he : info.voltage_src.react = info.current_src.react
    · left
      refine ⟨he, ?_⟩
      have hu := congrArg Prod.snd (hs3eq he)
      dsimp only at hu
      rw [hu]
    · right
      refine ⟨he, ?_⟩
      have hpair := hs3ne he
      have hg := congrArg Prod.fst hpair
      have hu := congrArg Prod.snd hpair
      dsimp only at hg hu
      show fM.defs.get? p2 = _
      rw [hx3M.get?_eq hlt3, hg, hu]
      exact Func.append_get?_self _ _
  · by_cases he : info.voltage_src.resist_small_signal =
        info.current_src.resist_small_signal
    · left
      refine ⟨he, ?_⟩
      have hu := congrArg Prod.snd (hs4eq he)
      dsimp only at hu
      rw [hu]
    · right
      refine ⟨he, ?_⟩
      have hpair := hs4ne he
      have hg := congrArg Prod.fst hpair
      have hu := congrArg Prod.snd hpair
      dsimp only at hg hu
      show fM.defs.get? p3 = _
      rw [hx4M.get?_eq hlt4, hg, hu]
      exact Func.append_get?_self _ _
  · by_cases he : info.voltage_src.react_small_signal =
        info.current_src.react_small_signal
    · left
      refine ⟨he, ?_⟩
      have hu := congrArg Prod.snd (hs5eq he)
      dsimp only at hu
      rw [hu]
    · right
      refine ⟨he, ?_⟩
      have hpair := hs5ne he
      have hg := congrArg Prod.fst hpair
      have hu := congrArg Prod.snd hpair
      dsimp only at hg hu
      show fM.defs.get? p4 = _
      rw [hx5M.get?_eq hlt5, hg, hu]
      exact Func.append_get?_self _ _

/-! ### Optbarrier anchoring (`ensure_optbarriers`) -/

theorem StateMono.same (t : State) : StateMono t t :=
  ⟨fun _ h => h, fun _ h => h⟩

theorem StateMono.comp {t u w : State} (h1 : StateMono t u)
    (h2 : StateMono u w) : StateMono t w :=
  ⟨fun v h => h2.1 v (h1.1 v h), fun v h => h2.2 v (h1.2 v h)⟩

theorem Anchored.mono {t u : State} (h : StateMono t u) {v : Nat}
    (ha : Anchored t v) : Anchored u v := by
  rcases ha with h0 | ⟨hb, ho⟩
  · exact Or.inl h0
  · exact Or.inr ⟨h.1 v hb, h.2 v ho⟩

theorem RowAnchored.mono_all {t u : State} (h : StateMono t u) {r : Residual}
    (ha : RowAnchored t r) : RowAnchored u r :=
  ⟨ha.1.mono h, ha.2.1.mono h, ha.2.2.1.mono h, ha.2.2.2.1.mono h,
   ha.2.2.2.2.1.mono h, ha.2.2.2.2.2.mono h⟩

theorem EobSafe.base (L : Nat) (t : State) : EobSafe L t t :=
  ⟨Nat.le_refl _, fun _ _ _ => rfl, fun _ _ h _ => h⟩

theorem EobSafe.chain {L : Nat} {t u w : State} (h1 : EobSafe L t u)
    (h2 : EobSafe L u w) : EobSafe L t w := by
  refine ⟨Nat.le_trans h1.1 h2.1, ?_, ?_⟩
  · intro x hL hx
    rw [h2.2.1 x hL (Nat.lt_of_lt_of_le hx h1.1), h1.2.1 x hL hx]
  · intro x d hx hb
    exact h2.2.2 x d (h1.2.2 x d hx hb) hb

/-- `ensure_optbarrier` rephrased through the `isBarrier` test. -/
theorem ensure_optbarrier_eq (f : Func) (v : Nat) :
    Util.ensure_optbarrier f v =
      if v = F_ZERO then (f, v)
      else if isBarrier (f.defs.get? v) = true then (f, v)
      else f.append (.optbarrier v) := by
  unfold Util.ensure_optbarrier
  by_cases h0 : v = F_ZERO
  · rw [if_pos h0, if_pos h0]
  · rw [if_neg h0, if_neg h0]
    cases hv : f.defs.get? v with
    | none => rfl
    | some d =>
      cases d with
      | optbarrier w => rfl
      | const k => rfl
      | param k => rfl
      | fadd a b => rfl
      | fsub a b => rfl
      | fmul a b => rfl
      | fdiv a b => rfl
      | fneg a => rfl
      | sqrt a => rfl
      | phi2 c w => rfl

/-- What `update_optbarrier` does to the value table: non-barrier slots are
untouched, barrier slots stay barrier slots, the table only grows, and slots
other than the updated one keep their definition. -/
theorem update_optbarrier_master (f : Func) (v m : Nat) :
    (∀ x d, f.defs.get? x = some d → isBarrier (some d) = false →
      (Util.update_optbarrier f v m).defs.get? x = some d) ∧
    (∀ x w, f.defs.get? x = some (.optbarrier w) →
      BarrierAt (Util.update_optbarrier f v m) x) ∧
    f.defs.length ≤ (Util.update_optbarrier f v m).defs.length ∧
    (∀ x, x ≠ v → x < f.defs.length →
      (Util.update_optbarrier f v m).defs.get? x = f.defs.get? x) := by
  unfold Util.update_optbarrier
  cases hv : f.defs.get? v with
  | none =>
    exact ⟨fun _ _ hx _ => hx, fun x w hw => ⟨w, hw⟩, Nat.le_refl _,
      fun _ _ _ => rfl⟩
  | some d =>
    cases d with
    | optbarrier w =>
      dsimp only
      have hvlt : v < f.defs.length := get?_some_lt hv
      have happ : ∀ x, x < f.defs.length →
          (f.append (.fmul m w)).1.defs.get? x = f.defs.get? x :=
        fun x hx => (f.append_extends _).get?_eq hx
      have hlen : (f.append (.fmul m w)).1.defs.length =
          f.defs.length + 1 := Func.append_length f _
      refine ⟨?_, ?_, ?_, ?_⟩
      · intro x d hx hb
        have hxv : x ≠ v := by
          intro he
          rw [he, hv] at hx
          cases hx
          cases hb
        show ((f.append (.fmul m w)).1.defs.set v _).get? x = some d
        rw [List.get?_set_ne _ _ (fun he => hxv he.symm), happ x (get?_some_lt hx)]
        exact hx
      · intro x w2 hw
        by_cases hxv : x = v
        · subst hxv
          refine ⟨(f.append (.fmul m w)).2, ?_⟩
          show ((f.append (.fmul m w)).1.defs.set x _).get? x = _
          rw [List.get?_set_eq_of_lt]
          omega
        · refine ⟨w2, ?_⟩
          show ((f.append (.fmul m w)).1.defs.set v _).get? x = _
          rw [List.get?_set_ne _ _ (fun he => hxv he.symm),
            happ x (get?_some_lt hw)]
          exact hw
      · show f.defs.length ≤ ((f.append (.fmul m w)).1.defs.set v _).length
        rw [List.length_set, hlen]
        omega
      · intro x hxv hx
        show ((f.append (.fmul m w)).1.defs.set v _).get? x = f.defs.get? x
        rw [List.get?_set_ne _ _ (fun he => hxv he.symm), happ x hx]
    | const k => exact ⟨fun _ _ hx _ => hx, fun x w hw => ⟨w, hw⟩,
        Nat.le_refl _, fun _ _ _ => rfl⟩
    | param k => exact ⟨fun _ _ hx _ => hx, fun x w hw => ⟨w, hw⟩,
        Nat.le_refl _, fun _ _ _ => rfl⟩
    | fadd a b => exact ⟨fun _ _ hx _ => hx, fun x w hw => ⟨w, hw⟩,
        Nat.le_refl _, fun _ _ _ => rfl⟩
    | fsub a b => exact ⟨fun _ _ hx _ => hx, fun x w hw => ⟨w, hw⟩,
        Nat.le_refl _, fun _ _ _ => rfl⟩
    | fmul a b => exact ⟨fun _ _ hx _ => hx, fun x w hw => ⟨w, hw⟩,
        Nat.le_refl _, fun _ _ _ => rfl⟩
    | fdiv a b => exact ⟨fun _ _ hx _ => hx, fun x w hw => ⟨w, hw⟩,
        Nat.le_refl _, fun _ _ _ => rfl⟩
    | fneg a => exact ⟨fun _ _ hx _ => hx, fun x w hw => ⟨w, hw⟩,
        Nat.le_refl _, fun _ _ _ => rfl⟩
    | sqrt a => exact ⟨fun _ _ hx _ => hx, fun x w hw => ⟨w, hw⟩,
        Nat.le_refl _, fun _ _ _ => rfl⟩
    | phi2 c w => exact ⟨fun _ _ hx _ => hx, fun x w hw => ⟨w, hw⟩,
        Nat.le_refl _, fun _ _ _ => rfl⟩

/-- The master facts about one `ensure_optbarrier` closure call: the returned
value is anchored, the step is monotone for anchoring, non-barrier slots are
untouched, the table grows, and — when the processed value lies below `L` (or
is `F_ZERO`) — slots at or above `L` are untouched. -/
theorem eob_master (s : State) (m : Nat) (kb : Bool) (v : Nat) :
    Anchored (Builder.eob s m kb v).1 (Builder.eob s m kb v).2 ∧
    StateMono s (Builder.eob s m kb v).1 ∧
    (∀ x d, s.func.defs.get? x = some d → isBarrier (some d) = false →
      (Builder.eob s m kb v).1.func.defs.get? x = some d) ∧
    s.func.defs.length ≤ (Builder.eob s m kb v).1.func.defs.length ∧
    (∀ L, v < L ∨ v = F_ZERO →
      ∀ x, L ≤ x → x < s.func.defs.length →
        (Builder.eob s m kb v).1.func.defs.get? x = s.func.defs.get? x) := by
  unfold Builder.eob
  rw [ensure_optbarrier_eq]
  by_cases h0 : v = F_ZERO
  · rw [if_pos h0]
    dsimp only
    rw [if_neg (fun hcc => hcc.2 h0)]
    exact ⟨Or.inl h0,
      ⟨fun _ h => h, fun w hw => List.mem_append_left _ hw⟩,
      fun _ _ hx _ => hx, Nat.le_refl _, fun _ _ _ _ _ => rfl⟩
  · rw [if_neg h0]
    cases hb : isBarrier (s.func.defs.get? v) with
    | true =>
      rw [if_pos rfl]
      dsimp only
      obtain ⟨w, hw⟩ : BarrierAt s.func v := by
        cases hv : s.func.defs.get? v with
        | none => rw [hv] at hb; exact absurd hb Bool.false_ne_true
        | some d =>
          cases d with
          | optbarrier w2 => exact ⟨w2, hv⟩
          | const k => rw [hv] at hb; exact absurd hb Bool.false_ne_true
          | param k => rw [hv] at hb; exact absurd hb Bool.false_ne_true
          | fadd a b => rw [hv] at hb; exact absurd hb Bool.false_ne_true
          | fsub a b => rw [hv] at hb; exact absurd hb Bool.false_ne_true
          | fmul a b => rw [hv] at hb; exact absurd hb Bool.false_ne_true
          | fdiv a b => rw [hv] at hb; exact absurd hb Bool.false_ne_true
          | fneg a => rw [hv] at hb; exact absurd hb Bool.false_ne_true
          | sqrt a => rw [hv] at hb; exact absurd hb Bool.false_ne_true
          | phi2 c w2 => rw [hv] at hb; exact absurd hb Bool.false_ne_true
      have hu := update_optbarrier_master s.func v m
      by_cases hg : (kb : Prop) ∧ v ≠ F_ZERO
      · rw [if_pos hg]
        refine ⟨?_, ?_, ?_, ?_, ?_⟩
        · exact Or.inr ⟨hu.2.1 v w hw,
            List.mem_append_right _ (List.mem_singleton.mpr rfl)⟩
        · exact ⟨fun x hbx => hbx.elim (fun w2 hw2 => hu.2.1 x w2 hw2),
            fun w2 hw2 => List.mem_append_left _ hw2⟩
        · exact hu.1
        · exact hu.2.2.1
        · intro L hL x hLx hx
          rcases hL with hL | hL
          · exact hu.2.2.2 x (by omega) hx
          · exact absurd hL h0
      · rw [if_neg hg]
        refine ⟨?_, ?_, ?_, ?_, ?_⟩
        · exact Or.inr ⟨⟨w, hw⟩,
            List.mem_append_right _ (List.mem_singleton.mpr rfl)⟩
        · exact ⟨fun _ h => h, fun w2 hw2 => List.mem_append_left _ hw2⟩
        · exact fun _ _ hx _ => hx
        · exact Nat.le_refl _
        · exact fun _ _ _ _ _ => rfl
    | false =>
      rw [if_neg (by decide)]
      dsimp only
      have hself := Func.append_get?_self s.func (.optbarrier v)
      have hlen := Func.append_length s.func (.optbarrier v)
      have happ : ∀ x, x < s.func.defs.length →
          (s.func.append (.optbarrier v)).1.defs.get? x = s.func.defs.get? x :=
        fun x hx => (s.func.append_extends _).get?_eq hx
      have hn0 : (s.func.append (.optbarrier v)).2 = s.func.defs.length := rfl
      have hu := update_optbarrier_master (s.func.append (.optbarrier v)).1
        (s.func.append (.optbarrier v)).2 m
      by_cases hg : (kb : Prop) ∧ (s.func.append (.optbarrier v)).2 ≠ F_ZERO
      · rw [if_pos hg]
        refine ⟨?_, ?_, ?_, ?_, ?_⟩
        · exact Or.inr ⟨hu.2.1 _ v hself,
            List.mem_append_right _ (List.mem_singleton.mpr rfl)⟩
        · refine ⟨?_, fun w2 hw2 => List.mem_append_left _ hw2⟩
          intro x hbx
          obtain ⟨w2, hw2⟩ := hbx
          exact hu.2.1 x w2 (by rw [happ x (get?_some_lt hw2)]; exact hw2)
        · intro x d hx hbd
          exact hu.1 x d (by rw [happ x (get?_some_lt hx)]; exact hx) hbd
        · calc s.func.defs.length
              ≤ (s.func.append (.optbarrier v)).1.defs.length := by omega
            _ ≤ _ := hu.2.2.1
        · intro L hL x hLx hx
          rcases hL with hL | hL
          · rw [hu.2.2.2 x (by rw [hn0]; omega) (by omega), happ x hx]
          · exact absurd hL h0
      · rw [if_neg hg]
        refine ⟨?_, ?_, ?_, ?_, ?_⟩
        · exact Or.inr ⟨⟨v, hself⟩,
            List.mem_append_right _ (List.mem_singleton.mpr rfl)⟩
        · refine ⟨?_, fun w2 hw2 => List.mem_append_left _ hw2⟩
          intro x hbx
          obtain ⟨w2, hw2⟩ := hbx
          exact ⟨w2, by rw [happ x (get?_some_lt hw2)]; exact hw2⟩
        · intro x d hx hbd
          rw [happ x (get?_some_lt hx)]
          exact hx
        · omega
        · intro L hL x hLx hx
          exact happ x hx

/-- `eob` on a value below `L` (or on `F_ZERO`) is an `EobSafe` step. -/
theorem eob_safe {L : Nat} (s : State) (m : Nat) (kb : Bool) {v : Nat}
    (hv : v < L ∨ v = F_ZERO) : EobSafe L s (Builder.eob s m kb v).1 := by
  have h := eob_master s m kb v
  exact ⟨h.2.2.2.1, h.2.2.2.2 L hv, h.2.2.1⟩

/-- `eob` on a non-zero, non-barrier value of a Kirchhoff row: a fresh
optbarrier slot is allocated at the old table length, with
`fmul mfactor original` inside the wrapper. -/
theorem eob_fresh_kirchhoff (s : State) (m : Nat) {v : Nat}
    (h0 : v ≠ F_ZERO) (hb : isBarrier (s.func.defs.get? v) = false)
    (hv : v < s.func.defs.length) :
    (Builder.eob s m true v).2 = s.func.defs.length ∧
    (Builder.eob s m true v).1.func.defs.get? s.func.defs.length =
      some (.optbarrier (s.func.defs.length + 1)) ∧
    (Builder.eob s m true v).1.func.defs.get? (s.func.defs.length + 1) =
      some (.fmul m v) ∧
    (Builder.eob s m true v).1.func.defs.length = s.func.defs.length + 2 := by
  unfold Builder.eob
  rw [ensure_optbarrier_eq, if_neg h0, if_neg (by rw [hb]; decide)]
  dsimp only
  have hn0 : (s.func.append (.optbarrier v)).2 = s.func.defs.length := rfl
  have hg : (true : Bool) ∧ (s.func.append (.optbarrier v)).2 ≠ F_ZERO := by
    refine ⟨rfl, ?_⟩
    rw [hn0]
    unfold F_ZERO
    omega
  rw [if_pos hg]
  have hself := Func.append_get?_self s.func (.optbarrier v)
  rw [hn0] at hself
  have hlen : (s.func.append (.optbarrier v)).1.defs.length =
      s.func.defs.length + 1 := Func.append_length s.func _
  unfold Util.update_optbarrier
  rw [hn0, hself]
  dsimp only
  have hself2 := Func.append_get?_self (s.func.append (.optbarrier v)).1
    (.fmul m v)
  have hn1 : ((s.func.append (.optbarrier v)).1.append (.fmul m v)).2 =
      s.func.defs.length + 1 := by
    show (s.func.append (.optbarrier v)).1.defs.length = _
    omega
  have hlen2 : ((s.func.append (.optbarrier v)).1.append
      (.fmul m v)).1.defs.length = s.func.defs.length + 2 := by
    rw [Func.append_length]
    omega
  rw [hn1] at hself2
  refine ⟨rfl, ?_, ?_, ?_⟩
  · show (((s.func.append (.optbarrier v)).1.append
        (.fmul m v)).1.defs.set s.func.defs.length _).get? _ = _
    rw [List.get?_set_eq_of_lt]
    · rw [hn1]
    · omega
  · show (((s.func.append (.optbarrier v)).1.append
        (.fmul m v)).1.defs.set s.func.defs.length _).get? _ = _
    rw [List.get?_set_ne _ _ (by omega)]
    exact hself2
  · show (((s.func.append (.optbarrier v)).1.append
        (.fmul m v)).1.defs.set s.func.defs.length _).length = _
    rw [List.length_set]
    exact hlen2

/-- One iteration of the residual-anchoring loop: monotone for anchoring,
other rows untouched, the processed row (when present) fully anchored, and
the noise list untouched. -/
theorem eob_residual_master (m : Nat) (t : State) (i : Nat) :
    StateMono t (Builder.eob_residual m t i) ∧
    (∀ j, j ≠ i →
      (Builder.eob_residual m t i).residual.get? j = t.residual.get? j) ∧
    (t.residual.get? i = none →
      (Builder.eob_residual m t i).residual.get? i = none) ∧
    (∀ r, t.residual.get? i = some r →
      ∃ r2, (Builder.eob_residual m t i).residual.get? i = some r2 ∧
        RowAnchored (Builder.eob_residual m t i) r2) ∧
    (Builder.eob_residual m t i).noise_sources = t.noise_sources := by
  unfold Builder.eob_residual
  cases hr : t.residual.get? i with
  | none =>
    refine ⟨StateMono.same t, fun _ _ => rfl, fun _ => hr, ?_, rfl⟩
    intro r h
    cases h
  | some r =>
    obtain ⟨rr, rx, rss, xss, rlr, xlr⟩ := r
    dsimp only
    rcases h1 : Builder.eob t m (Builder.isKirchoff t.unknowns i) rr
      with ⟨s1, w1⟩
    have q1 := eob_master t m (Builder.isKirchoff t.unknowns i) rr
    have p1 := eob_proj t m (Builder.isKirchoff t.unknowns i) rr
    rw [h1] at q1 p1
    dsimp only
    rcases h2 : Builder.eob s1 m (Builder.isKirchoff t.unknowns i) rx
      with ⟨s2, w2⟩
    have q2 := eob_master s1 m (Builder.isKirchoff t.unknowns i) rx
    have p2 := eob_proj s1 m (Builder.isKirchoff t.unknowns i) rx
    rw [h2] at q2 p2
    dsimp only
    rcases h3 : Builder.eob s2 m (Builder.isKirchoff t.unknowns i) rss
      with ⟨s3, w3⟩
    have q3 := eob_master s2 m (Builder.isKirchoff t.unknowns i) rss
    have p3 := eob_proj s2 m (Builder.isKirchoff t.unknowns i) rss
    rw [h3] at q3 p3
    dsimp only
    rcases h4 : Builder.eob s3 m (Builder.isKirchoff t.unknowns i) F_ZERO
      with ⟨s4, w4⟩
    have q4 := eob_master s3 m (Builder.isKirchoff t.unknowns i) F_ZERO
    have p4 := eob_proj s3 m (Builder.isKirchoff t.unknowns i) F_ZERO
    rw [h4] at q4 p4
    dsimp only
    rcases h5 : Builder.eob s4 m (Builder.isKirchoff t.unknowns i) rlr
      with ⟨s5, w5⟩
    have q5 := eob_master s4 m (Builder.isKirchoff t.unknowns i) rlr
    have p5 := eob_proj s4 m (Builder.isKirchoff t.unknowns i) rlr
    rw [h5] at q5 p5
    dsimp only
    rcases h6 : Builder.eob s5 m (Builder.isKirchoff t.unknowns i) xlr
      with ⟨s6, w6⟩
    have q6 := eob_master s5 m (Builder.isKirchoff t.unknowns i) xlr
    have p6 := eob_proj s5 m (Builder.isKirchoff t.unknowns i) xlr
    rw [h6] at q6 p6
    dsimp only
    have hres6 : s6.residual = t.residual := by
      rw [p6.2.2.2.1, p5.2.2.2.1, p4.2.2.2.1, p3.2.2.2.1, p2.2.2.2.1,
        p1.2.2.2.1]
    have hnoi6 : s6.noise_sources = t.noise_sources := by
      rw [p6.2.2.2.2.2.1, p5.2.2.2.2.2.1, p4.2.2.2.2.2.1, p3.2.2.2.2.2.1,
        p2.2.2.2.2.2.1, p1.2.2.2.2.2.1]
    have ms2 : StateMono s1 s6 :=
      (q2.2.1.comp (q3.2.1.comp (q4.2.1.comp (q5.2.1.comp q6.2.1))))
    have ms3 : StateMono s2 s6 :=
      (q3.2.1.comp (q4.2.1.comp (q5.2.1.comp q6.2.1)))
    have ms4 : StateMono s3 s6 :=
      (q4.2.1.comp (q5.2.1.comp q6.2.1))
    have ms5 : StateMono s4 s6 := q5.2.1.comp q6.2.1
    have ms6 : StateMono s5 s6 := q6.2.1
    have mt6 : StateMono t s6 := q1.2.1.comp ms2
    refine ⟨mt6, ?_, ?_, ?_, hnoi6⟩
    · intro j hj
      show (s6.residual.set i _).get? j = t.residual.get? j
      rw [List.get?_set_ne _ _ (fun he => hj he.symm), hres6]
    · intro h
      cases h
    · intro r0 h
      cases h
      refine ⟨⟨w1, w2, w3, w4, w5, w6⟩, ?_, ?_⟩
      · show (s6.residual.set i _).get? i = _
        refine List.get?_set_eq_of_lt _ ?_
        rw [hres6]
        exact get?_some_lt hr
      · exact ⟨q1.1.mono ms2, q2.1.mono ms3, q3.1.mono ms4, q4.1.mono ms5,
          q5.1.mono ms6, q6.1⟩

/-- One residual-loop iteration only touches the value table below `L` when
all the row's anchored fields lie below `L`. -/
theorem eob_residual_safe (m L : Nat) (t : State) (i : Nat)
    (h : ∀ r, t.residual.get? i = some r →
      r.resist < L ∧ r.react < L ∧ r.resist_small_signal < L ∧
      r.resist_lim_rhs < L ∧ r.react_lim_rhs < L) :
    EobSafe L t (Builder.eob_residual m t i) := by
  unfold Builder.eob_residual
  cases hr : t.residual.get? i with
  | none => exact EobSafe.base L t
  | some r =>
    obtain ⟨rr, rx, rss, xss, rlr, xlr⟩ := r
    have hb := h _ hr
    dsimp only at hb ⊢
    rcases h1 : Builder.eob t m (Builder.isKirchoff t.unknowns i) rr
      with ⟨s1, w1⟩
    have e1 : EobSafe L t s1 := by
      have := eob_safe t m (Builder.isKirchoff t.unknowns i)
        (Or.inl hb.1 : rr < L ∨ rr = F_ZERO)
      rw [h1] at this
      exact this
    dsimp only
    rcases h2 : Builder.eob s1 m (Builder.isKirchoff t.unknowns i) rx
      with ⟨s2, w2⟩
    have e2 : EobSafe L s1 s2 := by
      have := eob_safe s1 m (Builder.isKirchoff t.unknowns i)
        (Or.inl hb.2.1 : rx < L ∨ rx = F_ZERO)
      rw [h2] at this
      exact this
    dsimp only
    rcases h3 : Builder.eob s2 m (Builder.isKirchoff t.unknowns i) rss
      with ⟨s3, w3⟩
    have e3 : EobSafe L s2 s3 := by
      have := eob_safe s2 m (Builder.isKirchoff t.unknowns i)
        (Or.inl hb.2.2.1 : rss < L ∨ rss = F_ZERO)
      rw [h3] at this
      exact this
    dsimp only
    rcases h4 : Builder.eob s3 m (Builder.isKirchoff t.unknowns i) F_ZERO
      with ⟨s4, w4⟩
    have e4 : EobSafe L s3 s4 := by
      have := eob_safe s3 m (Builder.isKirchoff t.unknowns i)
        (Or.inr rfl : F_ZERO < L ∨ F_ZERO = F_ZERO)
      rw [h4] at this
      exact this
    dsimp only
    rcases h5 : Builder.eob s4 m (Builder.isKirchoff t.unknowns i) rlr
      with ⟨s5, w5⟩
    have e5 : EobSafe L s4 s5 := by
      have := eob_safe s4 m (Builder.isKirchoff t.unknowns i)
        (Or.inl hb.2.2.2.1 : rlr < L ∨ rlr = F_ZERO)
      rw [h5] at this
      exact this
    dsimp only
    rcases h6 : Builder.eob s5 m (Builder.isKirchoff t.unknowns i) xlr
      with ⟨s6, w6⟩
    have e6 : EobSafe L s5 s6 := by
      have := eob_safe s5 m (Builder.isKirchoff t.unknowns i)
        (Or.inl hb.2.2.2.2 : xlr < L ∨ xlr = F_ZERO)
      rw [h6] at this
      exact this
    dsimp only
    exact e1.chain (e2.chain (e3.chain (e4.chain (e5.chain e6))))

/-- One iteration of the noise-anchoring loop. -/
theorem eob_noise_master (m : Nat) (t : State) (i : Nat) :
    StateMono t (Builder.eob_noise m t i) ∧
    (∀ j, j ≠ i → (Builder.eob_noise m t i).noise_sources.get? j =
      t.noise_sources.get? j) ∧
    (t.noise_sources.get? i = none →
      (Builder.eob_noise m t i).noise_sources.get? i = none) ∧
    (∀ n, t.noise_sources.get? i = some n →
      ∃ n2, (Builder.eob_noise m t i).noise_sources.get? i = some n2 ∧
        Anchored (Builder.eob_noise m t i) n2.factor) ∧
    (Builder.eob_noise m t i).residual = t.residual := by
  unfold Builder.eob_noise
  cases hr : t.noise_sources.get? i with
  | none =>
    refine ⟨StateMono.same t, fun _ _ => rfl, fun _ => hr, ?_, rfl⟩
    intro n h
    cases h
  | some n =>
    dsimp only
    rcases h1 : Builder.eob t m false n.factor with ⟨s1, w1⟩
    have q1 := eob_master t m false n.factor
    have p1 := eob_proj t m false n.factor
    rw [h1] at q1 p1
    dsimp only
    have hnoi1 : s1.noise_sources = t.noise_sources := p1.2.2.2.2.2.1
    refine ⟨q1.2.1, ?_, ?_, ?_, p1.2.2.2.1⟩
    · intro j hj
      show (s1.noise_sources.set i _).get? j = t.noise_sources.get? j
      rw [List.get?_set_ne _ _ (fun he => hj he.symm), hnoi1]
    · intro h
      cases h
    · intro n0 h
      cases h
      refine ⟨{ n with factor := w1 }, ?_, ?_⟩
      · show (s1.noise_sources.set i _).get? i = _
        refine List.get?_set_eq_of_lt _ ?_
        rw [hnoi1]
        exact get?_some_lt hr
      · exact q1.1

/-- Noise-loop safety. -/
theorem eob_noise_safe (m L : Nat) (t : State) (i : Nat)
    (h : ∀ n, t.noise_sources.get? i = some n → n.factor < L) :
    EobSafe L t (Builder.eob_noise m t i) := by
  unfold Builder.eob_noise
  cases hr : t.noise_sources.get? i with
  | none => exact EobSafe.base L t
  | some n =>
    dsimp only
    rcases h1 : Builder.eob t m false n.factor with ⟨s1, w1⟩
    have e1 : EobSafe L t s1 := by
      have := eob_safe t m false (Or.inl (h _ hr) : n.factor < L ∨ _ = F_ZERO)
      rw [h1] at this
      exact this
    exact e1

/-- One iteration of the Jacobian-anchoring loop. -/
theorem eob_entry_master (m : Nat) (t : State) (i : Nat) :
    StateMono t (Builder.eob_entry m t i) ∧
    (∀ j, j ≠ i → (Builder.eob_entry m t i).jacobian.get? j =
      t.jacobian.get? j) ∧
    (t.jacobian.get? i = none →
      (Builder.eob_entry m t i).jacobian.get? i = none) ∧
    (∀ e, t.jacobian.get? i = some e →
      ∃ e2, (Builder.eob_entry m t i).jacobian.get? i = some e2 ∧
        Anchored (Builder.eob_entry m t i) e2.resist ∧
        Anchored (Builder.eob_entry m t i) e2.react) ∧
    (Builder.eob_entry m t i).residual = t.residual ∧
    (Builder.eob_entry m t i).noise_sources = t.noise_sources := by
  unfold Builder.eob_entry
  cases hr : t.jacobian.get? i with
  | none =>
    refine ⟨StateMono.same t, fun _ _ => rfl, fun _ => hr, ?_, rfl, rfl⟩
    intro e h
    cases h
  | some e =>
    dsimp only
    rcases h1 : Builder.eob t m (Builder.isKirchoff t.unknowns e.row) e.resist
      with ⟨s1, w1⟩
    have q1 := eob_master t m (Builder.isKirchoff t.unknowns e.row) e.resist
    have p1 := eob_proj t m (Builder.isKirchoff t.unknowns e.row) e.resist
    rw [h1] at q1 p1
    dsimp only
    rcases h2 : Builder.eob s1 m (Builder.isKirchoff t.unknowns e.row) e.react
      with ⟨s2, w2⟩
    have q2 := eob_master s1 m (Builder.isKirchoff t.unknowns e.row) e.react
    have p2 := eob_proj s1 m (Builder.isKirchoff t.unknowns e.row) e.react
    rw [h2] at q2 p2
    dsimp only
    have hjac2 : s2.jacobian = t.jacobian := by
      rw [p2.2.2.2.2.1, p1.2.2.2.2.1]
    refine ⟨q1.2.1.comp q2.2.1, ?_, ?_, ?_, ?_, ?_⟩
    · intro j hj
      show (s2.jacobian.set i _).get? j = t.jacobian.get? j
      rw [List.get?_set_ne _ _ (fun he => hj he.symm), hjac2]
    · intro h
      cases h
    · intro e0 h
      cases h
      refine ⟨{ e with resist := w1, react := w2 }, ?_, ?_, ?_⟩
      · show (s2.jacobian.set i _).get? i = _
        refine List.get?_set_eq_of_lt _ ?_
        rw [hjac2]
        exact get?_some_lt hr
      · exact q1.1.mono q2.2.1
      · exact q2.1
    · show s2.residual = t.residual
      rw [p2.2.2.2.1, p1.2.2.2.1]
    · show s2.noise_sources = t.noise_sources
      rw [p2.2.2.2.2.2.1, p1.2.2.2.2.2.1]

/-- Jacobian-loop safety. -/
theorem eob_entry_safe (m L : Nat) (t : State) (i : Nat)
    (h : ∀ e, t.jacobian.get? i = some e → e.resist < L ∧ e.react < L) :
    EobSafe L t (Builder.eob_entry m t i) := by
  unfold Builder.eob_entry
  cases hr : t.jacobian.get? i with
  | none => exact EobSafe.base L t
  | some e =>
    dsimp only
    rcases h1 : Builder.eob t m (Builder.isKirchoff t.unknowns e.row) e.resist
      with ⟨s1, w1⟩
    have e1 : EobSafe L t s1 := by
      have := eob_safe t m (Builder.isKirchoff t.unknowns e.row)
        (Or.inl (h _ hr).1 : e.resist < L ∨ e.resist = F_ZERO)
      rw [h1] at this
      exact this
    dsimp only
    rcases h2 : Builder.eob s1 m (Builder.isKirchoff t.unknowns e.row) e.react
      with ⟨s2, w2⟩
    have e2 : EobSafe L s1 s2 := by
      have := eob_safe s1 m (Builder.isKirchoff t.unknowns e.row)
        (Or.inl (h _ hr).2 : e.react < L ∨ e.react = F_ZERO)
      rw [h2] at this
      exact this
    exact e1.chain e2

theorem resBoundsCheck_spec {t : State} (h : resBoundsCheck t = true) :
    ∀ j r, t.residual.get? j = some r →
      r.resist < t.func.defs.length ∧ r.react < t.func.defs.length ∧
      r.resist_small_signal < t.func.defs.length ∧
      r.resist_lim_rhs < t.func.defs.length ∧
      r.react_lim_rhs < t.func.defs.length := by
  intro j r hj
  have hm : r ∈ t.residual := List.get?_mem hj
  have := List.all_eq_true.mp h r hm
  simp only [Bool.and_eq_true, decide_eq_true_eq] at this
  tauto

theorem noiseBoundsCheck_spec {t : State} (h : noiseBoundsCheck t = true) :
    ∀ j n, t.noise_sources.get? j = some n →
      n.factor < t.func.defs.length := by
  intro j n hj
  have hm : n ∈ t.noise_sources := List.get?_mem hj
  have := List.all_eq_true.mp h n hm
  simpa using this

theorem jacBoundsCheck_spec {t : State} (h : jacBoundsCheck t = true) :
    ∀ j e, t.jacobian.get? j = some e →
      e.resist < t.func.defs.length ∧ e.react < t.func.defs.length := by
  intro j e hj
  have hm : e ∈ t.jacobian := List.get?_mem hj
  have := List.all_eq_true.mp h e hm
  simp only [Bool.and_eq_true, decide_eq_true_eq] at this
  tauto

/-- Split `range n` at an interior point: the prefix, the point and a
suffix of strictly larger indices. -/
theorem range_split (n i : Nat) (h : i < n) :
    ∃ D, List.range n = List.range i ++ i :: D ∧ D.Nodup ∧ i ∉ D ∧
      ∀ j ∈ D, i < j ∧ j < n := by
  have hdec : List.range n =
      List.range i ++ i :: (List.range n).drop (i + 1) := by
    conv_lhs => rw [← List.take_append_drop (i + 1) (List.range n)]
    rw [List.take_range, Nat.min_eq_left (by omega), List.range_succ,
      List.append_assoc, List.singleton_append]
  have hnd : (List.range i ++ i :: (List.range n).drop (i + 1)).Nodup := by
    rw [← hdec]
    exact List.nodup_range n
  obtain ⟨h1, h2, hdisj⟩ := List.nodup_append.mp hnd
  obtain ⟨hiD, hD⟩ := List.nodup_cons.mp h2
  refine ⟨_, hdec, hD, hiD, ?_⟩
  intro j hj
  have hjn : j < n := by
    have hmem : j ∈ List.range n := by
      rw [hdec]
      exact List.mem_append_right _ (List.mem_cons_of_mem i hj)
    exact List.mem_range.mp hmem
  have hji : ¬j < i :=
    fun hlt => hdisj (List.mem_range.mpr hlt) (List.mem_cons_of_mem i hj)
  have hne : j ≠ i := fun he => hiD (he ▸ hj)
  omega

/-- The residual loop anchors every row. -/
theorem resid_fold_anchors (m : Nat) :
    ∀ (l : List Nat) (t : State),
      (∀ j r, t.residual.get? j = some r → j ∈ l ∨ RowAnchored t r) →
      StateMono t (l.foldl (Builder.eob_residual m) t) ∧
      (∀ j r, (l.foldl (Builder.eob_residual m) t).residual.get? j = some r →
        RowAnchored (l.foldl (Builder.eob_residual m) t) r) := by
  intro l
  induction l with
  | nil =>
    intro t h
    refine ⟨StateMono.same t, ?_⟩
    intro j r hj
    rcases h j r hj with hc | hc
    · exact absurd hc (List.not_mem_nil j)
    · exact hc
  | cons x xs ih =>
    intro t h
    rw [List.foldl_cons]
    have hm := eob_residual_master m t x
    have hnew : ∀ j r,
        (Builder.eob_residual m t x).residual.get? j = some r →
        j ∈ xs ∨ RowAnchored (Builder.eob_residual m t x) r := by
      intro j r hj
      by_cases hjx : j = x
      · subst hjx
        cases hr : t.residual.get? j with
        | none => rw [hm.2.2.1 hr] at hj; cases hj
        | some r0 =>
          obtain ⟨r2, hr2, ha2⟩ := hm.2.2.2.1 r0 hr
          rw [hr2] at hj
          cases hj
          exact Or.inr ha2
      · rw [hm.2.1 j hjx] at hj
        rcases h j r hj with hc | hc
        · rcases List.mem_cons.mp hc with he | he
          · exact absurd he hjx
          · exact Or.inl he
        · exact Or.inr (hc.mono_all hm.1)
    obtain ⟨hmono, hanch⟩ := ih (Builder.eob_residual m t x) hnew
    exact ⟨hm.1.comp hmono, hanch⟩

/-- The residual loop leaves the noise table unchanged. -/
theorem resid_fold_noise (m : Nat) (l : List Nat) (t : State) :
    (l.foldl (Builder.eob_residual m) t).noise_sources = t.noise_sources :=
  foldl_proj (fun b a => (eob_residual_master m b a).2.2.2.2) l t

/-- The residual loop leaves the Jacobian unchanged. -/
theorem resid_fold_jac (m : Nat) (l : List Nat) (t : State) :
    (l.foldl (Builder.eob_residual m) t).jacobian = t.jacobian :=
  foldl_proj (fun b a => (eob_residual_proj m b a).2.2.2.1) l t

/-- The residual loop leaves the unknown set unchanged. -/
theorem resid_fold_unknowns (m : Nat) (l : List Nat) (t : State) :
    (l.foldl (Builder.eob_residual m) t).unknowns = t.unknowns :=
  foldl_proj (fun b a => (eob_residual_proj m b a).1) l t

/-- The residual loop, run over pairwise-distinct indices whose rows have all
fields below `L`, never touches the value table below `L`, and rows outside
the index list survive unchanged. -/
theorem resid_fold_safe (m L : Nat) :
    ∀ (l : List Nat) (t : State), l.Nodup →
      (∀ j ∈ l, ∀ r, t.residual.get? j = some r →
        r.resist < L ∧ r.react < L ∧ r.resist_small_signal < L ∧
        r.resist_lim_rhs < L ∧ r.react_lim_rhs < L) →
      EobSafe L t (l.foldl (Builder.eob_residual m) t) ∧
      (∀ j, j ∉ l → (l.foldl (Builder.eob_residual m) t).residual.get? j =
        t.residual.get? j) := by
  intro l
  induction l with
  | nil => exact fun t _ _ => ⟨EobSafe.base L t, fun _ _ => rfl⟩
  | cons x xs ih =>
    intro t hnd h
    rw [List.foldl_cons]
    obtain ⟨hx, hxs⟩ := List.nodup_cons.mp hnd
    have hm := eob_residual_master m t x
    have e1 : EobSafe L t (Builder.eob_residual m t x) :=
      eob_residual_safe m L t x (fun r hr => h x (List.mem_cons_self x xs) r hr)
    have hstep : ∀ j ∈ xs, ∀ r,
        (Builder.eob_residual m t x).residual.get? j = some r →
        r.resist < L ∧ r.react < L ∧ r.resist_small_signal < L ∧
        r.resist_lim_rhs < L ∧ r.react_lim_rhs < L := by
      intro j hj r hr
      have hjx : j ≠ x := fun he => hx (he ▸ hj)
      rw [hm.2.1 j hjx] at hr
      exact h j (List.mem_cons_of_mem x hj) r hr
    obtain ⟨e2, p2⟩ := ih (Builder.eob_residual m t x) hxs hstep
    refine ⟨e1.chain e2, ?_⟩
    intro j hj
    have hjx : j ≠ x := fun he => hj (he ▸ List.mem_cons_self x xs)
    have hjxs : j ∉ xs := fun he => hj (List.mem_cons_of_mem x he)
    rw [p2 j hjxs, hm.2.1 j hjx]

/-- The noise loop anchors every factor; the residual table is untouched. -/
theorem noise_fold_anchors (m : Nat) :
    ∀ (l : List Nat) (t : State),
      (∀ j n, t.noise_sources.get? j = some n →
        j ∈ l ∨ Anchored t n.factor) →
      StateMono t (l.foldl (Builder.eob_noise m) t) ∧
      (∀ j n, (l.foldl (Builder.eob_noise m) t).noise_sources.get? j =
        some n → Anchored (l.foldl (Builder.eob_noise m) t) n.factor) ∧
      (l.foldl (Builder.eob_noise m) t).residual = t.residual := by
  intro l
  induction l with
  | nil =>
    intro t h
    refine ⟨StateMono.same t, ?_, rfl⟩
    intro j n hj
    rcases h j n hj with hc | hc
    · exact absurd hc (List.not_mem_nil j)
    · exact hc
  | cons x xs ih =>
    intro t h
    rw [List.foldl_cons]
    have hm := eob_noise_master m t x
    have hnew : ∀ j n,
        (Builder.eob_noise m t x).noise_sources.get? j = some n →
        j ∈ xs ∨ Anchored (Builder.eob_noise m t x) n.factor := by
      intro j n hj
      by_cases hjx : j = x
      · subst hjx
        cases hr : t.noise_sources.get? j with
        | none => rw [hm.2.2.1 hr] at hj; cases hj
        | some n0 =>
          obtain ⟨n2, hn2, ha2⟩ := hm.2.2.2.1 n0 hr
          rw [hn2] at hj
          cases hj
          exact Or.inr ha2
      · rw [hm.2.1 j hjx] at hj
        rcases h j n hj with hc | hc
        · rcases List.mem_cons.mp hc with he | he
          · exact absurd he hjx
          · exact Or.inl he
        · exact Or.inr (hc.mono hm.1)
    obtain ⟨hmono, hanch, hres⟩ := ih (Builder.eob_noise m t x) hnew
    exact ⟨hm.1.comp hmono, hanch, hres.trans hm.2.2.2.2⟩

/-- Noise-loop safety: value table below `L` untouched, residual table
unchanged. -/
theorem noise_fold_safe (m L : Nat) :
    ∀ (l : List Nat) (t : State), l.Nodup →
      (∀ j ∈ l, ∀ n, t.noise_sources.get? j = some n → n.factor < L) →
      EobSafe L t (l.foldl (Builder.eob_noise m) t) ∧
      (l.foldl (Builder.eob_noise m) t).residual = t.residual := by
  intro l
  induction l with
  | nil => exact fun t _ _ => ⟨EobSafe.base L t, rfl⟩
  | cons x xs ih =>
    intro t hnd h
    rw [List.foldl_cons]
    obtain ⟨hx, hxs⟩ := List.nodup_cons.mp hnd
    have hm := eob_noise_master m t x
    have e1 : EobSafe L t (Builder.eob_noise m t x) :=
      eob_noise_safe m L t x (fun n hn => h x (List.mem_cons_self x xs) n hn)
    have hstep : ∀ j ∈ xs, ∀ n,
        (Builder.eob_noise m t x).noise_sources.get? j = some n →
        n.factor < L := by
      intro j hj n hn
      have hjx : j ≠ x := fun he => hx (he ▸ hj)
      rw [hm.2.1 j hjx] at hn
      exact h j (List.mem_cons_of_mem x hj) n hn
    obtain ⟨e2, p2⟩ := ih (Builder.eob_noise m t x) hxs hstep
    exact ⟨e1.chain e2, p2.trans hm.2.2.2.2⟩

/-- The Jacobian loop anchors every entry; residual and noise tables are
untouched. -/
theorem jac_fold_anchors (m : Nat) :
    ∀ (l : List Nat) (t : State),
      (∀ j e, t.jacobian.get? j = some e →
        j ∈ l ∨ (Anchored t e.resist ∧ Anchored t e.react)) →
      StateMono t (l.foldl (Builder.eob_entry m) t) ∧
      (∀ j e, (l.foldl (Builder.eob_entry m) t).jacobian.get? j = some e →
        Anchored (l.foldl (Builder.eob_entry m) t) e.resist ∧
        Anchored (l.foldl (Builder.eob_entry m) t) e.react) ∧
      (l.foldl (Builder.eob_entry m) t).residual = t.residual ∧
      (l.foldl (Builder.eob_entry m) t).noise_sources = t.noise_sources := by
  intro l
  induction l with
  | nil =>
    intro t h
    refine ⟨StateMono.same t, ?_, rfl, rfl⟩
    intro j e hj
    rcases h j e hj with hc | hc
    · exact absurd hc (List.not_mem_nil j)
    · exact hc
  | cons x xs ih =>
    intro t h
    rw [List.foldl_cons]
    have hm := eob_entry_master m t x
    have hnew : ∀ j e,
        (Builder.eob_entry m t x).jacobian.get? j = some e →
        j ∈ xs ∨ (Anchored (Builder.eob_entry m t x) e.resist ∧
          Anchored (Builder.eob_entry m t x) e.react) := by
      intro j e hj
      by_cases hjx : j = x
      · subst hjx
        cases hr : t.jacobian.get? j with
        | none => rw [hm.2.2.1 hr] at hj; cases hj
        | some e0 =>
          obtain ⟨e2, he2, ha2, ha3⟩ := hm.2.2.2.1 e0 hr
          rw [he2] at hj
          cases hj
          exact Or.inr ⟨ha2, ha3⟩
      · rw [hm.2.1 j hjx] at hj
        rcases h j e hj with hc | hc
        · rcases List.mem_cons.mp hc with he | he
          · exact absurd he hjx
          · exact Or.inl he
        · exact Or.inr ⟨hc.1.mono hm.1, hc.2.mono hm.1⟩
    obtain ⟨hmono, hanch, hres, hnoi⟩ := ih (Builder.eob_entry m t x) hnew
    exact ⟨hm.1.comp hmono, hanch, hres.trans hm.2.2.2.2.1,
      hnoi.trans hm.2.2.2.2.2⟩

/-- Jacobian-loop safety: value table below `L` untouched, residual table
unchanged. -/
theorem jac_fold_safe (m L : Nat) :
    ∀ (l : List Nat) (t : State), l.Nodup →
      (∀ j ∈ l, ∀ e, t.jacobian.get? j = some e →
        e.resist < L ∧ e.react < L) →
      EobSafe L t (l.foldl (Builder.eob_entry m) t) ∧
      (l.foldl (Builder.eob_entry m) t).residual = t.residual := by
  intro l
  induction l with
  | nil => exact fun t _ _ => ⟨EobSafe.base L t, rfl⟩
  | cons x xs ih =>
    intro t hnd h
    rw [List.foldl_cons]
    obtain ⟨hx, hxs⟩ := List.nodup_cons.mp hnd
    have hm := eob_entry_master m t x
    have e1 : EobSafe L t (Builder.eob_entry m t x) :=
      eob_entry_safe m L t x (fun e he => h x (List.mem_cons_self x xs) e he)
    have hstep : ∀ j ∈ xs, ∀ e,
        (Builder.eob_entry m t x).jacobian.get? j = some e →
        e.resist < L ∧ e.react < L := by
      intro j hj e he
      have hjx : j ≠ x := fun heq => hx (heq ▸ hj)
      rw [hm.2.1 j hjx] at he
      exact h j (List.mem_cons_of_mem x hj) e he
    obtain ⟨e2, p2⟩ := ih (Builder.eob_entry m t x) hxs hstep
    exact ⟨e1.chain e2, p2.trans hm.2.2.2.2.1⟩

/-- `finishFrom` after the anchoring step only fills `model_inputs` and the
two counters: function, output values and the three anchored collections are
those of `ensure_optbarriers (preAnchorState s di)`. -/
theorem build_input_parts (t : State) :
    (Builder.build_input_unknown_pairs t).func = t.func ∧
    (Builder.build_input_unknown_pairs t).output_values = t.output_values ∧
    (Builder.build_input_unknown_pairs t).residual = t.residual ∧
    (Builder.build_input_unknown_pairs t).noise_sources = t.noise_sources ∧
    (Builder.build_input_unknown_pairs t).jacobian = t.jacobian :=
  ⟨rfl, rfl, rfl, rfl, rfl⟩

theorem finish_wrap_parts (t : State) (a b : Nat) :
    ({ t with num_resistive := a, num_reactive := b } : State).func = t.func ∧
    ({ t with num_resistive := a, num_reactive := b } : State).output_values =
      t.output_values ∧
    ({ t with num_resistive := a, num_reactive := b } : State).residual =
      t.residual ∧
    ({ t with num_resistive := a, num_reactive := b } : State).noise_sources =
      t.noise_sources ∧
    ({ t with num_resistive := a, num_reactive := b } : State).jacobian =
      t.jacobian :=
  ⟨rfl, rfl, rfl, rfl, rfl⟩

theorem finishFrom_eq (s : State) (di : Builder.DerivInfo) :
    Builder.finishFrom s di =
      { Builder.build_input_unknown_pairs
          (Builder.ensure_optbarriers (preAnchorState s di)) with
        num_resistive := (Builder.count_jacobian_entries
          (Builder.build_input_unknown_pairs
            (Builder.ensure_optbarriers (preAnchorState s di)))).1
        num_reactive := (Builder.count_jacobian_entries
          (Builder.build_input_unknown_pairs
            (Builder.ensure_optbarriers (preAnchorState s di)))).2 } := rfl

theorem finishFrom_parts (s : State) (di : Builder.DerivInfo) :
    (Builder.finishFrom s di).func =
      (Builder.ensure_optbarriers (preAnchorState s di)).func ∧
    (Builder.finishFrom s di).output_values =
      (Builder.ensure_optbarriers (preAnchorState s di)).output_values ∧
    (Builder.finishFrom s di).residual =
      (Builder.ensure_optbarriers (preAnchorState s di)).residual ∧
    (Builder.finishFrom s di).noise_sources =
      (Builder.ensure_optbarriers (preAnchorState s di)).noise_sources ∧
    (Builder.finishFrom s di).jacobian =
      (Builder.ensure_optbarriers (preAnchorState s di)).jacobian := by
  have hp := build_input_parts (Builder.ensure_optbarriers (preAnchorState s di))
  have hq := finishFrom_eq s di
  have hw := finish_wrap_parts
    (Builder.build_input_unknown_pairs
      (Builder.ensure_optbarriers (preAnchorState s di)))
    (Builder.count_jacobian_entries
      (Builder.build_input_unknown_pairs
        (Builder.ensure_optbarriers (preAnchorState s di)))).1
    (Builder.count_jacobian_entries
      (Builder.build_input_unknown_pairs
        (Builder.ensure_optbarriers (preAnchorState s di)))).2
  refine ⟨?_, ?_, ?_, ?_, ?_⟩
  · rw [hq]
    exact hw.1.trans hp.1
  · rw [hq]
    exact hw.2.1.trans hp.2.1
  · rw [hq]
    exact hw.2.2.1.trans hp.2.2.1
  · rw [hq]
    exact hw.2.2.2.1.trans hp.2.2.2.1
  · rw [hq]
    exact hw.2.2.2.2.trans hp.2.2.2.2

theorem Anchored.congr {t u : State} (hf : u.func = t.func)
    (ho : u.output_values = t.output_values) {v : Nat}
    (h : Anchored t v) : Anchored u v := by
  unfold Anchored BarrierAt at h ⊢
  rw [hf, ho]
  exact h

theorem RowAnchored.congr_all {t u : State} (hf : u.func = t.func)
    (ho : u.output_values = t.output_values) {r : Residual}
    (h : RowAnchored t r) : RowAnchored u r :=
  ⟨h.1.congr hf ho, h.2.1.congr hf ho, h.2.2.1.congr hf ho,
   h.2.2.2.1.congr hf ho, h.2.2.2.2.1.congr hf ho, h.2.2.2.2.2.congr hf ho⟩

/-- Processing a Kirchhoff row whose `resist` and `react` are non-zero,
non-barrier, already-allocated values: both fields become fresh optbarrier
slots wrapping `fmul mfactor original`. -/
theorem eob_residual_kirchhoff_struct (m L : Nat) (t : State) (i : Nat)
    (r : Residual)
    (hr : t.residual.get? i = some r)
    (hk : Builder.isKirchoff t.unknowns i = true)
    (hrz : r.resist ≠ F_ZERO) (hxz : r.react ≠ F_ZERO)
    (hrb : isBarrier (t.func.defs.get? r.resist) = false)
    (hxb : isBarrier (t.func.defs.get? r.react) = false)
    (hrlt : r.resist < L) (hxlt : r.react < L)
    (hss : r.resist_small_signal < L) (hrlr : r.resist_lim_rhs < L)
    (hxlr : r.react_lim_rhs < L)
    (hLle : L ≤ t.func.defs.length) :
    ∃ r2 wr wx,
      (Builder.eob_residual m t i).residual.get? i = some r2 ∧
      L ≤ r2.resist ∧
      r2.resist < (Builder.eob_residual m t i).func.defs.length ∧
      L ≤ wr ∧ wr < (Builder.eob_residual m t i).func.defs.length ∧
      L ≤ r2.react ∧
      r2.react < (Builder.eob_residual m t i).func.defs.length ∧
      L ≤ wx ∧ wx < (Builder.eob_residual m t i).func.defs.length ∧
      (Builder.eob_residual m t i).func.defs.get? r2.resist =
        some (.optbarrier wr) ∧
      (Builder.eob_residual m t i).func.defs.get? wr =
        some (.fmul m r.resist) ∧
      (Builder.eob_residual m t i).func.defs.get? r2.react =
        some (.optbarrier wx) ∧
      (Builder.eob_residual m t i).func.defs.get? wx =
        some (.fmul m r.react) := by
  obtain ⟨rr, rx, rss, xss, rlr, xlr⟩ := r
  try dsimp only at hrz
  try dsimp only at hxz
  try dsimp only at hrb
  try dsimp only at hxb
  try dsimp only at hrlt
  try dsimp only at hxlt
  try dsimp only at hss
  try dsimp only at hrlr
  try dsimp only at hxlr
  unfold Builder.eob_residual
  rw [hr]
  dsimp only
  rw [hk]
  rcases h1 : Builder.eob t m true rr with ⟨s1, w1⟩
  have q1 := eob_master t m true rr
  have p1 := eob_proj t m true rr
  have f1 := eob_fresh_kirchhoff t m hrz hrb (Nat.lt_of_lt_of_le hrlt hLle)
  rw [h1] at q1 p1 f1
  try dsimp only at q1
  try dsimp only at p1
  try dsimp only at f1
  dsimp only
  obtain ⟨dx, hdx⟩ : ∃ d, t.func.defs.get? rx = some d := by
    cases hdx : t.func.defs.get? rx with
    | none =>
      have := List.get?_eq_none.mp hdx
      omega
    | some d => exact ⟨d, rfl⟩
  rw [hdx] at hxb
  have hxb1 : isBarrier (s1.func.defs.get? rx) = false := by
    rw [q1.2.2.1 rx dx hdx hxb]
    exact hxb
  have hxlt1 : rx < s1.func.defs.length := by
    rw [f1.2.2.2]
    omega
  rcases h2 : Builder.eob s1 m true rx with ⟨s2, w2⟩
  have q2 := eob_master s1 m true rx
  have p2 := eob_proj s1 m true rx
  have f2 := eob_fresh_kirchhoff s1 m hxz hxb1 hxlt1
  have e2 : EobSafe t.func.defs.length s1 s2 := by
    have h := eob_safe s1 m true
      (Or.inl (Nat.lt_of_lt_of_le hxlt hLle) :
        rx < t.func.defs.length ∨ rx = F_ZERO)
    rw [h2] at h
    exact h
  rw [h2] at q2 p2 f2
  try dsimp only at q2
  try dsimp only at p2
  try dsimp only at f2
  dsimp only
  rcases h3 : Builder.eob s2 m true rss with ⟨s3, w3⟩
  have p3 := eob_proj s2 m true rss
  have e3 : EobSafe t.func.defs.length s2 s3 := by
    have h := eob_safe s2 m true
      (Or.inl (Nat.lt_of_lt_of_le hss hLle) :
        rss < t.func.defs.length ∨ rss = F_ZERO)
    rw [h3] at h
    exact h
  rw [h3] at p3
  try dsimp only at p3
  dsimp only
  rcases h4 : Builder.eob s3 m true F_ZERO with ⟨s4, w4⟩
  have p4 := eob_proj s3 m true F_ZERO
  have e4 : EobSafe t.func.defs.length s3 s4 := by
    have h := eob_safe s3 m true
      (Or.inr rfl : F_ZERO < t.func.defs.length ∨ F_ZERO = F_ZERO)
    rw [h4] at h
    exact h
  rw [h4] at p4
  try dsimp only at p4
  dsimp only
  rcases h5 : Builder.eob s4 m true rlr with ⟨s5, w5⟩
  have p5 := eob_proj s4 m true rlr
  have e5 : EobSafe t.func.defs.length s4 s5 := by
    have h := eob_safe s4 m true
      (Or.inl (Nat.lt_of_lt_of_le hrlr hLle) :
        rlr < t.func.defs.length ∨ rlr = F_ZERO)
    rw [h5] at h
    exact h
  rw [h5] at p5
  try dsimp only at p5
  dsimp only
  rcases h6 : Builder.eob s5 m true xlr with ⟨s6, w6⟩
  have p6 := eob_proj s5 m true xlr
  have e6 : EobSafe t.func.defs.length s5 s6 := by
    have h := eob_safe s5 m true
      (Or.inl (Nat.lt_of_lt_of_le hxlr hLle) :
        xlr < t.func.defs.length ∨ xlr = F_ZERO)
    rw [h6] at h
    exact h
  rw [h6] at p6
  try dsimp only at p6
  dsimp only
  have hres6 : s6.residual = t.residual := by
    rw [p6.2.2.2.1, p5.2.2.2.1, p4.2.2.2.1, p3.2.2.2.1, p2.2.2.2.1,
      p1.2.2.2.1]
  have e26 : EobSafe t.func.defs.length s2 s6 :=
    e3.chain (e4.chain (e5.chain e6))
  have hw1 : w1 = t.func.defs.length := f1.1
  have hs1len : s1.func.defs.length = t.func.defs.length + 2 := f1.2.2.2
  have hw2 : w2 = t.func.defs.length + 2 := by
    rw [f2.1, hs1len]
  have hs2len : s2.func.defs.length = t.func.defs.length + 4 := by
    rw [f2.2.2.2, hs1len]
  have hlen26 : s2.func.defs.length ≤ s6.func.defs.length := e26.1
  have g1 : s6.func.defs.get? (t.func.defs.length) =
      some (.optbarrier (t.func.defs.length + 1)) := by
    rw [e26.2.1 _ (Nat.le_refl _) (by omega),
      e2.2.1 _ (Nat.le_refl _) (by omega)]
    exact f1.2.1
  have g2 : s6.func.defs.get? (t.func.defs.length + 1) =
      some (.fmul m rr) := by
    rw [e26.2.1 _ (by omega) (by omega), e2.2.1 _ (by omega) (by omega)]
    exact f1.2.2.1
  have g3 : s6.func.defs.get? (t.func.defs.length + 2) =
      some (.optbarrier (t.func.defs.length + 3)) := by
    rw [e26.2.1 _ (by omega) (by omega)]
    have := f2.2.1
    rw [hs1len] at this
    exact this
  have g4 : s6.func.defs.get? (t.func.defs.length + 3) =
      some (.fmul m rx) := by
    rw [e26.2.1 _ (by omega) (by omega)]
    have := f2.2.2.1
    rw [hs1len] at this
    exact this
  refine ⟨⟨w1, w2, w3, w4, w5, w6⟩, t.func.defs.length + 1,
    t.func.defs.length + 3, ?_, ?_, ?_, ?_, ?_, ?_, ?_, ?_, ?_, ?_, ?_,
    ?_, ?_⟩
  · show (s6.residual.set i _).get? i = _
    refine List.get?_set_eq_of_lt _ ?_
    rw [hres6]
    exact get?_some_lt hr
  · show L ≤ w1
    omega
  · show w1 < s6.func.defs.length
    omega
  · omega
  · show t.func.defs.length + 1 < s6.func.defs.length
    omega
  · show L ≤ w2
    omega
  · show w2 < s6.func.defs.length
    omega
  · omega
  · show t.func.defs.length + 3 < s6.func.defs.length
    omega
  · show s6.func.defs.get? w1 = _
    rw [hw1]
    exact g1
  · show s6.func.defs.get? (t.func.defs.length + 1) = _
    exact g2
  · show s6.func.defs.get? w2 = _
    rw [hw2]
    exact g3
  · show s6.func.defs.get? (t.func.defs.length + 3) = _
    exact g4

/-- After `ensure_optbarriers`, every residual, noise and Jacobian value is
anchored: `F_ZERO`, or optbarrier-defined and recorded in `output_values`. -/
theorem ensure_optbarriers_anchors (s0 : State) :
    (∀ j r, (Builder.ensure_optbarriers s0).residual.get? j = some r →
      RowAnchored (Builder.ensure_optbarriers s0) r) ∧
    (∀ j n, (Builder.ensure_optbarriers s0).noise_sources.get? j = some n →
      Anchored (Builder.ensure_optbarriers s0) n.factor) ∧
    (∀ j e, (Builder.ensure_optbarriers s0).jacobian.get? j = some e →
      Anchored (Builder.ensure_optbarriers s0) e.resist ∧
      Anchored (Builder.ensure_optbarriers s0) e.react) := by
  unfold Builder.ensure_optbarriers
  rcases hp : Builder.ensure_param s0 (.paramSysFun .mfactor) with ⟨M1, mf⟩
  dsimp only
  set A := (List.range M1.residual.length).foldl (Builder.eob_residual mf) M1
    with hA
  have hAf : StateMono M1 A ∧
      ∀ j r, A.residual.get? j = some r → RowAnchored A r := by
    rw [hA]
    exact resid_fold_anchors mf (List.range M1.residual.length) M1
      (fun j r hj => Or.inl (List.mem_range.mpr (get?_some_lt hj)))
  set B := (Builder.eob A mf false mf).1 with hB
  have hABm : StateMono A B := by
    rw [hB]
    exact (eob_master A mf false mf).2.1
  have hBres : B.residual = A.residual := by
    rw [hB]
    exact (eob_proj A mf false mf).2.2.2.1
  set C := (List.range B.noise_sources.length).foldl (Builder.eob_noise mf) B
    with hC
  have hCf : StateMono B C ∧
      (∀ j n, C.noise_sources.get? j = some n → Anchored C n.factor) ∧
      C.residual = B.residual := by
    rw [hC]
    exact noise_fold_anchors mf (List.range B.noise_sources.length) B
      (fun j n hj => Or.inl (List.mem_range.mpr (get?_some_lt hj)))
  set Dj := (List.range C.jacobian.length).foldl (Builder.eob_entry mf) C
    with hD
  have hDf : StateMono C Dj ∧
      (∀ j e, Dj.jacobian.get? j = some e →
        Anchored Dj e.resist ∧ Anchored Dj e.react) ∧
      Dj.residual = C.residual ∧ Dj.noise_sources = C.noise_sources := by
    rw [hD]
    exact jac_fold_anchors mf (List.range C.jacobian.length) C
      (fun j e hj => Or.inl (List.mem_range.mpr (get?_some_lt hj)))
  have monoAD : StateMono A Dj := hABm.comp (hCf.1.comp hDf.1)
  refine ⟨?_, ?_, ?_⟩
  · intro j r hj
    rw [hDf.2.2.1, hCf.2.2, hBres] at hj
    exact (hAf.2 j r hj).mono_all monoAD
  · intro j n hj
    rw [hDf.2.2.2] at hj
    exact (hCf.2.1 j n hj).mono hDf.1
  · intro j e hj
    exact hDf.2.1 j e hj

/-- After `ensure_optbarriers`, a Kirchhoff row with non-zero, non-barrier,
already-allocated `resist`/`react` values carries fresh optbarrier wrappers
whose contents are `fmul mfactor original`. -/
theorem ensure_optbarriers_kirchhoff (M M1 : State) (mf i : Nat)
    (r : Residual)
    (hE : Builder.ensure_param M (.paramSysFun .mfactor) = (M1, mf))
    (hmf : mf < M1.func.defs.length)
    (hres : resBoundsCheck M1 = true)
    (hnoi : noiseBoundsCheck M1 = true)
    (hjac : jacBoundsCheck M1 = true)
    (hrow : M1.residual.get? i = some r)
    (hk : Builder.isKirchoff M1.unknowns i = true)
    (hrz : r.resist ≠ F_ZERO) (hxz : r.react ≠ F_ZERO)
    (hrb : isBarrier (M1.func.defs.get? r.resist) = false)
    (hxb : isBarrier (M1.func.defs.get? r.react) = false) :
    ∃ r2 wr wx,
      (Builder.ensure_optbarriers M).residual.get? i = some r2 ∧
      (Builder.ensure_optbarriers M).func.defs.get? r2.resist =
        some (.optbarrier wr) ∧
      (Builder.ensure_optbarriers M).func.defs.get? wr =
        some (.fmul mf r.resist) ∧
      (Builder.ensure_optbarriers M).func.defs.get? r2.react =
        some (.optbarrier wx) ∧
      (Builder.ensure_optbarriers M).func.defs.get? wx =
        some (.fmul mf r.react) := by
  unfold Builder.ensure_optbarriers
  rw [hE]
  dsimp only
  have hspec := resBoundsCheck_spec hres
  have hi : i < M1.residual.length := get?_some_lt hrow
  obtain ⟨D, hdec, hDnd, hiD, hDmem⟩ := range_split M1.residual.length i hi
  rw [hdec, List.foldl_append, List.foldl_cons]
  set P := (List.range i).foldl (Builder.eob_residual mf) M1 with hP
  have epre : EobSafe M1.func.defs.length M1 P ∧
      (∀ j, j ∉ List.range i →
        P.residual.get? j = M1.residual.get? j) := by
    rw [hP]
    exact resid_fold_safe mf M1.func.defs.length (List.range i) M1
      (List.nodup_range i) (fun j _ r2 h2 => hspec j r2 h2)
  have hProw : P.residual.get? i = some r := by
    rw [epre.2 i (fun hm => absurd (List.mem_range.mp hm) (Nat.lt_irrefl i))]
    exact hrow
  have hPk : Builder.isKirchoff P.unknowns i = true := by
    have hPunk : P.unknowns = M1.unknowns := by
      rw [hP]
      exact resid_fold_unknowns mf _ M1
    rw [hPunk]
    exact hk
  have hb := hspec i r hrow
  obtain ⟨dr, hdr⟩ : ∃ d, M1.func.defs.get? r.resist = some d := by
    cases hdd : M1.func.defs.get? r.resist with
    | none =>
      have := List.get?_eq_none.mp hdd
      have := hb.1
      omega
    | some d => exact ⟨d, rfl⟩
  obtain ⟨dx, hdx⟩ : ∃ d, M1.func.defs.get? r.react = some d := by
    cases hdd : M1.func.defs.get? r.react with
    | none =>
      have := List.get?_eq_none.mp hdd
      have := hb.2.1
      omega
    | some d => exact ⟨d, rfl⟩
  rw [hdr] at hrb
  rw [hdx] at hxb
  have hPrb : isBarrier (P.func.defs.get? r.resist) = false := by
    rw [epre.1.2.2 r.resist dr hdr hrb]
    exact hrb
  have hPxb : isBarrier (P.func.defs.get? r.react) = false := by
    rw [epre.1.2.2 r.react dx hdx hxb]
    exact hxb
  have hT := eob_residual_kirchhoff_struct mf M1.func.defs.length P i r
    hProw hPk hrz hxz hPrb hPxb hb.1 hb.2.1 hb.2.2.1 hb.2.2.2.1 hb.2.2.2.2
    epre.1.1
  set T := Builder.eob_residual mf P i with hTd
  obtain ⟨r2, wr, wx, hTrow, hTb1, hTb2, hTb3, hTb4, hTb5, hTb6, hTb7,
    hTb8, hTg1, hTg2, hTg3, hTg4⟩ := hT
  set Q := D.foldl (Builder.eob_residual mf) T with hQ
  have hpost : EobSafe M1.func.defs.length T Q ∧
      (∀ j, j ∉ D → Q.residual.get? j = T.residual.get? j) := by
    rw [hQ]
    refine resid_fold_safe mf M1.func.defs.length D T hDnd ?_
    intro j hj r3 h3
    have hij := (hDmem j hj).1
    have hjne : j ≠ i := by omega
    rw [hTd] at h3
    rw [(eob_residual_master mf P i).2.1 j hjne] at h3
    rw [epre.2 j (fun hm => by
      have := List.mem_range.mp hm
      omega)] at h3
    exact hspec j r3 h3
  have hQrow : Q.residual.get? i = some r2 := by
    rw [hpost.2 i hiD]
    exact hTrow
  set B := (Builder.eob Q mf false mf).1 with hB
  have eB : EobSafe M1.func.defs.length Q B := by
    rw [hB]
    exact eob_safe Q mf false (Or.inl hmf)
  have hBres : B.residual = Q.residual := by
    rw [hB]
    exact (eob_proj Q mf false mf).2.2.2.1
  have hPnoise : P.noise_sources = M1.noise_sources := by
    rw [hP]
    exact resid_fold_noise mf _ M1
  have hTnoise : T.noise_sources = P.noise_sources := by
    rw [hTd]
    exact (eob_residual_master mf P i).2.2.2.2
  have hQnoise : Q.noise_sources = T.noise_sources := by
    rw [hQ]
    exact resid_fold_noise mf D T
  have hBnoise : B.noise_sources = M1.noise_sources := by
    rw [hB, (eob_proj Q mf false mf).2.2.2.2.2.1, hQnoise, hTnoise, hPnoise]
  set C := (List.range B.noise_sources.length).foldl (Builder.eob_noise mf) B
    with hC
  have eC : EobSafe M1.func.defs.length B C ∧ C.residual = B.residual := by
    rw [hC]
    refine noise_fold_safe mf M1.func.defs.length
      (List.range B.noise_sources.length) B
      (List.nodup_range _) ?_
    intro j _ n hn
    rw [hBnoise] at hn
    exact noiseBoundsCheck_spec hnoi j n hn
  have hPjac : P.jacobian = M1.jacobian := by
    rw [hP]
    exact resid_fold_jac mf _ M1
  have hTjac : T.jacobian = P.jacobian := by
    rw [hTd]
    exact (eob_residual_proj mf P i).2.2.2.1
  have hQjac : Q.jacobian = T.jacobian := by
    rw [hQ]
    exact resid_fold_jac mf D T
  have hCjac : C.jacobian = M1.jacobian := by
    have hBjac : B.jacobian = Q.jacobian := by
      rw [hB]
      exact (eob_proj Q mf false mf).2.2.2.2.1
    have hCB : C.jacobian = B.jacobian := by
      rw [hC]
      exact foldl_proj (fun b a => (eob_noise_proj mf b a).2.2.2.1) _ B
    rw [hCB, hBjac, hQjac, hTjac, hPjac]
  set Dj := (List.range C.jacobian.length).foldl (Builder.eob_entry mf) C
    with hDj
  have eD : EobSafe M1.func.defs.length C Dj ∧ Dj.residual = C.residual := by
    rw [hDj]
    refine jac_fold_safe mf M1.func.defs.length
      (List.range C.jacobian.length) C (List.nodup_range _) ?_
    intro j _ e he
    rw [hCjac] at he
    exact jacBoundsCheck_spec hjac j e he
  have eAll : EobSafe M1.func.defs.length T Dj :=
    hpost.1.chain (eB.chain (eC.1.chain eD.1))
  refine ⟨r2, wr, wx, ?_, ?_, ?_, ?_, ?_⟩
  · rw [eD.2, eC.2, hBres, hQrow]
  · rw [eAll.2.1 r2.resist hTb1 hTb2]
    exact hTg1
  · rw [eAll.2.1 wr hTb3 hTb4]
    exact hTg2
  · rw [eAll.2.1 r2.react hTb5 hTb6]
    exact hTg3
  · rw [eAll.2.1 wx hTb7 hTb8]
    exact hTg4

/-! ### Claim theorems -/

/-- **C1** (code bug). The claim states that after `finish` both
`resist_small_signal` and `react_small_signal` of every residual equal
`F_ZERO`. The source (builder.rs:733-734) assigns `react_small_signal = F_ZERO`
twice and never clears `resist_small_signal`, contradicting its own comment
("we purpusfully ignore small signal values here since they never contribute
the residual"). On the concrete failing input, after `finish` the
`react_small_signal` field is `F_ZERO` but `resist_small_signal` is not. -/
theorem c1_resist_small_signal_survives_finish :
    ∀ r ∈ (Builder.finishFrom c1State noDerivs).residual,
      r.react_small_signal = F_ZERO ∧ r.resist_small_signal ≠ F_ZERO := by
  decide

/-- C1 witness: the single residual row of the failing input, with its
surviving non-zero `resist_small_signal` value. -/
theorem c1_resist_small_signal_survives_finish_witness :
    ({ resist := F_ZERO, react := F_ZERO, resist_small_signal := 6,
       react_small_signal := F_ZERO, resist_lim_rhs := F_ZERO,
       react_lim_rhs := F_ZERO } : Residual) ∈
      (Builder.finishFrom c1State noDerivs).residual ∧
    (({ resist := F_ZERO, react := F_ZERO, resist_small_signal := 6,
        react_small_signal := F_ZERO, resist_lim_rhs := F_ZERO,
        react_lim_rhs := F_ZERO } : Residual).react_small_signal = F_ZERO ∧
     ({ resist := F_ZERO, react := F_ZERO, resist_small_signal := 6,
        react_small_signal := F_ZERO, resist_lim_rhs := F_ZERO,
        react_lim_rhs := F_ZERO } : Residual).resist_small_signal ≠
       F_ZERO) :=
  ⟨by decide, c1_resist_small_signal_survives_finish _ (by decide)⟩

/-- **C8** (counterexample). The claim states that no input's derivative with
respect to any unknown takes a value other than zero and one; but the voltage
probe `V(0,1)` differentiated with respect to the potential of its `lo` node 1
yields the constant `−1` (inputs.rs:217-219). -/
theorem c8_voltage_lo_derivative_is_minus_one :
    Voltage.derivative ⟨0, 1⟩ (.nodePotential 1) = .const (-1) ∧
    Voltage.derivative ⟨0, 1⟩ (.nodePotential 1) ≠ .zero ∧
    Voltage.derivative ⟨0, 1⟩ (.nodePotential 1) ≠ .one := by
  refine ⟨rfl, ?_, ?_⟩ <;> intro h <;> simp [Voltage.derivative] at h

/-- **C8** (amended). Input derivatives take only the values zero, one and
`−1`: a voltage input differentiates to one against its own `hi` node
potential or its own branch potential, to `−1` against its `lo` node
potential (when the `hi` arm did not match) or the reversed branch potential,
and to zero otherwise; a current probe differentiates to one exactly against
its own branch flow; parameters, temperature, sim-params and partial time
derivatives differentiate to zero or one only. -/
theorem c8_input_derivative_characterization (hi lo b x y n p : Nat)
    (pi : ParameterInput) (u : Unknown) :
    (Voltage.derivative ⟨hi, lo⟩ u = .one ∨
     Voltage.derivative ⟨hi, lo⟩ u = .zero ∨
     Voltage.derivative ⟨hi, lo⟩ u = .const (-1)) ∧
    (Voltage.derivative ⟨hi, lo⟩ (.nodePotential n) = .one ↔ hi = n) ∧
    (Voltage.derivative ⟨hi, lo⟩ (.nodePotential n) = .const (-1) ↔
      (¬hi = n ∧ lo = n)) ∧
    (Voltage.derivative ⟨hi, lo⟩ (.branchPotential x y) = .one ↔
      (hi = x ∧ lo = y)) ∧
    (Voltage.derivative ⟨hi, lo⟩ (.branchPotential x y) = .const (-1) ↔
      (¬(hi = x ∧ lo = y) ∧ lo = x ∧ hi = y)) ∧
    (Voltage.derivative ⟨hi, lo⟩ (.parameter p) = .zero) ∧
    (Voltage.derivative ⟨hi, lo⟩ (.flow b) = .zero) ∧
    (Voltage.derivative ⟨hi, lo⟩ .temperature = .zero) ∧
    (CurrentProbe.derivative ⟨b⟩ u = if u = .flow b then .one else .zero) ∧
    (Temperature.derivative u = .one ∨ Temperature.derivative u = .zero) ∧
    (SimParam.derivative u = .zero) ∧
    (PartialTimeDerivative.derivative u = .zero) ∧
    (ParameterInput.derivative pi u = .one ∨
     ParameterInput.derivative pi u = .zero) := by
  refine ⟨?_, ?_, ?_, ?_, ?_, rfl, rfl, rfl, ?_, ?_, rfl, rfl, ?_⟩
  · cases u with
    | nodePotential m =>
      simp only [Voltage.derivative]
      split_ifs <;> simp
    | branchPotential a c =>
      simp only [Voltage.derivative]
      split_ifs <;> simp
    | parameter q => simp [Voltage.derivative]
    | flow q => simp [Voltage.derivative]
    | temperature => simp [Voltage.derivative]
  · simp only [Voltage.derivative]
    split_ifs with h1 h2 <;> simp_all
  · simp only [Voltage.derivative]
    split_ifs with h1 h2 <;> simp_all
  · simp only [Voltage.derivative]
    split_ifs with h1 h2 <;> simp_all
  · simp only [Voltage.derivative]
    split_ifs with h1 h2 <;> simp_all
  · cases u with
    | flow q =>
      by_cases h : q = b
      · subst h
        simp [CurrentProbe.derivative]
      · simp [CurrentProbe.derivative, h]
    | parameter q => simp [CurrentProbe.derivative]
    | nodePotential m => simp [CurrentProbe.derivative]
    | branchPotential a c => simp [CurrentProbe.derivative]
    | temperature => simp [CurrentProbe.derivative]
  · unfold Temperature.derivative
    split_ifs <;> simp
  · cases pi with
    | value q =>
      cases u with
      | parameter m =>
        simp only [ParameterInput.derivative]
        split_ifs <;> simp
      | nodePotential m => right; rfl
      | branchPotential a c => right; rfl
      | flow m => right; rfl
      | temperature => right; rfl
    | given q =>
      cases u with
      | parameter m => right; rfl
      | nodePotential m => right; rfl
      | branchPotential a c => right; rfl
      | flow m => right; rfl
      | temperature => right; rfl

/-- **C9** (counterexample). The claim states that no `ConstSimparam`
diagnostic is produced when the first argument is a whitelisted string; but
the validator (body.rs:490) pushes the diagnostic unconditionally in constant
context — for the whitelisted name `"minr"` it pushes `ConstSimparam` with
`known = true` rather than nothing. -/
theorem c9_whitelisted_simparam_still_diagnosed :
    validate_simparam .const .simparam (.strLiteral "minr") = [⟨true⟩] ∧
    validate_simparam .const .simparam (.strLiteral "minr") ≠ [] := by
  refine ⟨by decide, by decide⟩

/-- **C9** (amended). In a constant body context every `$simparam` /
`$simparam_str` call produces exactly one `ConstSimparam` diagnostic whose
`known` flag is true iff the first argument is a string literal in the
whitelisted set for that builtin; outside constant context no `ConstSimparam`
diagnostic is produced. (Whether a `known` diagnostic is rendered as an error
or a lint is decided by the diagnostic layer, outside the validator.) -/
theorem c9_const_simparam_characterization (ctx : BodyCtx)
    (func : SimparamFun) (arg0 : VExpr) :
    (ctx ≠ .const → validate_simparam ctx func arg0 = []) ∧
    (ctx = .const → ∃ known, validate_simparam ctx func arg0 = [⟨known⟩] ∧
      (known = true ↔ ∃ name, arg0 = .strLiteral name ∧
        name ∈ (match func with
                | .simparam => simparam_real_whitelist
                | .simparam_str => simparam_str_whitelist))) := by
  constructor
  · intro h
    unfold validate_simparam
    rw [if_neg h]
  · intro h
    subst h
    unfold validate_simparam
    rw [if_pos rfl]
    cases arg0 with
    | strLiteral name =>
      cases func with
      | simparam =>
        refine ⟨_, rfl, ?_⟩
        simp only [decide_eq_true_eq]
        constructor
        · intro hmem; exact ⟨name, rfl, hmem⟩
        · rintro ⟨n, he, hmem⟩
          injection he with e
          subst e
          exact hmem
      | simparam_str =>
        refine ⟨_, rfl, ?_⟩
        simp only [decide_eq_true_eq]
        constructor
        · intro hmem; exact ⟨name, rfl, hmem⟩
        · rintro ⟨n, he, hmem⟩
          injection he with e
          subst e
          exact hmem
    | otherExpr =>
      refine ⟨false, rfl, ?_⟩
      simp

/-- **C9** witness: the amended characterization applied at the concrete
whitelisted input. -/
theorem c9_const_simparam_characterization_witness :
    validate_simparam .const .simparam (.strLiteral "minr") = [⟨true⟩] := by
  obtain ⟨known, heq, hiff⟩ :=
    (c9_const_simparam_characterization .const .simparam
      (.strLiteral "minr")).2 rfl
  have hk : known = true := hiff.mpr ⟨"minr", rfl, by decide⟩
  rw [hk] at heq
  exact heq

/-- **C10**. After `finish`, `model_inputs` contains an entry only for: a
live two-ended voltage probe with both Kirchhoff unknowns present (the pair
of their indices), a live non-port current probe whose `Current` sim-unknown
exists (single-ended), and a live implicit unknown (single-ended); a
single-ended voltage probe and a port-flow current probe never produce an
entry. -/
theorem c10_model_inputs_characterization (s : State)
    (di : Builder.DerivInfo) (hlen : s.unknowns.length < Builder.u32MAX) :
    (Builder.finishFrom s di).unknowns = s.unknowns ∧
    ((∀ pr ∈ (Builder.finishFrom s di).model_inputs,
      (∃ v hi lo ih il,
        (ParamKind.voltage hi (some lo), v) ∈
            Builder.live_params (Builder.finishFrom s di) ∧
        uindex (Builder.finishFrom s di).unknowns (.kirchoffLaw hi) = some ih ∧
        uindex (Builder.finishFrom s di).unknowns (.kirchoffLaw lo) = some il ∧
        pr = (ih, il)) ∨
      (∃ v ck u,
        (ParamKind.current ck, v) ∈
            Builder.live_params (Builder.finishFrom s di) ∧
        (∀ m, ck ≠ .port m) ∧
        uindex (Builder.finishFrom s di).unknowns (.current ck) = some u ∧
        pr = (u, Builder.u32MAX)) ∨
      (∃ v eq u,
        (ParamKind.implicitUnknown eq, v) ∈
            Builder.live_params (Builder.finishFrom s di) ∧
        uindex (Builder.finishFrom s di).unknowns (.implicit eq) = some u ∧
        pr = (u, Builder.u32MAX))) ∧
    (∀ us hi, Builder.input_pair us (ParamKind.voltage hi none) = none) ∧
    (∀ us m, Builder.input_pair us (ParamKind.current (.port m)) = none)) := by
  have hu := (finishFrom_unknowns s di).1
  refine ⟨hu, ?_, ?_, ?_⟩
  · intro pr hpr
    rw [finish_model_inputs] at hpr
    obtain ⟨kv, hkv, hip⟩ := List.mem_filterMap.mp hpr
    obtain ⟨k, v⟩ := kv
    have hlen' : (Builder.finishFrom s di).unknowns.length < Builder.u32MAX := by
      rw [hu]; exact hlen
    cases k with
    | voltage hi lo =>
      cases lo with
      | none => simp [Builder.input_pair] at hip
      | some lo =>
        left
        simp only [Builder.input_pair] at hip
        cases hih : uindex (Builder.finishFrom s di).unknowns
            (.kirchoffLaw hi) with
        | none =>
          rw [hih] at hip
          simp at hip
        | some ih =>
          rw [hih] at hip
          cases hil : uindex (Builder.finishFrom s di).unknowns
              (.kirchoffLaw lo) with
          | none =>
            rw [hil] at hip
            simp at hip
          | some il =>
            rw [hil] at hip
            have hihM : ih ≠ Builder.u32MAX := by
              have := uindex_lt_length hih
              omega
            have hilM : il ≠ Builder.u32MAX := by
              have := uindex_lt_length hil
              omega
            rw [Option.getD_some, Option.getD_some, if_pos ⟨hihM, hilM⟩] at hip
            cases hip
            exact ⟨v, hi, lo, ih, il, hkv, hih, hil, rfl⟩
    | current ck =>
      right; left
      cases ck with
      | port m => simp [Builder.input_pair] at hip
      | branch b =>
        simp only [Builder.input_pair] at hip
        cases hcu : uindex (Builder.finishFrom s di).unknowns
            (.current (.branch b)) with
        | none => rw [hcu] at hip; cases hip
        | some u =>
          rw [hcu] at hip
          cases hip
          exact ⟨v, .branch b, u, hkv, fun m h => CurrentKind.noConfusion h, hcu, rfl⟩
      | unnamed nhi nlo =>
        simp only [Builder.input_pair] at hip
        cases hcu : uindex (Builder.finishFrom s di).unknowns
            (.current (.unnamed nhi nlo)) with
        | none => rw [hcu] at hip; cases hip
        | some u =>
          rw [hcu] at hip
          cases hip
          exact ⟨v, .unnamed nhi nlo, u, hkv, fun m h => CurrentKind.noConfusion h, hcu, rfl⟩
    | implicitUnknown eq =>
      right; right
      simp only [Builder.input_pair] at hip
      cases hcu : uindex (Builder.finishFrom s di).unknowns
          (.implicit eq) with
      | none => rw [hcu] at hip; cases hip
      | some u =>
        rw [hcu] at hip
        cases hip
        exact ⟨v, eq, u, hkv, hcu, rfl⟩
    | param p => cases hip
    | paramGiven p => cases hip
    | paramSysFun f => cases hip
    | portConnected p => cases hip
    | hiddenState w => cases hip
    | newState st => cases hip
  · intro us hi
    simp [Builder.input_pair]
  · intro us m
    rfl

/-- **C10** witness: the characterization applied to the concrete two-node
state with one live two-ended voltage probe. -/
theorem c10_model_inputs_characterization_witness :
    (Builder.finishFrom c10State noDerivs).unknowns = c10State.unknowns :=
  (c10_model_inputs_characterization c10State noDerivs (by decide)).1

/-- **C6**. In the finished Jacobian every `MatrixEntry` has at least one of
`{resist, react}` different from `F_ZERO`, and the recorded counts
`num_resistive` / `num_reactive` equal the number of matrix entries whose
`resist` (resp. `react`) value differs from `F_ZERO`. -/
theorem c6_jacobian_sparsity_and_counts (s : State) (di : Builder.DerivInfo)
    (hc : HasConsts s.func) :
    (∀ e ∈ (Builder.finishFrom s di).jacobian,
      e.resist ≠ F_ZERO ∨ e.react ≠ F_ZERO) ∧
    (Builder.finishFrom s di).num_resistive =
      (Builder.finishFrom s di).jacobian.countP
        (fun e => decide (e.resist ≠ F_ZERO)) ∧
    (Builder.finishFrom s di).num_reactive =
      (Builder.finishFrom s di).jacobian.countP
        (fun e => decide (e.react ≠ F_ZERO)) := by
  refine ⟨?_, ?_, ?_⟩
  · have e1 := build_jacobian_entries s (Builder.sim_unknown_reads s) di
    have c1 : HasConsts (Builder.build_jacobian s
        (Builder.sim_unknown_reads s) di).func :=
      (build_jacobian_func s (Builder.sim_unknown_reads s) di).hasConsts hc
    have c2 : HasConsts (Builder.build_lim_rhs (Builder.build_jacobian s
        (Builder.sim_unknown_reads s) di) di).func :=
      (build_lim_rhs_func _ di).hasConsts c1
    have j2 := (build_lim_rhs_proj (Builder.build_jacobian s
        (Builder.sim_unknown_reads s) di) di).2.2.1
    have hok : JacOK (Builder.build_lim_rhs (Builder.build_jacobian s
        (Builder.sim_unknown_reads s) di) di) := by
      refine ⟨c2, ?_⟩
      rw [j2]
      exact e1
    have hok3 := ensure_optbarriers_JacOK _ hok
    intro e he
    rw [finishFrom_jacobian] at he
    have := hok3.2 e he
    by_contra hcon
    push_neg at hcon
    exact this ⟨hcon.1, hcon.2⟩
  · unfold Builder.finishFrom Builder.count_jacobian_entries
    dsimp only
  · unfold Builder.finishFrom Builder.count_jacobian_entries
    dsimp only

/-- **C6** witness: the sparsity-and-counts theorem applied at the concrete
two-node state. -/
theorem c6_jacobian_sparsity_and_counts_witness :
    (Builder.finishFrom c10State noDerivs).num_resistive =
      (Builder.finishFrom c10State noDerivs).jacobian.countP
        (fun e => decide (e.resist ≠ F_ZERO)) :=
  (c6_jacobian_sparsity_and_counts c10State noDerivs ⟨rfl, rfl, rfl, rfl⟩).2.1

/-- **C2** (counterexample). The claim states that for every branch with
`is_voltage_src = TRUE` a branch-current unknown is created and a source
equation emitted. For the trivial voltage source of `c2Info` on a branch
whose current is not probed (`c4State` has no live params) the builder skips
the branch entirely (builder.rs:430-440): the state is unchanged and no
`Current` unknown exists. -/
theorem c2_trivial_voltage_branch_skipped :
    c2Info.is_voltage_src = TRUE ∧
    Builder.build_branch c4State c4Branch c2Info = c4State ∧
    SimUnknownKind.current c4Branch.kind ∉
      (Builder.build_branch c4State c4Branch c2Info).unknowns := by
  refine ⟨rfl, rfl, by decide⟩

/-- **C2** (amended). For a branch with `is_voltage_src = TRUE`: when the
branch current is not live and the voltage contribution is trivial, the
builder does nothing; otherwise it appends the branch-current unknown and
emits the source equation — whose resistive residual evaluates to
`voltage_src.value − designator` (the designator being the interned branch
voltage, i.e. the negation of the claim's `v_hi − v_lo − value`) — and
adds the equation value (the branch-current designator) to the `hi` node's
resistive residual and subtracts it from the `lo` node's. -/
theorem c2_voltage_branch_guarded (s : State) (branch : BranchWrite)
    (info : BranchInfo) (env : Env) (lo : Nat) {ih il : Nat}
    {rhi rlo : Residual}
    (hTRUE : info.is_voltage_src = TRUE)
    (hwf : StrictWF s.func) (hc : HasConsts s.func) (hpw : ParamsWF s)
    (hpar : s.residual.length = s.unknowns.length)
    (hdlo : branch.lo = some lo)
    (hhi : uindex s.unknowns (.kirchoffLaw branch.hi) = some ih)
    (hlo : uindex s.unknowns (.kirchoffLaw lo) = some il)
    (hne : il ≠ ih)
    (hri : s.residual.get? ih = some rhi)
    (hrl : s.residual.get? il = some rlo)
    (hcu : uindex s.unknowns (.current branch.kind) = none)
    (bhi : rhi.resist < s.func.defs.length)
    (blo : rlo.resist < s.func.defs.length)
    (v1 : info.voltage_src.resist < s.func.defs.length)
    (v2 : info.voltage_src.react < s.func.defs.length)
    (v3 : info.voltage_src.resist_small_signal < s.func.defs.length)
    (v4 : info.voltage_src.react_small_signal < s.func.defs.length)
    (hvu : info.voltage_src.unknown.getD F_ZERO < s.func.defs.length)
    (hce : info.current_src.unknown.getD F_ZERO < s.func.defs.length)
    (hn : ∀ n ∈ info.voltage_src.noise, n.factor < s.func.defs.length) :
    (s.is_param_live (.current branch.kind) = false ∧
        info.voltage_src.is_trivial = true →
      Builder.build_branch s branch info = s) ∧
    (s.is_param_live (.current branch.kind) = true ∨
        info.voltage_src.is_trivial = false →
      Builder.build_branch s branch info =
        Builder.add_source_equation (Builder.voltage_branch s info).1
          (Builder.voltage_branch s info).2
          (info.current_src.unknown.getD F_ZERO) branch ∧
      (Builder.build_branch s branch info).unknowns =
        s.unknowns ++ [.current branch.kind] ∧
      ∃ rc ri rl,
        (Builder.build_branch s branch info).residual.get?
          s.unknowns.length = some rc ∧
        (Builder.build_branch s branch info).residual.get? ih = some ri ∧
        (Builder.build_branch s branch info).residual.get? il = some rl ∧
        eval (Builder.build_branch s branch info).func env rc.resist =
          eval s.func env info.voltage_src.resist -
            eval s.func env (info.voltage_src.unknown.getD F_ZERO) ∧
        eval (Builder.build_branch s branch info).func env rc.react =
          eval s.func env info.voltage_src.react ∧
        eval (Builder.build_branch s branch info).func env
            rc.resist_small_signal =
          eval s.func env info.voltage_src.resist_small_signal ∧
        eval (Builder.build_branch s branch info).func env
            rc.react_small_signal =
          eval s.func env info.voltage_src.react_small_signal ∧
        eval (Builder.build_branch s branch info).func env ri.resist =
          eval s.func env rhi.resist +
            eval s.func env (info.current_src.unknown.getD F_ZERO) ∧
        eval (Builder.build_branch s branch info).func env rl.resist =
          eval s.func env rlo.resist -
            eval s.func env (info.current_src.unknown.getD F_ZERO)) := by
  have hnotfalse : ¬(info.is_voltage_src = FALSE) := by
    rw [hTRUE]
    decide
  constructor
  · rintro ⟨hlive, htriv⟩
    unfold Builder.build_branch
    rw [if_neg hnotfalse, if_pos hTRUE]
    try dsimp only
    rw [hlive, htriv]
    rfl
  · intro hB
    have hcond : (s.is_param_live (.current branch.kind) ||
        !info.voltage_src.is_trivial) = true := by
      rcases hB with h | h
      · rw [h]
        rfl
      · rw [h]
        simp
    have heq : Builder.build_branch s branch info =
        Builder.add_source_equation (Builder.voltage_branch s info).1
          (Builder.voltage_branch s info).2
          (info.current_src.unknown.getD F_ZERO) branch := by
      unfold Builder.build_branch
      rw [if_neg hnotfalse, if_pos hTRUE]
      try dsimp only
      rw [hcond]
      rfl
    obtain ⟨hxvb, hwfvb, huvb, hrvb, hfu, hf1, hf2, hf3, hf4⟩ :=
      voltage_branch_spec s info env hwf hpw hn
    have hcvb : HasConsts (Builder.voltage_branch s info).1.func :=
      hxvb.hasConsts hc
    have hpar2 : (Builder.voltage_branch s info).1.residual.length =
        (Builder.voltage_branch s info).1.unknowns.length := by
      rw [huvb, hrvb]
      exact hpar
    have hcu2 : uindex (Builder.voltage_branch s info).1.unknowns
        (.current branch.kind) = none := by
      rw [huvb]
      exact hcu
    have hhi2 : uindex (Builder.voltage_branch s info).1.unknowns
        (.kirchoffLaw branch.hi) = some ih := by
      rw [huvb]
      exact hhi
    have hlo2 : uindex (Builder.voltage_branch s info).1.unknowns
        (.kirchoffLaw lo) = some il := by
      rw [huvb]
      exact hlo
    have hri2 : (Builder.voltage_branch s info).1.residual.get? ih =
        some rhi := by
      rw [hrvb]
      exact hri
    have hrl2 : (Builder.voltage_branch s info).1.residual.get? il =
        some rlo := by
      rw [hrvb]
      exact hrl
    obtain ⟨hxq, hwfq, huq, rc, ri, rl, hgc, hgi, hgl, e1, e2, e3, e4, e5,
      e6⟩ :=
      add_source_equation_spec (Builder.voltage_branch s info).1
        (Builder.voltage_branch s info).2
        (info.current_src.unknown.getD F_ZERO) branch env hwfvb hcvb hpar2
        hcu2 hdlo hhi2 hlo2 hne hri2 hrl2
        (lt_of_lt_of_le bhi hxvb.length_le)
        (lt_of_lt_of_le blo hxvb.length_le)
        (by rw [hf1]; exact lt_of_lt_of_le v1 hxvb.length_le)
        (by rw [hf2]; exact lt_of_lt_of_le v2 hxvb.length_le)
        (by rw [hf3]; exact lt_of_lt_of_le v3 hxvb.length_le)
        (by rw [hf4]; exact lt_of_lt_of_le v4 hxvb.length_le)
        (by rw [hfu]; exact lt_of_lt_of_le hvu hxvb.length_le)
        (lt_of_lt_of_le hce hxvb.length_le)
    rw [hf1] at e1
    rw [hfu] at e1
    rw [hf2] at e2
    rw [hf3] at e3
    rw [hf4] at e4
    rw [eval_extends hwf hxvb env v1, eval_extends hwf hxvb env hvu] at e1
    rw [eval_extends hwf hxvb env v2] at e2
    rw [eval_extends hwf hxvb env v3] at e3
    rw [eval_extends hwf hxvb env v4] at e4
    rw [eval_extends hwf hxvb env bhi, eval_extends hwf hxvb env hce] at e5
    rw [eval_extends hwf hxvb env blo, eval_extends hwf hxvb env hce] at e6
    have hulen : (Builder.voltage_branch s info).1.unknowns.length =
        s.unknowns.length := by
      rw [huvb]
    rw [hulen] at hgc
    refine ⟨heq, ?_, rc, ri, rl, ?_, ?_, ?_, ?_, ?_, ?_, ?_, ?_, ?_⟩
    · rw [heq, huq, huvb]
    · rw [heq]
      exact hgc
    · rw [heq]
      exact hgi
    · rw [heq]
      exact hgl
    · rw [heq]
      exact e1
    · rw [heq]
      exact e2
    · rw [heq]
      exact e3
    · rw [heq]
      exact e4
    · rw [heq]
      exact e5
    · rw [heq]
      exact e6

/-- **C2** witness: the guarded theorem applied to the concrete non-trivial
voltage branch of `c2Info2` on `c4State`: the branch-current unknown is
appended and its residual value (value 6 = `fsub 4 4`) evaluates to
`voltage_src.value − designator`. -/
theorem c2_voltage_branch_guarded_witness :
    eval (Builder.build_branch c4State c4Branch c2Info2).func c7Env 6 =
      eval c4State.func c7Env 4 - eval c4State.func c7Env 4 ∧
    (Builder.build_branch c4State c4Branch c2Info2).unknowns =
      c4State.unknowns ++ [.current c4Branch.kind] := by
  obtain ⟨hskip, hact⟩ :=
    c2_voltage_branch_guarded c4State c4Branch c2Info2 c7Env 1 rfl
      (StrictWF.of_strictCheck (by decide)) ⟨rfl, rfl, rfl, rfl⟩
      (ParamsWF.of_paramsCheck (by decide)) rfl rfl rfl rfl (by decide) rfl rfl
      rfl (by decide) (by decide) (by decide) (by decide) (by decide)
      (by decide) (by decide) (by decide) (by decide)
  obtain ⟨heq, hunk, rc, ri, rl, hgc, hgi, hgl, e1, e2, e3, e4, e5, e6⟩ :=
    hact (Or.inr (by decide))
  have hgc2 : (Builder.build_branch c4State c4Branch c2Info2).residual.get?
      c4State.unknowns.length = some { resist := 6 } := by decide
  rw [hgc2] at hgc
  cases hgc
  exact ⟨e1, hunk⟩

/-- **C3** (counterexample). The claim states that a genuine switch branch
builds *every* branch-contribution value as a `phi`. At `c3State`/`c3Info`
(condition value 6, neither `TRUE` nor `FALSE`; the guard holds) both `react`
sides strip to the shared value `F_ZERO`, and the built contribution's
`react` is the shared value `F_ZERO`, whose defining instruction is the
constant `0.0` — not a `phi` (builder.rs:599-607: `select` returns the
shared value when both stripped operands agree). -/
theorem c3_shared_value_skips_phi :
    c3Info.is_voltage_src ≠ TRUE ∧ c3Info.is_voltage_src ≠ FALSE ∧
    (c3State.is_op_dependent c3Info.is_voltage_src ||
      !(c3State.value_dead (c3Info.current_src.unknown.getD F_ZERO)) ||
      !c3Info.voltage_src.is_trivial) = true ∧
    (Builder.switch_branch (Builder.switch_split c3State
        c3Info.is_voltage_src).1 c3Info 1 0).2.react = F_ZERO ∧
    (Builder.switch_branch (Builder.switch_split c3State
        c3Info.is_voltage_src).1 c3Info 1 0).1.func.defs.get? F_ZERO =
      some (.const 0) := by
  decide

set_option maxHeartbeats 1600000 in
/-- **C3** (amended). For a branch whose `is_voltage_src` is neither constant
`TRUE` nor constant `FALSE`: when the condition is not operating-point
dependent, the branch current is dead and the voltage contribution is
trivial, the branch is treated exactly as a current branch; otherwise the
builder splits the layout (`voltage_src_bb` and `next` are the two fresh
blocks, the current block is terminated with `br` on the optbarrier-stripped
condition, `voltage_src_bb` with a `jump`, and the cursor moves to `next`)
and builds the contribution via `select`: each value (designator and the
four branch values) is the *shared* stripped value when the two sides agree,
and a fresh `phi((start, current_value), (voltage_src_bb, voltage_value))`
only otherwise; the result feeds a source equation. Every noise factor goes
through the same `select`, paired with `0.0` on the other side (so it is the
shared value exactly when the factor is `0.0`, and a fresh `phi` otherwise),
and is then scaled by `sqrt(mfactor)`: voltage-side factors are divided by
it, current-side factors multiplied by it, with `mfactor = 1.0` leaving the
selected factor unchanged; the contribution's noise list is the processed
voltage-side factors followed by the processed current-side ones. (Stated
for contributions whose values and noise factors strip trivially.) -/
theorem c3_switch_branch_structure (s : State) (branch : BranchWrite)
    (info : BranchInfo)
    (hnT : info.is_voltage_src ≠ TRUE) (hnF : info.is_voltage_src ≠ FALSE)
    (hwf : StrictWF s.func) (hcs : HasConsts s.func) (hpw : ParamsWF s)
    (hnv : ∀ src ∈ info.voltage_src.noise,
      strip_optbarrier s.func src.factor = src.factor ∧
      src.factor < s.func.defs.length)
    (hnc : ∀ src ∈ info.current_src.noise,
      strip_optbarrier s.func src.factor = src.factor ∧
      src.factor < s.func.defs.length)
    (fu1 : strip_optbarrier s.func (info.voltage_src.unknown.getD F_ZERO) =
      info.voltage_src.unknown.getD F_ZERO)
    (fu2 : strip_optbarrier s.func (info.current_src.unknown.getD F_ZERO) =
      info.current_src.unknown.getD F_ZERO)
    (f1 : strip_optbarrier s.func info.voltage_src.resist =
      info.voltage_src.resist)
    (f2 : strip_optbarrier s.func info.current_src.resist =
      info.current_src.resist)
    (f3 : strip_optbarrier s.func info.voltage_src.react =
      info.voltage_src.react)
    (f4 : strip_optbarrier s.func info.current_src.react =
      info.current_src.react)
    (f5 : strip_optbarrier s.func info.voltage_src.resist_small_signal =
      info.voltage_src.resist_small_signal)
    (f6 : strip_optbarrier s.func info.current_src.resist_small_signal =
      info.current_src.resist_small_signal)
    (f7 : strip_optbarrier s.func info.voltage_src.react_small_signal =
      info.voltage_src.react_small_signal)
    (f8 : strip_optbarrier s.func info.current_src.react_small_signal =
      info.current_src.react_small_signal)
    (bu1 : info.voltage_src.unknown.getD F_ZERO < s.func.defs.length)
    (bu2 : info.current_src.unknown.getD F_ZERO < s.func.defs.length)
    (b1 : info.voltage_src.resist < s.func.defs.length)
    (b2 : info.current_src.resist < s.func.defs.length)
    (b3 : info.voltage_src.react < s.func.defs.length)
    (b4 : info.current_src.react < s.func.defs.length)
    (b5 : info.voltage_src.resist_small_signal < s.func.defs.length)
    (b6 : info.current_src.resist_small_signal < s.func.defs.length)
    (b7 : info.voltage_src.react_small_signal < s.func.defs.length)
    (b8 : info.current_src.react_small_signal < s.func.defs.length) :
    ((s.is_op_dependent info.is_voltage_src ||
        !(s.value_dead (info.current_src.unknown.getD F_ZERO)) ||
        !info.voltage_src.is_trivial) = false →
      Builder.build_branch s branch info =
        Builder.add_kirchoff_law (Builder.current_branch s info).1
          (Builder.current_branch s info).2 branch) ∧
    ((s.is_op_dependent info.is_voltage_src ||
        !(s.value_dead (info.current_src.unknown.getD F_ZERO)) ||
        !info.voltage_src.is_trivial) = true →
      Builder.build_branch s branch info =
        Builder.add_source_equation
          (Builder.switch_branch
            (Builder.switch_split s info.is_voltage_src).1 info
            (Builder.switch_split s info.is_voltage_src).2.1 s.func.cur).1
          (Builder.switch_branch
            (Builder.switch_split s info.is_voltage_src).1 info
            (Builder.switch_split s info.is_voltage_src).2.1 s.func.cur).2
          (info.current_src.unknown.getD F_ZERO) branch ∧
      (Builder.switch_split s info.is_voltage_src).2.1 = s.func.nblocks ∧
      (Builder.switch_split s info.is_voltage_src).2.2 =
        s.func.nblocks + 1 ∧
      (Builder.switch_split s info.is_voltage_src).1.func.nblocks =
        s.func.nblocks + 2 ∧
      (Builder.switch_split s info.is_voltage_src).1.func.cur =
        s.func.nblocks + 1 ∧
      (Builder.switch_split s info.is_voltage_src).1.func.defs =
        s.func.defs ∧
      (Builder.switch_split s info.is_voltage_src).1.func.terms =
        s.func.terms ++
          [(s.func.cur,
            .br (strip_optbarrier s.func info.is_voltage_src)
              s.func.nblocks (s.func.nblocks + 1)),
           (s.func.nblocks, .jump (s.func.nblocks + 1))] ∧
      (∃ m vn cn,
        (Builder.switch_branch
            (Builder.switch_split s info.is_voltage_src).1 info
            (Builder.switch_split s info.is_voltage_src).2.1
            s.func.cur).2.noise = vn ++ cn ∧
        plookup (Builder.switch_branch
            (Builder.switch_split s info.is_voltage_src).1 info
            (Builder.switch_split s info.is_voltage_src).2.1
            s.func.cur).1.params (.paramSysFun .mfactor) = some m ∧
        List.Forall₂ (SwitchVoltageNoise
            (Builder.switch_branch
              (Builder.switch_split s info.is_voltage_src).1 info
              (Builder.switch_split s info.is_voltage_src).2.1
              s.func.cur).1.func m
            (Builder.switch_split s info.is_voltage_src).2.1 s.func.cur)
          info.voltage_src.noise vn ∧
        List.Forall₂ (SwitchCurrentNoise
            (Builder.switch_branch
              (Builder.switch_split s info.is_voltage_src).1 info
              (Builder.switch_split s info.is_voltage_src).2.1
              s.func.cur).1.func m
            (Builder.switch_split s info.is_voltage_src).2.1 s.func.cur)
          info.current_src.noise cn) ∧
      ((info.voltage_src.unknown.getD F_ZERO =
            info.current_src.unknown.getD F_ZERO ∧
          (Builder.switch_branch
              (Builder.switch_split s info.is_voltage_src).1 info
              (Builder.switch_split s info.is_voltage_src).2.1
              s.func.cur).2.unknown =
            some (info.voltage_src.unknown.getD F_ZERO)) ∨
        (info.voltage_src.unknown.getD F_ZERO ≠
            info.current_src.unknown.getD F_ZERO ∧
          ∃ u,
            (Builder.switch_branch
                (Builder.switch_split s info.is_voltage_src).1 info
                (Builder.switch_split s info.is_voltage_src).2.1
                s.func.cur).2.unknown = some u ∧
            (Builder.switch_branch
                (Builder.switch_split s info.is_voltage_src).1 info
                (Builder.switch_split s info.is_voltage_src).2.1
                s.func.cur).1.func.defs.get? u =
              some (.phi2 (s.func.cur, info.current_src.unknown.getD F_ZERO)
                ((Builder.switch_split s info.is_voltage_src).2.1,
                  info.voltage_src.unknown.getD F_ZERO)))) ∧
      ((info.voltage_src.resist = info.current_src.resist ∧
          (Builder.switch_branch
              (Builder.switch_split s info.is_voltage_src).1 info
              (Builder.switch_split s info.is_voltage_src).2.1
              s.func.cur).2.resist = info.voltage_src.resist) ∨
        (info.voltage_src.resist ≠ info.current_src.resist ∧
          (Builder.switch_branch
              (Builder.switch_split s info.is_voltage_src).1 info
              (Builder.switch_split s info.is_voltage_src).2.1
              s.func.cur).1.func.defs.get?
            (Builder.switch_branch
                (Builder.switch_split s info.is_voltage_src).1 info
                (Builder.switch_split s info.is_voltage_src).2.1
                s.func.cur).2.resist =
            some (.phi2 (s.func.cur, info.current_src.resist)
              ((Builder.switch_split s info.is_voltage_src).2.1,
                info.voltage_src.resist)))) ∧
      ((info.voltage_src.react = info.current_src.react ∧
          (Builder.switch_branch
              (Builder.switch_split s info.is_voltage_src).1 info
              (Builder.switch_split s info.is_voltage_src).2.1
              s.func.cur).2.react = info.voltage_src.react) ∨
        (info.voltage_src.react ≠ info.current_src.react ∧
          (Builder.switch_branch
              (Builder.switch_split s info.is_voltage_src).1 info
              (Builder.switch_split s info.is_voltage_src).2.1
              s.func.cur).1.func.defs.get?
            (Builder.switch_branch
                (Builder.switch_split s info.is_voltage_src).1 info
                (Builder.switch_split s info.is_voltage_src).2.1
                s.func.cur).2.react =
            some (.phi2 (s.func.cur, info.current_src.react)
              ((Builder.switch_split s info.is_voltage_src).2.1,
                info.voltage_src.react)))) ∧
      ((info.voltage_src.resist_small_signal =
            info.current_src.resist_small_signal ∧
          (Builder.switch_branch
              (Builder.switch_split s info.is_voltage_src).1 info
              (Builder.switch_split s info.is_voltage_src).2.1
              s.func.cur).2.resist_small_signal =
            info.voltage_src.resist_small_signal) ∨
        (info.voltage_src.resist_small_signal ≠
            info.current_src.resist_small_signal ∧
          (Builder.switch_branch
              (Builder.switch_split s info.is_voltage_src).1 info
              (Builder.switch_split s info.is_voltage_src).2.1
              s.func.cur).1.func.defs.get?
            (Builder.switch_branch
                (Builder.switch_split s info.is_voltage_src).1 info
                (Builder.switch_split s info.is_voltage_src).2.1
                s.func.cur).2.resist_small_signal =
            some (.phi2 (s.func.cur, info.current_src.resist_small_signal)
              ((Builder.switch_split s info.is_voltage_src).2.1,
                info.voltage_src.resist_small_signal)))) ∧
      ((info.voltage_src.react_small_signal =
            info.current_src.react_small_signal ∧
          (Builder.switch_branch
              (Builder.switch_split s info.is_voltage_src).1 info
              (Builder.switch_split s info.is_voltage_src).2.1
              s.func.cur).2.react_small_signal =
            info.voltage_src.react_small_signal) ∨
        (info.voltage_src.react_small_signal ≠
            info.current_src.react_small_signal ∧
          (Builder.switch_branch
              (Builder.switch_split s info.is_voltage_src).1 info
              (Builder.switch_split s info.is_voltage_src).2.1
              s.func.cur).1.func.defs.get?
            (Builder.switch_branch
                (Builder.switch_split s info.is_voltage_src).1 info
                (Builder.switch_split s info.is_voltage_src).2.1
                s.func.cur).2.react_small_signal =
            some (.phi2 (s.func.cur, info.current_src.react_small_signal)
              ((Builder.switch_split s info.is_voltage_src).2.1,
                info.voltage_src.react_small_signal))))) := by
  constructor
  · intro hguard
    unfold Builder.build_branch
    rw [if_neg hnF, if_neg hnT]
    try dsimp only
    rw [hguard]
    rfl
  · intro hguard
    have heq : Builder.build_branch s branch info =
        Builder.add_source_equation
          (Builder.switch_branch
            (Builder.switch_split s info.is_voltage_src).1 info
            (Builder.switch_split s info.is_voltage_src).2.1 s.func.cur).1
          (Builder.switch_branch
            (Builder.switch_split s info.is_voltage_src).1 info
            (Builder.switch_split s info.is_voltage_src).2.1 s.func.cur).2
          (info.current_src.unknown.getD F_ZERO) branch := by
      unfold Builder.build_branch
      rw [if_neg hnF, if_neg hnT]
      try dsimp only
      rw [hguard]
      rfl
    obtain ⟨hxsb, hwfsb, husb, hrsb, hnoise, dU, dR, dRe, dS, dX⟩ :=
      switch_branch_fields (Builder.switch_split s info.is_voltage_src).1
        info (Builder.switch_split s info.is_voltage_src).2.1 s.func.cur
        hwf hcs hpw hnv hnc fu1 fu2 f1 f2 f3 f4 f5 f6 f7 f8 bu1 bu2 b1 b2
        b3 b4 b5 b6 b7 b8
    refine ⟨heq, rfl, rfl, rfl, rfl, rfl, ?_, hnoise, dU, dR, dRe, dS, dX⟩
    show (s.func.terms ++ [(s.func.cur, Term.br
        (strip_optbarrier s.func info.is_voltage_src) s.func.nblocks
        (s.func.nblocks + 1))]) ++
        [(s.func.nblocks, Term.jump (s.func.nblocks + 1))] = _
    rw [List.append_assoc]
    rfl

/-- **C3** witness: at `c3State`/`c3Info` the structure theorem yields the
`br`/`jump` split, a genuine `phi` for the differing `resist` values (value
10 = `phi((start 0, 5), (voltage_src_bb 1, 4))`), the shared value
`F_ZERO` — no `phi` — for the agreeing `react` values, and the noise
characterization; concretely the two noise factors end up as value
13 = `fdiv(phi 8, sqrt 12)` and value 15 = `fmul(phi 9, sqrt 14)` over the
fresh `mfactor` parameter value 11. -/
theorem c3_switch_branch_structure_witness :
    (Builder.switch_split c3State c3Info.is_voltage_src).1.func.terms =
      c3State.func.terms ++
        [(c3State.func.cur,
          .br (strip_optbarrier c3State.func c3Info.is_voltage_src)
            c3State.func.nblocks (c3State.func.nblocks + 1)),
         (c3State.func.nblocks, .jump (c3State.func.nblocks + 1))] ∧
    (Builder.switch_branch (Builder.switch_split c3State
        c3Info.is_voltage_src).1 c3Info
        (Builder.switch_split c3State c3Info.is_voltage_src).2.1
        c3State.func.cur).1.func.defs.get? 10 =
      some (.phi2 (c3State.func.cur, 5)
        ((Builder.switch_split c3State c3Info.is_voltage_src).2.1, 4)) ∧
    (Builder.switch_branch (Builder.switch_split c3State
        c3Info.is_voltage_src).1 c3Info
        (Builder.switch_split c3State c3Info.is_voltage_src).2.1
        c3State.func.cur).2.react = F_ZERO ∧
    (∃ m vn cn,
      (Builder.switch_branch (Builder.switch_split c3State
          c3Info.is_voltage_src).1 c3Info
          (Builder.switch_split c3State c3Info.is_voltage_src).2.1
          c3State.func.cur).2.noise = vn ++ cn ∧
      plookup (Builder.switch_branch (Builder.switch_split c3State
          c3Info.is_voltage_src).1 c3Info
          (Builder.switch_split c3State c3Info.is_voltage_src).2.1
          c3State.func.cur).1.params (.paramSysFun .mfactor) = some m ∧
      List.Forall₂ (SwitchVoltageNoise
          (Builder.switch_branch (Builder.switch_split c3State
            c3Info.is_voltage_src).1 c3Info
            (Builder.switch_split c3State c3Info.is_voltage_src).2.1
            c3State.func.cur).1.func m
          (Builder.switch_split c3State c3Info.is_voltage_src).2.1
          c3State.func.cur)
        c3Info.voltage_src.noise vn ∧
      List.Forall₂ (SwitchCurrentNoise
          (Builder.switch_branch (Builder.switch_split c3State
            c3Info.is_voltage_src).1 c3Info
            (Builder.switch_split c3State c3Info.is_voltage_src).2.1
            c3State.func.cur).1.func m
          (Builder.switch_split c3State c3Info.is_voltage_src).2.1
          c3State.func.cur)
        c3Info.current_src.noise cn) ∧
    (Builder.switch_branch (Builder.switch_split c3State
        c3Info.is_voltage_src).1 c3Info
        (Builder.switch_split c3State c3Info.is_voltage_src).2.1
        c3State.func.cur).2.noise =
      [{ name := 0, kind := 0, factor := 13 },
       { name := 1, kind := 0, factor := 15 }] ∧
    (Builder.switch_branch (Builder.switch_split c3State
        c3Info.is_voltage_src).1 c3Info
        (Builder.switch_split c3State c3Info.is_voltage_src).2.1
        c3State.func.cur).1.func.defs.get? 13 = some (.fdiv 8 12) ∧
    (Builder.switch_branch (Builder.switch_split c3State
        c3Info.is_voltage_src).1 c3Info
        (Builder.switch_split c3State c3Info.is_voltage_src).2.1
        c3State.func.cur).1.func.defs.get? 12 = some (.sqrt 11) ∧
    (Builder.switch_branch (Builder.switch_split c3State
        c3Info.is_voltage_src).1 c3Info
        (Builder.switch_split c3State c3Info.is_voltage_src).2.1
        c3State.func.cur).1.func.defs.get? 8 =
      some (.phi2 (0, F_ZERO) (1, 4)) ∧
    (Builder.switch_branch (Builder.switch_split c3State
        c3Info.is_voltage_src).1 c3Info
        (Builder.switch_split c3State c3Info.is_voltage_src).2.1
        c3State.func.cur).1.func.defs.get? 15 = some (.fmul 9 14) ∧
    (Builder.switch_branch (Builder.switch_split c3State
        c3Info.is_voltage_src).1 c3Info
        (Builder.switch_split c3State c3Info.is_voltage_src).2.1
        c3State.func.cur).1.func.defs.get? 14 = some (.sqrt 11) ∧
    (Builder.switch_branch (Builder.switch_split c3State
        c3Info.is_voltage_src).1 c3Info
        (Builder.switch_split c3State c3Info.is_voltage_src).2.1
        c3State.func.cur).1.func.defs.get? 9 =
      some (.phi2 (0, 5) (1, F_ZERO)) := by
  obtain ⟨ha, hb⟩ :=
    c3_switch_branch_structure c3State c4Branch c3Info (by decide)
      (by decide) (StrictWF.of_strictCheck (by decide)) ⟨rfl, rfl, rfl, rfl⟩
      (ParamsWF.of_paramsCheck (by decide)) (by decide) (by decide) rfl rfl
      (by decide) (by decide) (by decide) (by decide) (by decide)
      (by decide) (by decide) (by decide) (by decide) (by decide)
      (by decide) (by decide) (by decide) (by decide) (by decide)
      (by decide) (by decide) (by decide)
  obtain ⟨heq, hvbb, hnext, hnb, hcur, hdefs, hterms, hnoise, dU, dR, dRe,
    dS, dX⟩ := hb (by decide)
  rcases dR with ⟨h45, _⟩ | ⟨_, hphi⟩
  · exact absurd h45 (by decide)
  · have hres : (Builder.switch_branch (Builder.switch_split c3State
        c3Info.is_voltage_src).1 c3Info
        (Builder.switch_split c3State c3Info.is_voltage_src).2.1
        c3State.func.cur).2.resist = 10 := by decide
    rw [hres] at hphi
    rcases dRe with ⟨_, hshare⟩ | ⟨hne0, _⟩
    · exact ⟨hterms, hphi, hshare, hnoise, by decide, by decide, by decide,
        by decide, by decide, by decide, by decide⟩
    · exact absurd rfl hne0

/-- **C4**. For a branch whose `is_voltage_src` value is the constant `FALSE`
(a current branch): if the branch current is live as a parameter the builder
takes the source-equation path (and the branch-current unknown
`Current(branch)` is in the unknown set afterwards); otherwise it applies
Kirchhoff's law — the current-source contribution is added to the `hi` node's
residual (all four fields) and subtracted from the `lo` node's residual
(when a `lo` node exists). -/
theorem c4_current_branch_dispatch (s : State) (branch : BranchWrite)
    (info : BranchInfo) (env : Env) (lo : Nat) {ih il : Nat}
    {rhi rlo : Residual}
    (hfalse : info.is_voltage_src = FALSE)
    (hwf : StrictWF s.func) (hc : HasConsts s.func) (hpw : ParamsWF s)
    (hdlo : branch.lo = some lo)
    (hhi : uindex s.unknowns (.kirchoffLaw branch.hi) = some ih)
    (hlo : uindex s.unknowns (.kirchoffLaw lo) = some il)
    (hne : il ≠ ih)
    (hri : s.residual.get? ih = some rhi)
    (hrl : s.residual.get? il = some rlo)
    (b1 : rhi.resist < s.func.defs.length)
    (b2 : rhi.react < s.func.defs.length)
    (b3 : rhi.resist_small_signal < s.func.defs.length)
    (b4 : rhi.react_small_signal < s.func.defs.length)
    (b5 : rlo.resist < s.func.defs.length)
    (b6 : rlo.react < s.func.defs.length)
    (b7 : rlo.resist_small_signal < s.func.defs.length)
    (b8 : rlo.react_small_signal < s.func.defs.length)
    (g1 : info.current_src.resist < s.func.defs.length)
    (g2 : info.current_src.react < s.func.defs.length)
    (g3 : info.current_src.resist_small_signal < s.func.defs.length)
    (g4 : info.current_src.react_small_signal < s.func.defs.length)
    (hn : ∀ n ∈ info.current_src.noise, n.factor < s.func.defs.length) :
    (s.is_param_live (.current branch.kind) = true →
      Builder.build_branch s branch info =
        Builder.add_source_equation (Builder.current_branch s info).1
          (Builder.current_branch s info).2
          (info.current_src.unknown.getD F_ZERO) branch ∧
      SimUnknownKind.current branch.kind ∈
        (Builder.build_branch s branch info).unknowns) ∧
    (s.is_param_live (.current branch.kind) = false →
      Builder.build_branch s branch info =
        Builder.add_kirchoff_law (Builder.current_branch s info).1
          (Builder.current_branch s info).2 branch ∧
      (Builder.build_branch s branch info).unknowns = s.unknowns ∧
      ∃ ri rl,
        (Builder.build_branch s branch info).residual.get? ih = some ri ∧
        (Builder.build_branch s branch info).residual.get? il = some rl ∧
        eval (Builder.build_branch s branch info).func env ri.resist =
          eval s.func env rhi.resist +
            eval s.func env info.current_src.resist ∧
        eval (Builder.build_branch s branch info).func env ri.react =
          eval s.func env rhi.react + eval s.func env info.current_src.react ∧
        eval (Builder.build_branch s branch info).func env
            ri.resist_small_signal =
          eval s.func env rhi.resist_small_signal +
            eval s.func env info.current_src.resist_small_signal ∧
        eval (Builder.build_branch s branch info).func env
            ri.react_small_signal =
          eval s.func env rhi.react_small_signal +
            eval s.func env info.current_src.react_small_signal ∧
        eval (Builder.build_branch s branch info).func env rl.resist =
          eval s.func env rlo.resist -
            eval s.func env info.current_src.resist ∧
        eval (Builder.build_branch s branch info).func env rl.react =
          eval s.func env rlo.react - eval s.func env info.current_src.react ∧
        eval (Builder.build_branch s branch info).func env
            rl.resist_small_signal =
          eval s.func env rlo.resist_small_signal -
            eval s.func env info.current_src.resist_small_signal ∧
        eval (Builder.build_branch s branch info).func env
            rl.react_small_signal =
          eval s.func env rlo.react_small_signal -
            eval s.func env info.current_src.react_small_signal) := by
  constructor
  · intro hlive
    have heq : Builder.build_branch s branch info =
        Builder.add_source_equation (Builder.current_branch s info).1
          (Builder.current_branch s info).2
          (info.current_src.unknown.getD F_ZERO) branch := by
      unfold Builder.build_branch
      rw [if_pos hfalse, hlive]
      rfl
    refine ⟨heq, ?_⟩
    rw [heq]
    exact add_source_equation_mem _ _ _ _
  · intro hlive
    have heq : Builder.build_branch s branch info =
        Builder.add_kirchoff_law (Builder.current_branch s info).1
          (Builder.current_branch s info).2 branch := by
      unfold Builder.build_branch
      rw [if_pos hfalse, hlive]
      rfl
    obtain ⟨hxcb, hwfcb, hucb, hrcb, hcu, hf1, hf2, hf3, hf4⟩ :=
      current_branch_spec s info env hwf hpw hn
    have hccb : HasConsts (Builder.current_branch s info).1.func :=
      hxcb.hasConsts hc
    have hhi2 : uindex (Builder.current_branch s info).1.unknowns
        (.kirchoffLaw branch.hi) = some ih := by
      rw [hucb]
      exact hhi
    have hlo2 : uindex (Builder.current_branch s info).1.unknowns
        (.kirchoffLaw lo) = some il := by
      rw [hucb]
      exact hlo
    have hri2 : (Builder.current_branch s info).1.residual.get? ih =
        some rhi := by
      rw [hrcb]
      exact hri
    have hrl2 : (Builder.current_branch s info).1.residual.get? il =
        some rlo := by
      rw [hrcb]
      exact hrl
    obtain ⟨hxk, hwfk, huk, ri, rl, hgi, hgl, e1, e2, e3, e4, e5, e6, e7, e8⟩ :=
      add_kirchoff_law_spec (Builder.current_branch s info).1
        (Builder.current_branch s info).2 branch env hwfcb hccb hdlo
        hhi2 hlo2 hne hri2 hrl2
        (lt_of_lt_of_le b1 hxcb.length_le) (lt_of_lt_of_le b2 hxcb.length_le)
        (lt_of_lt_of_le b3 hxcb.length_le) (lt_of_lt_of_le b4 hxcb.length_le)
        (lt_of_lt_of_le b5 hxcb.length_le) (lt_of_lt_of_le b6 hxcb.length_le)
        (lt_of_lt_of_le b7 hxcb.length_le) (lt_of_lt_of_le b8 hxcb.length_le)
        (by rw [hf1]; exact lt_of_lt_of_le g1 hxcb.length_le)
        (by rw [hf2]; exact lt_of_lt_of_le g2 hxcb.length_le)
        (by rw [hf3]; exact lt_of_lt_of_le g3 hxcb.length_le)
        (by rw [hf4]; exact lt_of_lt_of_le g4 hxcb.length_le)
    rw [hf1] at e1 e5
    rw [hf2] at e2 e6
    rw [hf3] at e3 e7
    rw [hf4] at e4 e8
    rw [eval_extends hwf hxcb env b1, eval_extends hwf hxcb env g1] at e1
    rw [eval_extends hwf hxcb env b2, eval_extends hwf hxcb env g2] at e2
    rw [eval_extends hwf hxcb env b3, eval_extends hwf hxcb env g3] at e3
    rw [eval_extends hwf hxcb env b4, eval_extends hwf hxcb env g4] at e4
    rw [eval_extends hwf hxcb env b5, eval_extends hwf hxcb env g1] at e5
    rw [eval_extends hwf hxcb env b6, eval_extends hwf hxcb env g2] at e6
    rw [eval_extends hwf hxcb env b7, eval_extends hwf hxcb env g3] at e7
    rw [eval_extends hwf hxcb env b8, eval_extends hwf hxcb env g4] at e8
    refine ⟨heq, ?_, ri, rl, ?_, ?_, ?_, ?_, ?_, ?_, ?_, ?_, ?_, ?_⟩
    · rw [heq, huk, hucb]
    · rw [heq]
      exact hgi
    · rw [heq]
      exact hgl
    · rw [heq]
      exact e1
    · rw [heq]
      exact e2
    · rw [heq]
      exact e3
    · rw [heq]
      exact e4
    · rw [heq]
      exact e5
    · rw [heq]
      exact e6
    · rw [heq]
      exact e7
    · rw [heq]
      exact e8

/-- **C4** witness: the dispatch theorem applied to the concrete two-node
current branch of `c4State` (current not probed): the current source's value
4 is added at node 0's residual and subtracted (value `fneg 4` = 6) at
node 1's. -/
theorem c4_current_branch_dispatch_witness :
    eval (Builder.build_branch c4State c4Branch c4Info).func c7Env 4 =
      eval c4State.func c7Env F_ZERO + eval c4State.func c7Env 4 ∧
    eval (Builder.build_branch c4State c4Branch c4Info).func c7Env 6 =
      eval c4State.func c7Env F_ZERO - eval c4State.func c7Env 4 := by
  obtain ⟨hlive, hnl⟩ :=
    c4_current_branch_dispatch c4State c4Branch c4Info c7Env 1 rfl
      (StrictWF.of_strictCheck (by decide)) ⟨rfl, rfl, rfl, rfl⟩
      (ParamsWF.of_paramsCheck (by decide)) rfl rfl rfl (by decide)
      rfl rfl (by decide) (by decide) (by decide) (by decide) (by decide)
      (by decide) (by decide) (by decide) (by decide) (by decide) (by decide)
      (by decide) (by decide)
  obtain ⟨heq, hunk, ri, rl, hgi, hgl, e1, e2, e3, e4, e5, e6, e7, e8⟩ :=
    hnl (by decide)
  have hri : (Builder.build_branch c4State c4Branch c4Info).residual.get? 0 =
      some { resist := 4 } := by decide
  rw [hri] at hgi
  cases hgi
  have hrl : (Builder.build_branch c4State c4Branch c4Info).residual.get? 1 =
      some { resist := 6 } := by decide
  rw [hrl] at hgl
  cases hgl
  exact ⟨e1, e5⟩

/-- **C7** (counterexample). The claim states that for a limit-state
observation the builder forms `delta = changed − unchanged`, negated when the
observation is negated. In `c7State` (baseline value 4 = `V(0)`, one negated
observation of derivative unknown 5, `∂resist/∂u₀ = F_ONE`), the built
resist-lim-rhs value is 9 and evaluates to `new_state + baseline = 2 + 3 = 5`,
while the claim's negated delta gives `−(2 − 3) · 1 = 1`: the source emits
`fadd(changed, unchanged)` for a negated observation (builder.rs:239), not
the negated difference. -/
theorem c7_negated_delta_adds_instead_of_subtracting :
    ((Builder.build_lim_rhs c7State c7Derivs).residual.map
        (fun r => r.resist_lim_rhs)) = [9] ∧
    eval (Builder.build_lim_rhs c7State c7Derivs).func c7Env 9 = (5 : ℚ) ∧
    spec_lim_delta (c7Env.par (.newState 0)) (eval c7State.func c7Env 4) true *
        (eval c7State.func c7Env ((dlookup c7Derivs.derivs 6 0).getD F_ZERO) +
          eval c7State.func c7Env
            ((dlookup c7Derivs.derivs F_ZERO 0).getD F_ZERO)) = (1 : ℚ) ∧
    (5 : ℚ) ≠ (1 : ℚ) := by
  refine ⟨rfl, ?_, ?_, by norm_num⟩
  · show (1 : ℚ) * ((2 : ℚ) + (3 : ℚ)) = 5
    norm_num
  · show -((2 : ℚ) - (3 : ℚ)) * ((1 : ℚ) + (0 : ℚ)) = 1
    norm_num

/-- **C7** (amended). For a limit-state observation `(v, neg)` whose value is
the known AD unknown `u`, the builder's per-observation step forms
`delta = fsub(changed, unchanged)`, or `fadd(changed, unchanged)` when `neg`
is set (builder.rs:236-240) — so `delta` evaluates to `new_state + baseline`
in the negated case, not the spec's `−(new_state − baseline)` — and
accumulates `(∂residual/∂u + ∂residual_ss/∂u) · delta` onto both lim-rhs
fields of the targeted residual row, leaving the other residual fields
untouched; `build_lim_rhs` runs exactly this step for every residual row and
every observation of every limit state. -/
theorem c7_lim_rhs_accumulation (di : Builder.DerivInfo) (st un : Nat)
    (v : Nat) (neg : Bool) (s : State) (i : Nat) (env : Env) (r : Residual)
    (u : Nat)
    (hwf : StrictWF s.func) (hc : HasConsts s.func) (hpw : ParamsWF s)
    (hun : un < s.func.defs.length)
    (hu : dindex di.dunknowns v = some u)
    (hr : s.residual.get? i = some r)
    (hrb : r.resist_lim_rhs < s.func.defs.length)
    (hrb2 : r.react_lim_rhs < s.func.defs.length)
    (hdall : ∀ p ∈ di.derivs, p.2 < s.func.defs.length) :
    Builder.build_lim_rhs s di =
      (List.range s.residual.length).foldl
        (fun t j =>
          t.limState.enum.foldl
            (fun t p =>
              p.2.2.foldl (fun t vn => Builder.lim_step di p.1 p.2.1 vn t j) t)
            t)
        s ∧
    Extends s.func (Builder.lim_step di st un (v, neg) s i).func ∧
    StrictWF (Builder.lim_step di st un (v, neg) s i).func ∧
    ∃ r',
      (Builder.lim_step di st un (v, neg) s i).residual =
        s.residual.set i r' ∧
      r'.resist = r.resist ∧ r'.react = r.react ∧
      r'.resist_small_signal = r.resist_small_signal ∧
      r'.react_small_signal = r.react_small_signal ∧
      eval (Builder.lim_step di st un (v, neg) s i).func env
          r'.resist_lim_rhs =
        eval s.func env r.resist_lim_rhs +
          (eval s.func env ((dlookup di.derivs r.resist u).getD F_ZERO) +
            eval s.func env
              ((dlookup di.derivs r.resist_small_signal u).getD F_ZERO)) *
          (if neg then env.par (.newState st) + eval s.func env un
           else env.par (.newState st) - eval s.func env un) ∧
      eval (Builder.lim_step di st un (v, neg) s i).func env
          r'.react_lim_rhs =
        eval s.func env r.react_lim_rhs +
          (eval s.func env ((dlookup di.derivs r.react u).getD F_ZERO) +
            eval s.func env
              ((dlookup di.derivs r.react_small_signal u).getD F_ZERO)) *
          (if neg then env.par (.newState st) + eval s.func env un
           else env.par (.newState st) - eval s.func env un) := by
  refine ⟨rfl, ?_⟩
  unfold Builder.lim_step
  dsimp only
  rw [hu]
  dsimp only
  obtain ⟨hx1, hwf1, hpw1, hlt1, hev1⟩ :=
    ensure_param_spec s (.newState st) env hwf hpw
  have pp := ensure_param_proj s (.newState st)
  rcases hp : Builder.ensure_param s (.newState st) with ⟨s1, changed⟩
  rw [hp] at hx1 hwf1 hpw1 hlt1 hev1 pp
  try dsimp only at hx1
  try dsimp only at hwf1
  try dsimp only at hpw1
  try dsimp only at hlt1
  try dsimp only at hev1
  try dsimp only at pp
  have pres : s1.residual = s.residual := pp.2.2.1
  rw [pres, hr]
  dsimp only
  have hun1 : un < s1.func.defs.length := lt_of_lt_of_le hun hx1.length_le
  have h0 : 0 < s.func.defs.length := by
    have h4 := hc.length_ge
    omega
  cases neg with
  | true =>
    simp only [if_true]
    rcases hfd : s1.func.append (.fadd changed un) with ⟨f2, d2⟩
    have hevd : eval f2 env d2 =
        env.par (.newState st) + eval s.func env un := by
      have h := eval_append_fadd hwf1 env hlt1 hun1
      rw [hfd] at h
      rw [h, hev1, eval_extends hwf hx1 env hun]
    have hxd : Extends s1.func f2 := by
      have h := s1.func.append_extends (.fadd changed un)
      rw [hfd] at h
      exact h
    have hwfd : StrictWF f2 := by
      have h : StrictWF (s1.func.append (.fadd changed un)).1 := by
        refine hwf1.append ?_
        intro a ha
        simp only [IDef.ops, List.mem_cons, List.not_mem_nil, or_false] at ha
        rcases ha with rfl | rfl
        · exact hlt1
        · exact hun1
      rw [hfd] at h
      exact h
    have hd2 : d2 < f2.defs.length := by
      have h : (s1.func.append (.fadd changed un)).2 <
          (s1.func.append (.fadd changed un)).1.defs.length := by
        rw [Func.append_length]
        exact Nat.lt_succ_self _
      rw [hfd] at h
      exact h
    have hxsd : Extends s.func f2 := hx1.trans hxd
    have hcd : HasConsts f2 := hxsd.hasConsts hc
    have hlen : s.func.defs.length ≤ f2.defs.length := hxsd.length_le
    obtain ⟨hxl1, hwfl1, hltl1, hevl1⟩ := add_lim_rhs_spec di env d2 u
      r.resist_lim_rhs r.resist r.resist_small_signal hwfd hcd hd2
      (lt_of_lt_of_le hrb hlen)
      (dlookup_getD_lt (fun p hp2 => lt_of_lt_of_le (hdall p hp2) hlen)
        (lt_of_lt_of_le h0 hlen) _ _)
      (dlookup_getD_lt (fun p hp2 => lt_of_lt_of_le (hdall p hp2) hlen)
        (lt_of_lt_of_le h0 hlen) _ _)
    rcases hl1 : Builder.add_lim_rhs di f2 d2 u r.resist_lim_rhs r.resist
        r.resist_small_signal with ⟨f3, w1⟩
    rw [hl1] at hxl1 hwfl1 hltl1 hevl1
    try dsimp only at hxl1
    try dsimp only at hwfl1
    try dsimp only at hltl1
    try dsimp only at hevl1
    have hlen3 : s.func.defs.length ≤ f3.defs.length :=
      le_trans hlen hxl1.length_le
    have hcl1 : HasConsts f3 := hxl1.hasConsts hcd
    obtain ⟨hxl2, hwfl2, hltl2, hevl2⟩ := add_lim_rhs_spec di env d2 u
      r.react_lim_rhs r.react r.react_small_signal hwfl1 hcl1
      (lt_of_lt_of_le hd2 hxl1.length_le)
      (lt_of_lt_of_le hrb2 hlen3)
      (dlookup_getD_lt (fun p hp2 => lt_of_lt_of_le (hdall p hp2) hlen3)
        (lt_of_lt_of_le h0 hlen3) _ _)
      (dlookup_getD_lt (fun p hp2 => lt_of_lt_of_le (hdall p hp2) hlen3)
        (lt_of_lt_of_le h0 hlen3) _ _)
    rcases hl2 : Builder.add_lim_rhs di f3 d2 u r.react_lim_rhs r.react
        r.react_small_signal with ⟨f4, w2⟩
    rw [hl2] at hxl2 hwfl2 hltl2 hevl2
    try dsimp only at hxl2
    try dsimp only at hwfl2
    try dsimp only at hltl2
    try dsimp only at hevl2
    try dsimp only
    refine ⟨hxsd.trans (hxl1.trans hxl2), hwfl2,
      { r with resist_lim_rhs := w1, react_lim_rhs := w2 },
      rfl, rfl, rfl, rfl, rfl, ?_, ?_⟩
    · show eval f4 env w1 = _
      rw [eval_extends hwfl1 hxl2 env hltl1, hevl1,
        eval_extends hwf hxsd env hrb,
        eval_extends hwf hxsd env (dlookup_getD_lt hdall h0 r.resist u),
        eval_extends hwf hxsd env
          (dlookup_getD_lt hdall h0 r.resist_small_signal u),
        hevd]
    · show eval f4 env w2 = _
      rw [hevl2,
        eval_extends hwf (hxsd.trans hxl1) env hrb2,
        eval_extends hwf (hxsd.trans hxl1) env
          (dlookup_getD_lt hdall h0 r.react u),
        eval_extends hwf (hxsd.trans hxl1) env
          (dlookup_getD_lt hdall h0 r.react_small_signal u),
        eval_extends hwfd hxl1 env hd2, hevd]
  | false =>
    simp only [Bool.false_eq_true, if_false]
    rcases hfd : s1.func.append (.fsub changed un) with ⟨f2, d2⟩
    have hevd : eval f2 env d2 =
        env.par (.newState st) - eval s.func env un := by
      have h := eval_append_fsub hwf1 env hlt1 hun1
      rw [hfd] at h
      rw [h, hev1, eval_extends hwf hx1 env hun]
    have hxd : Extends s1.func f2 := by
      have h := s1.func.append_extends (.fsub changed un)
      rw [hfd] at h
      exact h
    have hwfd : StrictWF f2 := by
      have h : StrictWF (s1.func.append (.fsub changed un)).1 := by
        refine hwf1.append ?_
        intro a ha
        simp only [IDef.ops, List.mem_cons, List.not_mem_nil, or_false] at ha
        rcases ha with rfl | rfl
        · exact hlt1
        · exact hun1
      rw [hfd] at h
      exact h
    have hd2 : d2 < f2.defs.length := by
      have h : (s1.func.append (.fsub changed un)).2 <
          (s1.func.append (.fsub changed un)).1.defs.length := by
        rw [Func.append_length]
        exact Nat.lt_succ_self _
      rw [hfd] at h
      exact h
    have hxsd : Extends s.func f2 := hx1.trans hxd
    have hcd : HasConsts f2 := hxsd.hasConsts hc
    have hlen : s.func.defs.length ≤ f2.defs.length := hxsd.length_le
    obtain ⟨hxl1, hwfl1, hltl1, hevl1⟩ := add_lim_rhs_spec di env d2 u
      r.resist_lim_rhs r.resist r.resist_small_signal hwfd hcd hd2
      (lt_of_lt_of_le hrb hlen)
      (dlookup_getD_lt (fun p hp2 => lt_of_lt_of_le (hdall p hp2) hlen)
        (lt_of_lt_of_le h0 hlen) _ _)
      (dlookup_getD_lt (fun p hp2 => lt_of_lt_of_le (hdall p hp2) hlen)
        (lt_of_lt_of_le h0 hlen) _ _)
    rcases hl1 : Builder.add_lim_rhs di f2 d2 u r.resist_lim_rhs r.resist
        r.resist_small_signal with ⟨f3, w1⟩
    rw [hl1] at hxl1 hwfl1 hltl1 hevl1
    try dsimp only at hxl1
    try dsimp only at hwfl1
    try dsimp only at hltl1
    try dsimp only at hevl1
    have hlen3 : s.func.defs.length ≤ f3.defs.length :=
      le_trans hlen hxl1.length_le
    have hcl1 : HasConsts f3 := hxl1.hasConsts hcd
    obtain ⟨hxl2, hwfl2, hltl2, hevl2⟩ := add_lim_rhs_spec di env d2 u
      r.react_lim_rhs r.react r.react_small_signal hwfl1 hcl1
      (lt_of_lt_of_le hd2 hxl1.length_le)
      (lt_of_lt_of_le hrb2 hlen3)
      (dlookup_getD_lt (fun p hp2 => lt_of_lt_of_le (hdall p hp2) hlen3)
        (lt_of_lt_of_le h0 hlen3) _ _)
      (dlookup_getD_lt (fun p hp2 => lt_of_lt_of_le (hdall p hp2) hlen3)
        (lt_of_lt_of_le h0 hlen3) _ _)
    rcases hl2 : Builder.add_lim_rhs di f3 d2 u r.react_lim_rhs r.react
        r.react_small_signal with ⟨f4, w2⟩
    rw [hl2] at hxl2 hwfl2 hltl2 hevl2
    try dsimp only at hxl2
    try dsimp only at hwfl2
    try dsimp only at hltl2
    try dsimp only at hevl2
    try dsimp only
    refine ⟨hxsd.trans (hxl1.trans hxl2), hwfl2,
      { r with resist_lim_rhs := w1, react_lim_rhs := w2 },
      rfl, rfl, rfl, rfl, rfl, ?_, ?_⟩
    · show eval f4 env w1 = _
      rw [eval_extends hwfl1 hxl2 env hltl1, hevl1,
        eval_extends hwf hxsd env hrb,
        eval_extends hwf hxsd env (dlookup_getD_lt hdall h0 r.resist u),
        eval_extends hwf hxsd env
          (dlookup_getD_lt hdall h0 r.resist_small_signal u),
        hevd]
    · show eval f4 env w2 = _
      rw [hevl2,
        eval_extends hwf (hxsd.trans hxl1) env hrb2,
        eval_extends hwf (hxsd.trans hxl1) env
          (dlookup_getD_lt hdall h0 r.react u),
        eval_extends hwf (hxsd.trans hxl1) env
          (dlookup_getD_lt hdall h0 r.react_small_signal u),
        eval_extends hwfd hxl1 env hd2, hevd]

/-- **C7** witness: the accumulation theorem applied to the concrete negated
observation of `c7State`: the built resist-lim-rhs value (value 9) evaluates
to `new_state + baseline = 2 + 3 = 5`. -/
theorem c7_lim_rhs_accumulation_witness :
    eval (Builder.lim_step c7Derivs 0 4 (5, true) c7State 0).func c7Env 9 =
      (5 : ℚ) := by
  obtain ⟨hfold, hx, hwf, r', hres, h1, h2, h3, h4, hev1, hev2⟩ :=
    c7_lim_rhs_accumulation c7Derivs 0 4 5 true c7State 0 c7Env
      { resist := 6 } 0
      (StrictWF.of_strictCheck (by decide)) ⟨rfl, rfl, rfl, rfl⟩
      (ParamsWF.of_paramsCheck (by decide)) (by decide) rfl rfl
      (by decide) (by decide) (by decide)
  have h9 : (c7State.residual.set 0 r').get? 0 = some r' := rfl
  rw [← hres] at h9
  have h10 : (Builder.lim_step c7Derivs 0 4 (5, true) c7State 0).residual.get?
      0 = some { resist := 6, resist_lim_rhs := 9 } := by decide
  rw [h10] at h9
  cases h9
  refine hev1.trans ?_
  show (0 : ℚ) + ((1 : ℚ) + (0 : ℚ)) * ((2 : ℚ) + (3 : ℚ)) = 5
  norm_num

/-- **C5** (confirmed). After `finish`, every residual, matrix-entry and
noise-source IR value either equals `F_ZERO` or is defined by an `optbarrier`
instruction and is recorded in the function's `output_values` set; moreover,
for a residual row whose sim-unknown is a Kirchhoff law and whose
`resist`/`react` values are non-`F_ZERO`, non-barrier, already-allocated
values, the value inside each field's optbarrier wrapper is
`fmul mfactor original`. The state `Mp` and value `mf` are the result of
ensuring the `mfactor` parameter on the state `M` that `finish` hands to
`ensure_optbarriers`, and the bounds-check hypotheses say all collection
values are already allocated there. -/
theorem c5_optbarrier_anchoring (s : State) (di : Builder.DerivInfo)
    (M Mp t : State) (mf i : Nat) (r : Residual)
    (hM : M = preAnchorState s di)
    (ht : t = Builder.finishFrom s di)
    (hE : Builder.ensure_param M (.paramSysFun .mfactor) = (Mp, mf))
    (hmf : mf < Mp.func.defs.length)
    (hres : resBoundsCheck Mp = true)
    (hnoi : noiseBoundsCheck Mp = true)
    (hjac : jacBoundsCheck Mp = true)
    (hrow : Mp.residual.get? i = some r)
    (hk : Builder.isKirchoff Mp.unknowns i = true)
    (hrz : r.resist ≠ F_ZERO) (hxz : r.react ≠ F_ZERO)
    (hrb : isBarrier (Mp.func.defs.get? r.resist) = false)
    (hxb : isBarrier (Mp.func.defs.get? r.react) = false) :
    ((∀ j r2, t.residual.get? j = some r2 → RowAnchored t r2) ∧
     (∀ j n, t.noise_sources.get? j = some n → Anchored t n.factor) ∧
     (∀ j e, t.jacobian.get? j = some e →
       Anchored t e.resist ∧ Anchored t e.react)) ∧
    (∃ r2 wr wx, t.residual.get? i = some r2 ∧
      t.func.defs.get? r2.resist = some (.optbarrier wr) ∧
      t.func.defs.get? wr = some (.fmul mf r.resist) ∧
      t.func.defs.get? r2.react = some (.optbarrier wx) ∧
      t.func.defs.get? wx = some (.fmul mf r.react)) := by
  subst ht
  subst hM
  have hparts := finishFrom_parts s di
  have hanch := ensure_optbarriers_anchors (preAnchorState s di)
  have hkir := ensure_optbarriers_kirchhoff (preAnchorState s di) Mp mf i r
    hE hmf hres hnoi hjac hrow hk hrz hxz hrb hxb
  constructor
  · refine ⟨?_, ?_, ?_⟩
    · intro j r2 hj
      rw [hparts.2.2.1] at hj
      exact (hanch.1 j r2 hj).congr_all hparts.1 hparts.2.1
    · intro j n hj
      rw [hparts.2.2.2.1] at hj
      exact (hanch.2.1 j n hj).congr hparts.1 hparts.2.1
    · intro j e hj
      rw [hparts.2.2.2.2] at hj
      obtain ⟨h1, h2⟩ := hanch.2.2 j e hj
      exact ⟨h1.congr hparts.1 hparts.2.1, h2.congr hparts.1 hparts.2.1⟩
  · obtain ⟨r2, wr, wx, g0, g1, g2, g3, g4⟩ := hkir
    refine ⟨r2, wr, wx, ?_, ?_, ?_, ?_, ?_⟩
    · rw [hparts.2.2.1]
      exact g0
    · rw [hparts.1]
      exact g1
    · rw [hparts.1]
      exact g2
    · rw [hparts.1]
      exact g3
    · rw [hparts.1]
      exact g4

/-- C5 witness: the concrete one-Kirchhoff-row state with residual values 4
and 5, one noise record and the empty AD oracle satisfies every hypothesis,
and the claim theorem yields anchoring of all collections of
`finish` plus the `fmul mfactor original` wrappers on the Kirchhoff row. -/
theorem c5_optbarrier_anchoring_witness :
    (resBoundsCheck c5Mp = true ∧
     Builder.isKirchoff c5Mp.unknowns 0 = true ∧
     c5Mp.residual.get? 0 = some { resist := 4, react := 5 } ∧
     isBarrier (c5Mp.func.defs.get? 4) = false) ∧
    ((∀ j r2,
        (Builder.finishFrom c5State c5Di).residual.get? j = some r2 →
        RowAnchored (Builder.finishFrom c5State c5Di) r2) ∧
     (∀ j n,
        (Builder.finishFrom c5State c5Di).noise_sources.get? j = some n →
        Anchored (Builder.finishFrom c5State c5Di) n.factor) ∧
     (∀ j e,
        (Builder.finishFrom c5State c5Di).jacobian.get? j = some e →
        Anchored (Builder.finishFrom c5State c5Di) e.resist ∧
        Anchored (Builder.finishFrom c5State c5Di) e.react)) ∧
    (∃ r2 wr wx,
      (Builder.finishFrom c5State c5Di).residual.get? 0 = some r2 ∧
      (Builder.finishFrom c5State c5Di).func.defs.get? r2.resist =
        some (.optbarrier wr) ∧
      (Builder.finishFrom c5State c5Di).func.defs.get? wr =
        some (.fmul c5mf ({ resist := 4, react := 5 } : Residual).resist) ∧
      (Builder.finishFrom c5State c5Di).func.defs.get? r2.react =
        some (.optbarrier wx) ∧
      (Builder.finishFrom c5State c5Di).func.defs.get? wx =
        some (.fmul c5mf ({ resist := 4, react := 5 } : Residual).react)) :=
  ⟨⟨by decide, by decide, by decide, by decide⟩,
   c5_optbarrier_anchoring c5State c5Di c5M c5Mp
     (Builder.finishFrom c5State c5Di) c5mf 0 { resist := 4, react := 5 }
     rfl rfl rfl (by decide) (by decide) (by decide) (by decide) (by decide)
     (by decide) (by decide) (by decide) (by decide) (by decide)⟩

end OpenVAF
